import Mathlib

/-!
# WineJS `LearnWin32` IRC chat engine: client and server

A shallow embedding of `LearnWin32/IrcChatServer/cpp/main.cpp` and
`LearnWin32/IrcChatClient/cpp/main.cpp`, followed by theorems about the
embedded functions.

Conventions of the embedding:

* a `std::string` is the list of its `char`s, a `std::wstring` the list of its
  `wchar_t`s; both are lists of `Char`;
* `std::string::npos` is `none`;
* the Win32 calls whose results the program only consumes
  (`MultiByteToWideChar`, `WideCharToMultiByte`, `send`) are fields of the
  structure `Win32`, so every theorem quantifies over their behaviour;
* socket calls that the program makes are appended to a trace, oldest first.
-/

namespace WineJS

/-! ## `std::string` operations used by the sources -/

/-- The contents of a `std::string`. -/
abbrev Bytes := List Char

/-- The contents of a `std::wstring`. -/
abbrev WString := List Char

/-- The line delimiter `'\n'`. -/
def LF : Char := Char.ofNat 10

/-- The carriage return `'\r'`. -/
def CR : Char := Char.ofNat 13

/-- Index of the first occurrence of `ch` in `s`, `none` when there is none. -/
def findIdx (ch : Char) : Bytes → Option Nat
  | [] => none
  | c :: cs => if c = ch then some 0 else (findIdx ch cs).map (· + 1)

/-- Model of `s.find(ch, pos)`: the least index `i ≥ pos` with `s[i] == ch`. -/
def find (s : Bytes) (ch : Char) (pos : Nat) : Option Nat :=
  (findIdx ch (s.drop pos)).map (· + pos)

/-- Model of `s.substr(pos, len)`. -/
def substr (s : Bytes) (pos len : Nat) : Bytes := (s.drop pos).take len

/-- Model of `s.substr(pos)`. -/
def substrFrom (s : Bytes) (pos : Nat) : Bytes := s.drop pos

/-- Model of `s.erase(pos, len)`. -/
def erase (s : Bytes) (pos len : Nat) : Bytes := s.take pos ++ s.drop (pos + len)

/-- Model of `s.rfind(pat, 0)`: the only position at which a match may start
is `0`, so the result is `0` when `s` starts with `pat` and `npos` otherwise. -/
def rfindAtZero (s pat : Bytes) : Option Nat :=
  if pat.isPrefixOf s then some 0 else none

/-- The statement `if (!line.empty() && line.back() == '\r') line.pop_back();`
of both drain loops. -/
def stripTrailingCR (line : Bytes) : Bytes :=
  if !line.isEmpty && line.getLast? == some CR then line.dropLast else line

/-! ## Frame assembler: the line-extraction loop -/

/-- The inner `while` loop of `DrainClientSocket` (server, lines 169-176) and of
`DrainSocket` (client, lines 266-273), with the call of the line handler replaced
by collecting the line. The first argument bounds the number of iterations; each
iteration erases at least one byte, so `buffer.length` iterations always suffice
(`extractLines_fuel`). Returns the lines in order and the buffer left over. -/
def extractLines : Nat → Bytes → List Bytes × Bytes
  | 0, buffer => ([], buffer)
  | fuel + 1, buffer =>
    match find buffer LF 0 with
    | none => ([], buffer)
    | some newline =>
      let line := substr buffer 0 newline
      let buffer1 := erase buffer 0 (newline + 1)
      let out := extractLines fuel buffer1
      (stripTrailingCR line :: out.1, out.2)

/-- The frames the extraction loop takes from a buffer, in order: each line as it
is handed to the handler, together with the buffer as it is at that moment (the
line and its delimiter erased). -/
def extractFrames : Nat → Bytes → List (Bytes × Bytes)
  | 0, _ => []
  | fuel + 1, buffer =>
    match find buffer LF 0 with
    | none => []
    | some newline =>
      let rest := erase buffer 0 (newline + 1)
      (stripTrailingCR (substr buffer 0 newline), rest) :: extractFrames fuel rest

/-- One feed of the frame assembler: `buffer.append(bytes)` followed by the
extraction loop run to completion. -/
def feed (buffer bytes : Bytes) : List Bytes × Bytes :=
  extractLines (buffer ++ bytes).length (buffer ++ bytes)

/-- Feeding a sequence of chunks one after another, each feed starting from the
buffer the previous one left; the lines of all feeds are concatenated. -/
def feedChunks : Bytes → List Bytes → List Bytes × Bytes
  | buffer, [] => ([], buffer)
  | buffer, chunk :: chunks =>
    let r := feed buffer chunk
    let rest := feedChunks r.2 chunks
    (r.1 ++ rest.1, rest.2)

/-- Wording of the specification: `line` is `raw` with a single trailing
carriage return, if present, stripped (and no more than one). -/
def StrippedOnce (raw line : Bytes) : Prop :=
  raw = line ++ [CR] ∨ (line = raw ∧ raw.getLast? ≠ some CR)

/-! ## Data shared by both programs, and the server's data model -/

/-- A Winsock `SOCKET` handle (an unsigned integer). -/
abbrev SOCKET := Nat

/-- The constant `INVALID_SOCKET`, `(SOCKET)(~0)`. -/
def INVALID_SOCKET : SOCKET := 2 ^ 64 - 1

/-- What one call of `send` reports to the program. -/
inductive SendResult
  /-- The return value is not `SOCKET_ERROR`. -/
  | sent
  /-- `SOCKET_ERROR` with `WSAGetLastError() == WSAEWOULDBLOCK`. -/
  | wouldBlock
  /-- `SOCKET_ERROR` with any other error code. -/
  | fatal
  deriving DecidableEq, Repr

/-- What one call of `recv` reports to the program. -/
inductive RecvResult
  /-- The return value is `bytes.length` and `bytes` were stored; `received []`
  is the return value `0`. -/
  | received (bytes : Bytes)
  /-- `SOCKET_ERROR` with `WSAGetLastError() == WSAEWOULDBLOCK`. -/
  | wouldBlock
  /-- `SOCKET_ERROR` with any other error code. -/
  | error
  deriving DecidableEq, Repr

/-- A socket call made by the program, as recorded in the trace. -/
inductive SocketCall
  | send (s : SOCKET) (payload : Bytes) (result : SendResult)
  | closesocket (s : SOCKET)
  deriving DecidableEq, Repr

/-- The Win32 functions whose results the program consumes. `send n s payload` is
the result of a `send` on socket `s` issued when `n` socket calls have been traced
before it, so the outcome of every single call is arbitrary. -/
structure Win32 where
  MultiByteToWideChar : Bytes → WString
  WideCharToMultiByte : WString → Bytes
  send : Nat → SOCKET → Bytes → SendResult

/-- Model of `Utf8ToWide` (the same function in both programs). -/
def Utf8ToWide (os : Win32) (input : Bytes) : WString :=
  if input.isEmpty then [] else os.MultiByteToWideChar input

/-- Model of `WideToUtf8` (the same function in both programs). -/
def WideToUtf8 (os : Win32) (input : WString) : Bytes :=
  if input.isEmpty then [] else os.WideCharToMultiByte input

/-- Model of `int` increment `x++` on the value: the result is reduced to the range
of a 32-bit `int`. The reduction only acts at `INT_MAX`, where the C++ increment is
undefined; theorems that depend on the counter assume it is below that. -/
def incrementInt (x : Int) : Int := (x + 1 + 2 ^ 31) % 2 ^ 32 - 2 ^ 31

/-- Model of `std::to_wstring(int)`: decimal digits, with a leading minus sign for
negative values. -/
def to_wstring (n : Int) : WString := (toString n).toList

/-- The number a string of decimal digits denotes. -/
def decimalValue (cs : List Char) : Nat := cs.foldl (fun acc c => 10 * acc + (c.toNat - 48)) 0

/-- A `Win32` in which text conversion keeps the characters (as it does for ASCII
text) and every `send` succeeds. -/
def plainWin32 : Win32 :=
  { MultiByteToWideChar := fun s => s, WideCharToMultiByte := fun s => s,
    send := fun _ _ _ => .sent }

namespace Server

/-- The `struct ClientInfo`. -/
structure ClientInfo where
  socket : SOCKET
  nickname : WString
  buffer : Bytes
  deriving DecidableEq, Repr

/-- The `std::unordered_map<SOCKET, ClientInfo>`: its entries in iteration order. -/
abbrev ClientMap := List (SOCKET × ClientInfo)

/-- The globals of the server, the contents of the controls it writes to, and the
trace of socket calls. A window handle is `true` when it is not `nullptr`. -/
structure ServerState where
  g_hwndLog : Bool
  g_hwndClients : Bool
  g_hwndStartButton : Bool
  g_hwndStatus : Bool
  g_listenSocket : SOCKET
  g_serverRunning : Bool
  g_guestCounter : Int
  g_clients : ClientMap
  logText : WString
  clientListBox : List WString
  statusText : WString
  startButtonText : WString
  trace : List SocketCall
  deriving DecidableEq, Repr

/-- The globals as initialised at program start. -/
def initialServerState : ServerState :=
  { g_hwndLog := false, g_hwndClients := false, g_hwndStartButton := false,
    g_hwndStatus := false, g_listenSocket := INVALID_SOCKET, g_serverRunning := false,
    g_guestCounter := 1, g_clients := [], logText := [], clientListBox := [],
    statusText := [], startButtonText := [], trace := [] }

/-- Model of `g_clients.find(key)`: the mapped value, `none` for `end()`. -/
def findClient (key : SOCKET) : ClientMap → Option ClientInfo
  | [] => none
  | (k, v) :: rest => if k = key then some v else findClient key rest

/-- Model of `g_clients.erase(it)` for the entry with key `key`. -/
def eraseClient (key : SOCKET) : ClientMap → ClientMap
  | [] => []
  | (k, v) :: rest => if k = key then rest else (k, v) :: eraseClient key rest

/-- Model of `g_clients[key] = info`: the mapped value is replaced when the key is
present, a new entry is added otherwise. -/
def assignClient (key : SOCKET) (info : ClientInfo) : ClientMap → ClientMap
  | [] => [(key, info)]
  | (k, v) :: rest =>
    if k = key then (k, info) :: rest else (k, v) :: assignClient key info rest

/-- A write through a `ClientInfo &` that refers to the entry under `key`: the
entry takes the new contents; nothing in the map changes when the entry has been
erased in the meantime. -/
def writeClient (key : SOCKET) (client : ClientInfo) : ClientMap → ClientMap
  | [] => []
  | (k, v) :: rest =>
    if k = key then (k, client) :: rest else (k, v) :: writeClient key client rest

/-! ## Server: functions -/

/-- Model of `AppendLog`: the text and a line break are appended to the log control. -/
def AppendLog (st : ServerState) (line : WString) : ServerState :=
  if !st.g_hwndLog then st
  else { st with logText := st.logText ++ (line ++ [CR, LF]) }

/-- Model of `UpdateClientList`: the list box shows the nicknames of `g_clients`. -/
def UpdateClientList (st : ServerState) : ServerState :=
  if !st.g_hwndClients then st
  else { st with clientListBox := st.g_clients.map (fun entry => entry.2.nickname) }

/-- Model of `SetStatusText`. -/
def SetStatusText (st : ServerState) (text : WString) : ServerState :=
  if st.g_hwndStatus then { st with statusText := text } else st

/-- Model of `SendLine(socket, line)`. -/
def SendLine (os : Win32) (socket : SOCKET) (line : Bytes) (st : ServerState) : ServerState :=
  if socket = INVALID_SOCKET then st
  else
    let payload := line ++ [LF]
    { st with trace := st.trace ++ [.send socket payload (os.send st.trace.length socket payload)] }

/-- The `for` loop of `Broadcast`. `done` are the entries the iterator has passed
and kept, the second list those from the iterator on; `g_clients` is their
concatenation throughout. -/
def BroadcastLoop (os : Win32) (payload : Bytes) :
    ClientMap → ClientMap → ServerState → ServerState
  | _, [], st => st
  | done, (s, info) :: rest, st =>
    let result := os.send st.trace.length s payload
    let st1 := { st with trace := st.trace ++ [.send s payload result] }
    if result = .fatal then
      let st2 := { st1 with trace := st1.trace ++ [.closesocket s], g_clients := done ++ rest }
      BroadcastLoop os payload done rest (UpdateClientList st2)
    else
      BroadcastLoop os payload (done ++ [(s, info)]) rest st1

/-- Model of `Broadcast(line)`. -/
def Broadcast (os : Win32) (line : Bytes) (st : ServerState) : ServerState :=
  BroadcastLoop os (line ++ [LF]) [] st.g_clients st

/-- Model of `BroadcastInfo(text)`. -/
def BroadcastInfo (os : Win32) (text : WString) (st : ServerState) : ServerState :=
  Broadcast os ("INFO:".toList ++ WideToUtf8 os text) st

/-- Model of `BroadcastChat(client, message)`. -/
def BroadcastChat (os : Win32) (client : ClientInfo) (message : WString)
    (st : ServerState) : ServerState :=
  Broadcast os
    ("FROM:".toList ++ WideToUtf8 os client.nickname ++ ":".toList ++ WideToUtf8 os message) st

/-- Model of `DisconnectClient(socket)`. -/
def DisconnectClient (os : Win32) (socket : SOCKET) (st : ServerState) : ServerState :=
  match findClient socket st.g_clients with
  | none => st
  | some info =>
    let nick := info.nickname
    let st1 := { st with trace := st.trace ++ [.closesocket socket],
                         g_clients := eraseClient socket st.g_clients }
    let st2 := UpdateClientList st1
    if !nick.isEmpty then
      BroadcastInfo os (nick ++ " left the chat.".toList)
        (AppendLog st2 (nick ++ " disconnected.".toList))
    else st2

/-- Model of `HandleProtocolLine(client, line)`. The parameter `client` is a
reference to the entry of `g_clients` under `key`: the function receives the
contents of the referenced object, writes to it go through to the map
(`writeClient`), and the contents after the call are returned with the state. -/
def HandleProtocolLine (os : Win32) (st : ServerState) (key : SOCKET) (client : ClientInfo)
    (line : Bytes) : ServerState × ClientInfo :=
  if rfindAtZero line "NICK:".toList = some 0 then
    let newNickUtf8 := substrFrom line 5
    let converted := Utf8ToWide os newNickUtf8
    let newNick := if converted.isEmpty then "Guest".toList else converted
    let announcement :=
      if client.nickname.isEmpty then newNick ++ " joined the chat.".toList
      else client.nickname ++ " is now known as ".toList ++ newNick ++ ".".toList
    let client1 := { client with nickname := newNick }
    let st1 := { st with g_clients := writeClient key client1 st.g_clients }
    let st2 := BroadcastInfo os announcement st1
    let st3 := UpdateClientList st2
    (AppendLog st3 announcement, client1)
  else if rfindAtZero line "MSG:".toList = some 0 then
    let message := Utf8ToWide os (substrFrom line 4)
    let named : ServerState × ClientInfo :=
      if client.nickname.isEmpty then
        let client1 :=
          { client with nickname := "Guest".toList ++ to_wstring st.g_guestCounter }
        let st1 := { st with g_guestCounter := incrementInt st.g_guestCounter,
                             g_clients := writeClient key client1 st.g_clients }
        (UpdateClientList st1, client1)
      else (st, client)
    let st2 := AppendLog named.1 (named.2.nickname ++ ": ".toList ++ message)
    (BroadcastChat os named.2 message st2, named.2)
  else if line = "PING".toList then
    (SendLine os client.socket "PONG".toList st, client)
  else (st, client)

/-- The inner `while` loop of `DrainClientSocket` (lines 169-176), `client` being
the reference described at `HandleProtocolLine`. The first argument bounds the
number of iterations; the caller passes the buffer length, which always suffices.
The loop uses the reference again after each handled line. While the entry under
`key` is in the map (`loopKeepsEntry`) this is the behaviour of the C++ loop. Once a
`Broadcast` has erased that entry the C++ reference dangles and the behaviour of the
program is undefined; the function then goes on with the contents the entry had,
which is one of the possible outcomes. -/
def handleBufferedLines (os : Win32) :
    Nat → ServerState → SOCKET → ClientInfo → ServerState × ClientInfo
  | 0, st, _, client => (st, client)
  | fuel + 1, st, key, client =>
    match find client.buffer LF 0 with
    | none => (st, client)
    | some newline =>
      let line := substr client.buffer 0 newline
      let client1 := { client with buffer := erase client.buffer 0 (newline + 1) }
      let st1 := { st with g_clients := writeClient key client1 st.g_clients }
      let r := HandleProtocolLine os st1 key client1 (stripTrailingCR line)
      handleBufferedLines os fuel r.1 key r.2

/-- Model of `DrainClientSocket(client)`. The list holds what the successive calls
of `recv` report; a call beyond the list reports "would block". As for the inner
loop, this is the behaviour of the C++ function while the entry under `key` is in
the map (`drainKeepsEntry`); after the entry has been erased the function goes on
with the contents the entry had. -/
def DrainClientSocket (os : Win32) :
    List RecvResult → ServerState → SOCKET → ClientInfo → ServerState
  | [], st, _, _ => st
  | .received bytes :: reads, st, key, client =>
    if 0 < bytes.length then
      let client1 := { client with buffer := client.buffer ++ bytes }
      let st1 := { st with g_clients := writeClient key client1 st.g_clients }
      let r := handleBufferedLines os client1.buffer.length st1 key client1
      DrainClientSocket os reads r.1 key r.2
    else DisconnectClient os client.socket st
  | .wouldBlock :: _, st, _, _ => st
  | .error :: _, st, _, client => DisconnectClient os client.socket st

/-- Model of `StopServer`. -/
def StopServer (st : ServerState) : ServerState :=
  let st1 :=
    if st.g_listenSocket ≠ INVALID_SOCKET then
      { st with trace := st.trace ++ [.closesocket st.g_listenSocket],
                g_listenSocket := INVALID_SOCKET }
    else st
  let st2 := { st1 with
    trace := st1.trace ++ st1.g_clients.map (fun entry => SocketCall.closesocket entry.1),
    g_clients := [], g_serverRunning := false }
  let st3 := SetStatusText (UpdateClientList st2) "Server stopped.".toList
  if st3.g_hwndStartButton then { st3 with startButtonText := "Start Server".toList } else st3

/-- Model of `StartServer`. `outcome` is `none` when the port text is not a
positive number or one of `GetAddrInfoW`, `socket`, `bind`, `listen`,
`WSAAsyncSelect` fails (the function then returns `false` and changes no global),
and the listening socket with the port otherwise. -/
def StartServer (st : ServerState) (outcome : Option (SOCKET × Int)) : ServerState × Bool :=
  match outcome with
  | none => (st, false)
  | some (listenSocket, port) =>
    let st1 := { st with g_listenSocket := listenSocket, g_serverRunning := true }
    let st2 := if st1.g_hwndStartButton then { st1 with startButtonText := "Stop Server".toList }
               else st1
    let st3 := SetStatusText st2 ("Listening on port ".toList ++ to_wstring port ++ ".".toList)
    (AppendLog st3 ("Server started on port ".toList ++ to_wstring port ++ ".".toList), true)

/-- The network event of a socket message, `WSAGETSELECTEVENT(lParam)`. -/
inductive NetworkEvent
  | FD_ACCEPT
  | FD_READ
  | FD_CLOSE
  | other
  deriving DecidableEq, Repr

/-- A `kSocketMessage` window message together with what the socket calls made
while handling it report: `accepted` is the return value of `accept`,
`asyncSelectOk` whether `WSAAsyncSelect` on the accepted socket succeeds, `reads`
the results of the successive `recv` calls. -/
structure SocketMessage where
  socket : SOCKET
  event : NetworkEvent
  error : Nat
  accepted : SOCKET
  asyncSelectOk : Bool
  reads : List RecvResult
  deriving DecidableEq, Repr

/-- Model of `HandleSocketMessage`. -/
def HandleSocketMessage (os : Win32) (st : ServerState) (m : SocketMessage) : ServerState :=
  if m.error ≠ 0 then DisconnectClient os m.socket st
  else
    match m.event with
    | .FD_ACCEPT =>
      let clientSocket := m.accepted
      if clientSocket = INVALID_SOCKET then st
      else if !m.asyncSelectOk then
        { st with trace := st.trace ++ [.closesocket clientSocket] }
      else
        let info : ClientInfo :=
          { socket := clientSocket,
            nickname := "Guest".toList ++ to_wstring st.g_guestCounter,
            buffer := [] }
        let st1 := { st with g_guestCounter := incrementInt st.g_guestCounter,
                             g_clients := assignClient clientSocket info st.g_clients }
        let st2 := AppendLog st1 (info.nickname ++ " connected.".toList)
        let st3 := BroadcastInfo os (info.nickname ++ " joined the chat.".toList) st2
        UpdateClientList st3
    | .FD_READ =>
      match findClient m.socket st.g_clients with
      | none => st
      | some client => DrainClientSocket os m.reads st m.socket client
    | .FD_CLOSE => DisconnectClient os m.socket st
    | .other => st

/-- The window messages of the server's `MainWndProc` that touch the globals. -/
inductive ServerEvent
  /-- `WM_CREATE`; the flags tell which `CreateWindowExW` calls returned a window. -/
  | create (status startButton log clients : Bool)
  /-- `WM_COMMAND` with control id `3` and code `BN_CLICKED`; `outcome` as in
  `StartServer`. -/
  | startStopClicked (outcome : Option (SOCKET × Int))
  /-- The message `kSocketMessage`. -/
  | socketMessage (m : SocketMessage)
  /-- `WM_DESTROY`. -/
  | destroy
  deriving DecidableEq, Repr

/-- Model of the server's `MainWndProc`, on the messages above. -/
def MainWndProc (os : Win32) (st : ServerState) : ServerEvent → ServerState
  | .create status startButton log clients =>
    { st with
      g_hwndStatus := status, g_hwndStartButton := startButton,
      g_hwndLog := log, g_hwndClients := clients,
      statusText := if status then "Server stopped.".toList else st.statusText,
      startButtonText := if startButton then "Start Server".toList else st.startButtonText }
  | .startStopClicked outcome =>
    if st.g_serverRunning then StopServer st
    else
      let r := StartServer st outcome
      if r.2 then { r.1 with g_serverRunning := true } else r.1
  | .socketMessage m => HandleSocketMessage os st m
  | .destroy => StopServer st

/-- The server after a sequence of window messages. -/
def runServer (os : Win32) (st : ServerState) (events : List ServerEvent) : ServerState :=
  events.foldl (MainWndProc os) st

end Server

/-- Modelled from the spec: no function of the repository sends a `PING`; the wire
table of the specification gives the heartbeat probe as the line `PING`. -/
def pingLine : Bytes := "PING".toList

/-! ## Client (`IrcChatClient/cpp/main.cpp`) -/

namespace Client

/-- The globals of the client, the contents of the controls it reads and writes,
and the trace of socket calls. A window handle is `true` when it is not `nullptr`. -/
structure ClientState where
  g_hwndStatus : Bool
  g_hwndNickname : Bool
  g_hwndConnect : Bool
  g_hwndLog : Bool
  g_hwndMessage : Bool
  g_hwndSend : Bool
  g_socket : SOCKET
  g_connecting : Bool
  g_connected : Bool
  g_recvBuffer : Bytes
  nicknameText : WString
  messageText : WString
  logText : WString
  statusText : WString
  connectButtonText : WString
  sendEnabled : Bool
  messageEnabled : Bool
  trace : List SocketCall
  deriving DecidableEq, Repr

/-- The globals as initialised at program start. -/
def initialClientState : ClientState :=
  { g_hwndStatus := false, g_hwndNickname := false, g_hwndConnect := false,
    g_hwndLog := false, g_hwndMessage := false, g_hwndSend := false,
    g_socket := INVALID_SOCKET, g_connecting := false, g_connected := false,
    g_recvBuffer := [], nicknameText := [], messageText := [], logText := [],
    statusText := [], connectButtonText := [], sendEnabled := true,
    messageEnabled := true, trace := [] }

/-- Model of `AppendLog`: the text and a line break are appended to the log control. -/
def AppendLog (st : ClientState) (line : WString) : ClientState :=
  if !st.g_hwndLog then st
  else { st with logText := st.logText ++ (line ++ [CR, LF]) }

/-- Model of `SendLine(payload)`. -/
def SendLine (os : Win32) (payload : Bytes) (st : ClientState) : ClientState :=
  if st.g_socket = INVALID_SOCKET then st
  else
    let line := payload ++ [LF]
    { st with
      trace := st.trace ++ [.send st.g_socket line (os.send st.trace.length st.g_socket line)] }

/-- Model of `GetWindowTextW(hwnd, buffer, nMaxCount)` followed by the conversion of
the buffer to a `std::wstring`: at most `nMaxCount - 1` characters of the text. -/
def GetWindowTextW (text : WString) (nMaxCount : Nat) : WString := text.take (nMaxCount - 1)

/-- The line `SendNickname` passes to `SendLine` for the nickname `nick`. -/
def nickLine (os : Win32) (nick : WString) : Bytes := "NICK:".toList ++ WideToUtf8 os nick

/-- The line `SendChatMessage` passes to `SendLine` for the text `text`. -/
def msgLine (os : Win32) (text : WString) : Bytes := "MSG:".toList ++ WideToUtf8 os text

/-- Model of `SendNickname`. -/
def SendNickname (os : Win32) (st : ClientState) : ClientState :=
  let buffer := GetWindowTextW st.nicknameText 63
  let nick := if buffer.isEmpty then "Guest".toList else buffer
  SendLine os (nickLine os nick) st

/-- Model of `SendChatMessage`. -/
def SendChatMessage (os : Win32) (st : ClientState) : ClientState :=
  if !st.g_connected then st
  else
    let text := GetWindowTextW st.messageText 511
    if text.isEmpty then st
    else
      let st1 := if st.g_hwndMessage then { st with messageText := [] } else st
      let st2 := AppendLog st1 ("You: ".toList ++ text)
      SendLine os (msgLine os text) st2

/-- Model of `HandleIncomingLine`. -/
def HandleIncomingLine (os : Win32) (st : ClientState) (line : Bytes) : ClientState :=
  if rfindAtZero line "FROM:".toList = some 0 then
    match find line ':' 5 with
    | some secondColon =>
      let nick := substr line 5 (secondColon - 5)
      let text := substrFrom line (secondColon + 1)
      AppendLog st (Utf8ToWide os nick ++ ": ".toList ++ Utf8ToWide os text)
    | none => st
  else if rfindAtZero line "INFO:".toList = some 0 then
    AppendLog st ("* ".toList ++ Utf8ToWide os (substrFrom line 5))
  else if line = "PONG".toList then
    AppendLog st "* Server heartbeat acknowledged.".toList
  else st

/-- Model of `SetStatus`. -/
def SetStatus (st : ClientState) (text : WString) : ClientState :=
  if st.g_hwndStatus then { st with statusText := text } else st

/-- Model of `UpdateControls`. -/
def UpdateControls (st : ClientState) : ClientState :=
  if !st.g_hwndConnect || !st.g_hwndSend then st
  else if st.g_connected then
    { st with connectButtonText := "Disconnect".toList, sendEnabled := true,
              messageEnabled := if st.g_hwndMessage then true else st.messageEnabled }
  else if st.g_connecting then
    { st with connectButtonText := "Cancel".toList, sendEnabled := false,
              messageEnabled := if st.g_hwndMessage then false else st.messageEnabled }
  else
    { st with connectButtonText := "Connect".toList, sendEnabled := false,
              messageEnabled := if st.g_hwndMessage then false else st.messageEnabled }

/-- Model of `MarkConnected`. -/
def MarkConnected (os : Win32) (st : ClientState) : ClientState :=
  if st.g_connected then st
  else
    let st1 := { st with g_connecting := false, g_connected := true }
    let st2 := AppendLog st1 "* Connected.".toList
    let st3 := SetStatus st2 "Connected".toList
    SendNickname os (UpdateControls st3)

/-- Model of `CloseSocket(reason)`. -/
def CloseSocket (st : ClientState) (reason : WString) : ClientState :=
  let st1 :=
    if st.g_socket ≠ INVALID_SOCKET then
      { st with trace := st.trace ++ [.closesocket st.g_socket], g_socket := INVALID_SOCKET }
    else st
  let wasConnected := st1.g_connected || st1.g_connecting
  let st2 := { st1 with g_connected := false, g_connecting := false, g_recvBuffer := [] }
  let st3 := SetStatus (UpdateControls st2) "Disconnected".toList
  if wasConnected && !reason.isEmpty then AppendLog st3 ("* ".toList ++ reason) else st3

/-- The inner `while` loop of `DrainSocket` (lines 266-273). The first argument
bounds the number of iterations; the caller passes the buffer length, which always
suffices. -/
def handleBufferedLines (os : Win32) : Nat → ClientState → ClientState
  | 0, st => st
  | fuel + 1, st =>
    match find st.g_recvBuffer LF 0 with
    | none => st
    | some pos =>
      let line := substr st.g_recvBuffer 0 pos
      let st1 := { st with g_recvBuffer := erase st.g_recvBuffer 0 (pos + 1) }
      handleBufferedLines os fuel (HandleIncomingLine os st1 (stripTrailingCR line))

/-- Model of `DrainSocket`. The list holds what the successive calls of `recv`
report; a call beyond the list reports "would block". -/
def DrainSocket (os : Win32) : List RecvResult → ClientState → ClientState
  | [], st => st
  | .received bytes :: reads, st =>
    if 0 < bytes.length then
      let st1 := { st with g_recvBuffer := st.g_recvBuffer ++ bytes }
      DrainSocket os reads (handleBufferedLines os st1.g_recvBuffer.length st1)
    else CloseSocket st "Server closed the connection.".toList
  | .wouldBlock :: _, st => st
  | .error :: _, st => CloseSocket st "Connection dropped.".toList

/-- Model of `BeginConnect`. `outcome` is `none` when the host or port text is
empty or `GetAddrInfoW` fails (the function then returns `false` and changes no
global); otherwise it holds the values of the locals `sock` and `immediate` after
the loop over the resolved addresses. -/
def BeginConnect (os : Win32) (st : ClientState) (outcome : Option (SOCKET × Bool)) :
    ClientState × Bool :=
  match outcome with
  | none => (st, false)
  | some (sock, immediate) =>
    if sock = INVALID_SOCKET then (st, false)
    else
      let st1 := { st with g_socket := sock }
      if immediate then (MarkConnected os st1, true)
      else
        let st2 := { st1 with g_connecting := true }
        let st3 := UpdateControls (SetStatus st2 "Connecting...".toList)
        (AppendLog st3 "* Connecting...".toList, true)

/-- The network event of a socket message, `WSAGETSELECTEVENT(lParam)`. -/
inductive NetworkEvent
  | FD_CONNECT
  | FD_READ
  | FD_CLOSE
  | other
  deriving DecidableEq, Repr

/-- A `kSocketMessage` window message together with what the successive `recv`
calls made while handling it report. -/
structure SocketMessage where
  socket : SOCKET
  event : NetworkEvent
  error : Nat
  reads : List RecvResult
  deriving DecidableEq, Repr

/-- Model of `HandleSocketMessage`. -/
def HandleSocketMessage (os : Win32) (st : ClientState) (m : SocketMessage) : ClientState :=
  if m.socket ≠ st.g_socket then st
  else if m.error ≠ 0 then CloseSocket st "Socket error.".toList
  else
    match m.event with
    | .FD_CONNECT => MarkConnected os st
    | .FD_READ => DrainSocket os m.reads st
    | .FD_CLOSE => CloseSocket st "Disconnected.".toList
    | .other => st

/-- The window messages of the client's `MainWndProc` that touch the globals, and
the user's edits of the two edit controls the program reads. -/
inductive ClientEvent
  /-- `WM_CREATE`; the flags tell which `CreateWindowExW` calls returned a window. -/
  | create (status nickname connect log message send : Bool)
  /-- `WM_COMMAND` with control id `14` and code `BN_CLICKED`; `outcome` as in
  `BeginConnect`. -/
  | connectClicked (outcome : Option (SOCKET × Bool))
  /-- `WM_COMMAND` with control id `17` and code `BN_CLICKED`. -/
  | sendClicked
  /-- The message `kSocketMessage`. -/
  | socketMessage (m : SocketMessage)
  /-- `WM_DESTROY`. -/
  | destroy
  /-- The user changes the text of the nickname control. -/
  | nicknameEdited (text : WString)
  /-- The user changes the text of the message control. -/
  | messageEdited (text : WString)
  deriving DecidableEq, Repr

/-- Model of the client's `MainWndProc`, on the messages above. -/
def MainWndProc (os : Win32) (st : ClientState) : ClientEvent → ClientState
  | .create status nickname connect log message send =>
    UpdateControls
      { st with
        g_hwndStatus := status, g_hwndNickname := nickname, g_hwndConnect := connect,
        g_hwndLog := log, g_hwndMessage := message, g_hwndSend := send,
        statusText := if status then "Disconnected".toList else st.statusText,
        nicknameText := if nickname then "Guest".toList else st.nicknameText,
        connectButtonText := if connect then "Connect".toList else st.connectButtonText }
  | .connectClicked outcome =>
    if st.g_connected || st.g_connecting then
      SetStatus (CloseSocket st "Disconnected by user.".toList) "Disconnected".toList
    else (BeginConnect os st outcome).1
  | .sendClicked => SendChatMessage os st
  | .socketMessage m => HandleSocketMessage os st m
  | .destroy => CloseSocket st []
  | .nicknameEdited text => if st.g_hwndNickname then { st with nicknameText := text } else st
  | .messageEdited text => if st.g_hwndMessage then { st with messageText := text } else st

/-- The client after a sequence of window messages and edits. -/
def runClient (os : Win32) (st : ClientState) (events : List ClientEvent) : ClientState :=
  events.foldl (MainWndProc os) st

/-- The session is closed: no socket, neither connected nor connecting, and nothing
in the receive buffer. -/
def Closed (st : ClientState) : Prop :=
  st.g_socket = INVALID_SOCKET ∧ st.g_connected = false ∧ st.g_connecting = false
    ∧ st.g_recvBuffer = []

/-- The flags `g_connected` and `g_connecting` are not both set. -/
def FlagsOk (st : ClientState) : Prop :=
  ¬ (st.g_connected = true ∧ st.g_connecting = true)

/-- A client whose window exists, that is connecting on socket 5, and whose nickname
control holds `nick`. -/
def connectingAs (nick : WString) : ClientState :=
  runClient plainWin32 initialClientState
    [.create true true true true true true, .nicknameEdited nick,
     .connectClicked (some (5, false))]

/-- A client connected on socket 5 as `alice`, with the partial line `FROM:bob:hel`
in its receive buffer. -/
def connectedWithPartialLine : ClientState :=
  runClient plainWin32 (connectingAs "alice".toList)
    [.socketMessage ⟨5, .FD_CONNECT, 0, []⟩,
     .socketMessage ⟨5, .FD_READ, 0, [.received "FROM:bob:hel".toList, .wouldBlock]⟩]

/-- One iteration of the client's loop on a frame: the receive buffer becomes the
frame's buffer, then the line is handled. -/
def handleFrame (os : Win32) (st : ClientState) (frame : Bytes × Bytes) : ClientState :=
  HandleIncomingLine os { st with g_recvBuffer := frame.2 } frame.1

/-- The command a line is classified as by the `if` chain of `HandleIncomingLine`,
with the payload the branch extracts. -/
inductive Command
  | IncomingChat (nick text : Bytes)
  | IncomingInfo (text : Bytes)
  | Pong
  | Unrecognized
  deriving DecidableEq, Repr

/-- The conditions of the `if` chain of `HandleIncomingLine`, in its order
(`HandleIncomingLine_decodeLine` relates the two). A `FROM:` line without a
further colon makes the function return without output. -/
def decodeLine (line : Bytes) : Command :=
  if rfindAtZero line "FROM:".toList = some 0 then
    match find line ':' 5 with
    | some secondColon =>
      .IncomingChat (substr line 5 (secondColon - 5)) (substrFrom line (secondColon + 1))
    | none => .Unrecognized
  else if rfindAtZero line "INFO:".toList = some 0 then .IncomingInfo (substrFrom line 5)
  else if line = "PONG".toList then .Pong
  else .Unrecognized

end Client

/-! ## Vocabulary for statements about the server -/

namespace Server

/-- The keys of the map, in iteration order. -/
def keys (m : ClientMap) : List SOCKET := m.map Prod.fst

/-- The `send` calls of a trace: socket, payload and result of each, in order. -/
def sendsOf : List SocketCall → List (SOCKET × Bytes × SendResult)
  | [] => []
  | .send s payload result :: calls => (s, payload, result) :: sendsOf calls
  | .closesocket _ :: calls => sendsOf calls

/-- The socket calls one pass of the `Broadcast` loop makes over the entries
`todo`, when `n` calls have been traced before the pass. -/
def passCalls (os : Win32) (payload : Bytes) : Nat → ClientMap → List SocketCall
  | _, [] => []
  | n, (s, _) :: rest =>
    if os.send n s payload = .fatal then
      .send s payload .fatal :: .closesocket s :: passCalls os payload (n + 2) rest
    else
      .send s payload (os.send n s payload) :: passCalls os payload (n + 1) rest

/-- One iteration of the server's loop on a frame: the buffer of the referenced
entry becomes the frame's buffer, then the line is handled. -/
def handleFrame (os : Win32) (key : SOCKET) (p : ServerState × ClientInfo)
    (frame : Bytes × Bytes) : ServerState × ClientInfo :=
  HandleProtocolLine os
    { p.1 with g_clients := writeClient key { p.2 with buffer := frame.2 } p.1.g_clients }
    key { p.2 with buffer := frame.2 } frame.1

/-- The entries of `todo` one pass of the `Broadcast` loop keeps. -/
def passKept (os : Win32) (payload : Bytes) : Nat → ClientMap → ClientMap
  | _, [] => []
  | n, (s, info) :: rest =>
    if os.send n s payload = .fatal then passKept os payload (n + 2) rest
    else (s, info) :: passKept os payload (n + 1) rest

/-- An entry as `HandleSocketMessage` creates it on `FD_ACCEPT` and the handlers
keep it: it has a name, its `socket` field is its key, and the key is a socket. -/
def EntryOk (key : SOCKET) (client : ClientInfo) : Prop :=
  client.nickname ≠ [] ∧ client.socket = key ∧ key ≠ INVALID_SOCKET

/-- The keys of the map are distinct, as in every `std::unordered_map`, and every
entry satisfies `EntryOk`. -/
def WellFormed (m : ClientMap) : Prop :=
  (keys m).Nodup ∧ ∀ e ∈ m, EntryOk e.1 e.2

/-- Whether the window message makes the server register a connection: a socket
message without error, for `FD_ACCEPT`, where `accept` returns a socket and
`WSAAsyncSelect` succeeds. These are the messages that generate a guest name. -/
def registers : ServerEvent → Bool
  | .socketMessage m =>
    decide (m.error = 0) && decide (m.event = .FD_ACCEPT)
      && decide (m.accepted ≠ INVALID_SOCKET) && m.asyncSelectOk
  | _ => false

/-- The number of connections registered by a sequence of window messages. -/
def registrations (events : List ServerEvent) : Nat := (events.filter registers).length

/-- The socket message by which the listening socket 100 reports a connection that
`accept` returns as socket `s`. -/
def acceptOf (s : SOCKET) : SocketMessage :=
  { socket := 100, event := .FD_ACCEPT, error := 0, accepted := s, asyncSelectOk := true,
    reads := [] }

/-- The socket message by which socket `s` reports data that one `recv` returns as
`bytes`. -/
def readOf (s : SOCKET) (bytes : Bytes) : SocketMessage :=
  { socket := s, event := .FD_READ, error := 0, accepted := INVALID_SOCKET,
    asyncSelectOk := true, reads := [.received bytes, .wouldBlock] }

/-- The server after its window was created, it was started on port 6667 with the
listening socket 100, and it accepted a connection on socket 7. -/
def oneClient : ServerState :=
  runServer plainWin32 initialServerState
    [.create true true true true, .startStopClicked (some (100, 6667)),
     .socketMessage (acceptOf 7)]

/-- A server with two accepted connections, on the sockets 7 and 8. -/
def twoClients : ServerState :=
  { initialServerState with
    g_guestCounter := 3,
    g_clients := [(7, ⟨7, "Guest1".toList, []⟩), (8, ⟨8, "Guest2".toList, []⟩)] }

/-- A `Win32` in which every `send` on socket 8 fails fatally and every other
`send` succeeds; text conversion keeps the characters. -/
def failingAt8 : Win32 :=
  { plainWin32 with send := fun _ s _ => if s = 8 then .fatal else .sent }

/-- What `DrainClientSocket` does with the data the successive `recv` calls
return, in order: the bytes are appended to the buffer of the referenced entry and
every complete line is handled. -/
def feedServer (os : Win32) (key : SOCKET) :
    List Bytes → ServerState × ClientInfo → ServerState × ClientInfo
  | [], p => p
  | bytes :: rest, p =>
    feedServer os key rest
      (handleBufferedLines os (p.2.buffer ++ bytes).length
        { p.1 with g_clients := writeClient key { p.2 with buffer := p.2.buffer ++ bytes } p.1.g_clients }
        key { p.2 with buffer := p.2.buffer ++ bytes })

/-- Whether the reference `client` of the inner loop of `DrainClientSocket` refers
to an entry of the map each time the loop uses it: after every line handled, the
entry under `key` is still in the map. The arguments are those of
`handleBufferedLines`. -/
def loopKeepsEntry (os : Win32) : Nat → ServerState → SOCKET → ClientInfo → Bool
  | 0, _, _, _ => true
  | fuel + 1, st, key, client =>
    match find client.buffer LF 0 with
    | none => true
    | some newline =>
      let line := substr client.buffer 0 newline
      let client1 := { client with buffer := erase client.buffer 0 (newline + 1) }
      let st1 := { st with g_clients := writeClient key client1 st.g_clients }
      let r := HandleProtocolLine os st1 key client1 (stripTrailingCR line)
      (findClient key r.1.g_clients).isSome && loopKeepsEntry os fuel r.1 key r.2

/-- Whether the reference `client` of `DrainClientSocket` refers to an entry of the
map throughout the call: no line handled during the call makes `Broadcast` erase
the entry under `key`. The arguments are those of `DrainClientSocket`. -/
def drainKeepsEntry (os : Win32) :
    List RecvResult → ServerState → SOCKET → ClientInfo → Bool
  | .received bytes :: reads, st, key, client =>
    if 0 < bytes.length then
      let client1 := { client with buffer := client.buffer ++ bytes }
      let st1 := { st with g_clients := writeClient key client1 st.g_clients }
      let r := handleBufferedLines os client1.buffer.length st1 key client1
      loopKeepsEntry os client1.buffer.length st1 key client1
        && drainKeepsEntry os reads r.1 key r.2
    else true
  | _, _, _, _ => true

/-- Whether handling the window message in state `st` keeps the reference of
`DrainClientSocket` on an entry of the map; only an `FD_READ` socket message for a
registered socket calls `DrainClientSocket`. -/
def eventKeepsEntry (os : Win32) (st : ServerState) : ServerEvent → Bool
  | .socketMessage m =>
    if m.error ≠ 0 then true
    else
      match m.event with
      | .FD_READ =>
        match findClient m.socket st.g_clients with
        | none => true
        | some client => drainKeepsEntry os m.reads st m.socket client
      | _ => true
  | _ => true

/-- Whether every window message of the run from `st` keeps the reference of
`DrainClientSocket` on an entry of the map. These are the runs in which no
connection is erased by a broadcast made while its own lines are handled, that is,
the runs in which the C++ program never uses a dangling reference. -/
def runKeepsEntries (os : Win32) : ServerState → List ServerEvent → Bool
  | _, [] => true
  | st, e :: rest => eventKeepsEntry os st e && runKeepsEntries os (MainWndProc os st e) rest

/-- A run of the server: the window is created, the server is started on port 6667
with the listening socket 100, connections are accepted on the sockets 7 and 8,
socket 7 sends `NICK:bob`, and socket 8 reports an error. -/
def sampleRun : List ServerEvent :=
  [.create true true true true, .startStopClicked (some (100, 6667)),
   .socketMessage (acceptOf 7), .socketMessage (acceptOf 8),
   .socketMessage (readOf 7 "NICK:bob\n".toList),
   .socketMessage ⟨8, .FD_READ, 10054, INVALID_SOCKET, true, []⟩]

/-- A `Win32` in which every `send` on socket 7 fails fatally and every other
`send` succeeds; text conversion keeps the characters. -/
def failingAt7 : Win32 :=
  { plainWin32 with send := fun _ s _ => if s = 7 then .fatal else .sent }

/-- A `Win32` in which every `send` on socket 8 reports "would block" and every
other `send` succeeds; text conversion keeps the characters. -/
def blockingAt8 : Win32 :=
  { plainWin32 with send := fun _ s _ => if s = 8 then .wouldBlock else .sent }

end Server

/-! ## Lemmas on the frame assembler -/

theorem findIdx_eq_none {ch : Char} {s : Bytes} : findIdx ch s = none ↔ ch ∉ s := by
  induction s with
  | nil => simp [findIdx]
  | cons c cs ih =>
    by_cases h : c = ch
    · simp [findIdx, h]
    · simp [findIdx, h, ih, Ne.symm h]

theorem findIdx_append_cons {ch : Char} {a t : Bytes} (h : ch ∉ a) :
    findIdx ch (a ++ ch :: t) = some a.length := by
  induction a with
  | nil => simp [findIdx]
  | cons c cs ih =>
    have hc : c ≠ ch := fun e => h (by simp [e])
    have hcs : ch ∉ cs := fun e => h (by simp [e])
    simp [findIdx, hc, ih hcs]

theorem find_zero (s : Bytes) (ch : Char) : find s ch 0 = findIdx ch s := by
  simp [find]

theorem split_at_first (ch : Char) (s : Bytes) :
    ch ∉ s ∨ ∃ a t, ch ∉ a ∧ s = a ++ ch :: t := by
  induction s with
  | nil => left; simp
  | cons c cs ih =>
    by_cases h : c = ch
    · right; exact ⟨[], cs, by simp, by simp [h]⟩
    · rcases ih with ih | ⟨a, t, ha, rfl⟩
      · left; simp [Ne.symm h, ih]
      · right; exact ⟨c :: a, t, by simp [Ne.symm h, ha], by simp⟩

theorem extractLines_none (fuel : Nat) {s : Bytes} (h : LF ∉ s) :
    extractLines fuel s = ([], s) := by
  cases fuel with
  | zero => rfl
  | succ n => simp [extractLines, find_zero, findIdx_eq_none.mpr h]

theorem extractLines_cons (fuel : Nat) {a t : Bytes} (h : LF ∉ a) :
    extractLines (fuel + 1) (a ++ LF :: t)
      = (stripTrailingCR a :: (extractLines fuel t).1, (extractLines fuel t).2) := by
  simp [extractLines, find_zero, findIdx_append_cons h, substr, erase]

/-- The iteration bound is immaterial once it reaches the buffer length. -/
theorem extractLines_fuel_irrel : ∀ (fuel : Nat) (s : Bytes), s.length ≤ fuel →
    ∀ fuel2, s.length ≤ fuel2 → extractLines fuel s = extractLines fuel2 s := by
  intro fuel
  induction fuel with
  | zero =>
    intro s hs fuel2 _
    have : s = [] := List.length_eq_zero.mp (Nat.le_zero.mp hs)
    subst this
    rw [extractLines_none _ (by simp), extractLines_none _ (by simp)]
  | succ n ih =>
    intro s hs fuel2 hs2
    rcases split_at_first LF s with h | ⟨a, t, ha, rfl⟩
    · rw [extractLines_none _ h, extractLines_none _ h]
    · have hlen : (a ++ LF :: t).length = (a.length + t.length) + 1 := by
        simp [Nat.add_assoc]
      rw [hlen] at hs hs2
      obtain ⟨m, rfl⟩ : ∃ m, fuel2 = m + 1 := ⟨fuel2 - 1, by omega⟩
      rw [extractLines_cons _ ha, extractLines_cons _ ha, ih t (by omega) m (by omega)]

theorem extractLines_fuel (fuel : Nat) (s : Bytes) (h : s.length ≤ fuel) :
    extractLines fuel s = extractLines s.length s :=
  extractLines_fuel_irrel fuel s h s.length (Nat.le_refl _)

theorem feed_nil_none {s : Bytes} (h : LF ∉ s) : feed [] s = ([], s) := by
  simp [feed, extractLines_none _ h]

theorem feed_nil_cons {a t : Bytes} (h : LF ∉ a) :
    feed [] (a ++ LF :: t) = (stripTrailingCR a :: (feed [] t).1, (feed [] t).2) := by
  have hlen : (a ++ LF :: t).length = (a.length + t.length) + 1 := by
    simp [Nat.add_assoc]
  simp only [feed, List.nil_append]
  rw [hlen, extractLines_cons _ h, extractLines_fuel (a.length + t.length) t (by omega)]

theorem feed_append (b x : Bytes) : feed b x = feed [] (b ++ x) := rfl

theorem feed_rest_no_LF (s : Bytes) : LF ∉ (feed [] s).2 := by
  generalize hn : s.length = n
  induction n using Nat.strong_induction_on generalizing s with
  | _ n ih =>
    rcases split_at_first LF s with h | ⟨a, t, ha, rfl⟩
    · rw [feed_nil_none h]; exact h
    · rw [feed_nil_cons ha]
      exact ih t.length (by subst hn; simp; omega) t rfl

/-- Splitting the input of a feed in two: lines and residue compose. -/
theorem feed_split (s t : Bytes) :
    feed [] (s ++ t)
      = ((feed [] s).1 ++ (feed (feed [] s).2 t).1, (feed (feed [] s).2 t).2) := by
  generalize hn : s.length = n
  induction n using Nat.strong_induction_on generalizing s with
  | _ n ih =>
    rcases split_at_first LF s with h | ⟨a, u, ha, rfl⟩
    · rw [feed_nil_none h, feed_append]; rfl
    · have e : a ++ LF :: u ++ t = a ++ LF :: (u ++ t) := by simp
      rw [e, feed_nil_cons ha, feed_nil_cons ha, ih u.length (by subst hn; simp; omega) u rfl]
      rfl

theorem feedChunks_eq (b : Bytes) (chunks : List Bytes) (hb : LF ∉ b) :
    feedChunks b chunks = feed b chunks.flatten := by
  induction chunks generalizing b with
  | nil => simp [feedChunks, feed_append b, feed_nil_none hb]
  | cons c cs ih =>
    have hr : LF ∉ (feed b c).2 := by rw [feed_append]; exact feed_rest_no_LF _
    simp only [feedChunks, ih _ hr, List.flatten_cons]
    rw [feed_append b (c ++ cs.flatten), ← List.append_assoc, feed_split (b ++ c), ← feed_append b c]

theorem strippedOnce_strip (a : Bytes) : StrippedOnce a (stripTrailingCR a) := by
  unfold StrippedOnce stripTrailingCR
  by_cases h : a.getLast? = some CR
  · left
    have hne : a ≠ [] := by rintro rfl; simp at h
    have hl : a.isEmpty = false := by cases a <;> simp_all
    have e : a.dropLast ++ [CR] = a := List.dropLast_append_getLast? CR (by simp [h])
    simp [h, hl, e]
  · right
    simp [h]

theorem feed_nil_spec (s : Bytes) :
    ∃ raws : List Bytes,
      (∀ r ∈ raws, LF ∉ r) ∧
      s = (raws.map (· ++ [LF])).flatten ++ (feed [] s).2 ∧
      List.Forall₂ StrippedOnce raws (feed [] s).1 := by
  generalize hn : s.length = n
  induction n using Nat.strong_induction_on generalizing s with
  | _ n ih =>
    rcases split_at_first LF s with h | ⟨a, t, ha, rfl⟩
    · exact ⟨[], by simp, by simp [feed_nil_none h], by simp [feed_nil_none h]⟩
    · obtain ⟨raws, h1, h2, h3⟩ := ih t.length (by subst hn; simp; omega) t rfl
      refine ⟨a :: raws, ?_, ?_, ?_⟩
      · intro r hr
        rcases List.mem_cons.mp hr with rfl | hr
        · exact ha
        · exact h1 r hr
      · rw [feed_nil_cons ha]
        conv_lhs => rw [h2]
        simp
      · rw [feed_nil_cons ha]
        exact List.Forall₂.cons (strippedOnce_strip a) h3

/-! ## Lemmas on the command codec -/

theorem rfindAtZero_append (p x : Bytes) : rfindAtZero (p ++ x) p = some 0 := by
  have h : p.isPrefixOf (p ++ x) = true := List.isPrefixOf_iff_prefix.mpr (List.prefix_append p x)
  simp [rfindAtZero, h]

theorem Client.find_second_colon (n t : Bytes) (hn : ':' ∉ n) :
    find ("FROM:".toList ++ n ++ ':' :: t) ':' 5 = some (n.length + 5) := by
  have h : List.drop 5 ("FROM:".toList ++ n ++ ':' :: t) = n ++ ':' :: t := by
    rw [List.append_assoc]
    exact List.drop_left' (by decide)
  simp only [find, h, findIdx_append_cons hn]
  rfl

theorem Client.decodeLine_from (n t : Bytes) (hn : ':' ∉ n) :
    Client.decodeLine ("FROM:".toList ++ n ++ ':' :: t) = .IncomingChat n t := by
  have h3 : rfindAtZero ("FROM:".toList ++ n ++ ':' :: t) "FROM:".toList = some 0 := by
    rw [List.append_assoc]; exact rfindAtZero_append _ _
  simp only [Client.decodeLine, h3, if_true, Client.find_second_colon n t hn]
  simp [substr, substrFrom]

/-- The client handler acts on a line only through its classification. -/
theorem Client.HandleIncomingLine_decodeLine (os : Win32) (st : Client.ClientState)
    (line : Bytes) :
    Client.HandleIncomingLine os st line
      = match Client.decodeLine line with
        | .IncomingChat nick text =>
          Client.AppendLog st (Utf8ToWide os nick ++ ": ".toList ++ Utf8ToWide os text)
        | .IncomingInfo text => Client.AppendLog st ("* ".toList ++ Utf8ToWide os text)
        | .Pong => Client.AppendLog st "* Server heartbeat acknowledged.".toList
        | .Unrecognized => st := by
  unfold Client.HandleIncomingLine Client.decodeLine
  by_cases h1 : rfindAtZero line "FROM:".toList = some 0
  · rw [if_pos h1, if_pos h1]
    cases find line ':' 5 <;> rfl
  · by_cases h2 : rfindAtZero line "INFO:".toList = some 0
    · rw [if_neg h1, if_neg h1, if_pos h2, if_pos h2]
    · by_cases h3 : line = "PONG".toList
      · rw [if_neg h1, if_neg h1, if_neg h2, if_neg h2, if_pos h3, if_pos h3]
      · rw [if_neg h1, if_neg h1, if_neg h2, if_neg h2, if_neg h3, if_neg h3]

/-! ## Lemmas on `Broadcast` -/

namespace Server

theorem UpdateClientList_trace (st : ServerState) : (UpdateClientList st).trace = st.trace := by
  unfold UpdateClientList; split <;> rfl

theorem UpdateClientList_clients (st : ServerState) :
    (UpdateClientList st).g_clients = st.g_clients := by
  unfold UpdateClientList; split <;> rfl

theorem UpdateClientList_counter (st : ServerState) :
    (UpdateClientList st).g_guestCounter = st.g_guestCounter := by
  unfold UpdateClientList; split <;> rfl

theorem AppendLog_trace (st : ServerState) (l : WString) : (AppendLog st l).trace = st.trace := by
  unfold AppendLog; split <;> rfl

theorem AppendLog_clients (st : ServerState) (l : WString) :
    (AppendLog st l).g_clients = st.g_clients := by
  unfold AppendLog; split <;> rfl

theorem AppendLog_counter (st : ServerState) (l : WString) :
    (AppendLog st l).g_guestCounter = st.g_guestCounter := by
  unfold AppendLog; split <;> rfl

theorem BroadcastLoop_trace (os : Win32) (payload : Bytes) (todo : ClientMap) :
    ∀ (done : ClientMap) (st : ServerState),
      (BroadcastLoop os payload done todo st).trace
        = st.trace ++ passCalls os payload st.trace.length todo := by
  induction todo with
  | nil => intro done st; simp [BroadcastLoop, passCalls]
  | cons e rest ih =>
    intro done st
    obtain ⟨s, info⟩ := e
    by_cases h : os.send st.trace.length s payload = .fatal
    · simp [BroadcastLoop, passCalls, h, ih, UpdateClientList_trace]
    · simp [BroadcastLoop, passCalls, h, ih]

theorem BroadcastLoop_clients (os : Win32) (payload : Bytes) (todo : ClientMap) :
    ∀ (done : ClientMap) (st : ServerState), st.g_clients = done ++ todo →
      (BroadcastLoop os payload done todo st).g_clients
        = done ++ passKept os payload st.trace.length todo := by
  induction todo with
  | nil => intro done st h; simp [BroadcastLoop, passKept, h]
  | cons e rest ih =>
    intro done st hst
    obtain ⟨s, info⟩ := e
    by_cases h : os.send st.trace.length s payload = .fatal
    · simp only [BroadcastLoop, passKept, h, if_true]
      rw [ih]
      · simp [UpdateClientList_trace]
      · simp [UpdateClientList_clients]
    · simp only [BroadcastLoop, passKept, h, if_false]
      rw [ih]
      · simp
      · simp [hst]

theorem BroadcastLoop_counter (os : Win32) (payload : Bytes) (todo : ClientMap) :
    ∀ (done : ClientMap) (st : ServerState),
      (BroadcastLoop os payload done todo st).g_guestCounter = st.g_guestCounter := by
  induction todo with
  | nil => intro done st; rfl
  | cons e rest ih =>
    intro done st
    obtain ⟨s, info⟩ := e
    by_cases h : os.send st.trace.length s payload = .fatal
    · simp [BroadcastLoop, h, ih, UpdateClientList_counter]
    · simp [BroadcastLoop, h, ih]

theorem Broadcast_trace (os : Win32) (line : Bytes) (st : ServerState) :
    (Broadcast os line st).trace
      = st.trace ++ passCalls os (line ++ [LF]) st.trace.length st.g_clients :=
  BroadcastLoop_trace os _ _ _ _

theorem Broadcast_clients (os : Win32) (line : Bytes) (st : ServerState) :
    (Broadcast os line st).g_clients = passKept os (line ++ [LF]) st.trace.length st.g_clients := by
  have h := BroadcastLoop_clients os (line ++ [LF]) st.g_clients [] st rfl
  simpa using h

theorem Broadcast_counter (os : Win32) (line : Bytes) (st : ServerState) :
    (Broadcast os line st).g_guestCounter = st.g_guestCounter :=
  BroadcastLoop_counter os _ _ _ _

/-- Every entry is the target of exactly one `send` of a pass, in iteration order. -/
theorem sendsOf_passCalls_targets (os : Win32) (payload : Bytes) (todo : ClientMap) :
    ∀ n, (sendsOf (passCalls os payload n todo)).map (fun c => (c.1, c.2.1))
      = todo.map (fun e => (e.1, payload)) := by
  induction todo with
  | nil => intro n; rfl
  | cons e rest ih =>
    intro n
    obtain ⟨s, info⟩ := e
    by_cases h : os.send n s payload = .fatal
    · simp [passCalls, sendsOf, h, ih]
    · simp [passCalls, sendsOf, h, ih]

theorem passKept_sublist (os : Win32) (payload : Bytes) (todo : ClientMap) :
    ∀ n, List.Sublist (passKept os payload n todo) todo := by
  induction todo with
  | nil => intro n; simp [passKept]
  | cons e rest ih =>
    intro n
    obtain ⟨s, info⟩ := e
    by_cases h : os.send n s payload = .fatal
    · simp only [passKept, h, if_true]
      exact List.Sublist.cons _ (ih _)
    · simp only [passKept, h, if_false]
      exact List.Sublist.cons₂ _ (ih _)

theorem mem_sendsOf_passCalls (os : Win32) (payload : Bytes) (todo : ClientMap) :
    ∀ n s p r, (s, p, r) ∈ sendsOf (passCalls os payload n todo) → s ∈ keys todo := by
  induction todo with
  | nil => intro n s p r h; simp [passCalls, sendsOf] at h
  | cons e rest ih =>
    intro n s p r hm
    obtain ⟨s0, info⟩ := e
    by_cases h : os.send n s0 payload = .fatal
    · simp only [passCalls, sendsOf, h, if_true, List.mem_cons] at hm
      rcases hm with hm | hm
      · simp [keys, (Prod.mk.inj hm).1]
      · have := ih _ _ _ _ hm
        simp [keys] at this ⊢
        exact Or.inr this
    · simp only [passCalls, sendsOf, h, if_false, List.mem_cons] at hm
      rcases hm with hm | hm
      · simp [keys, (Prod.mk.inj hm).1]
      · have := ih _ _ _ _ hm
        simp [keys] at this ⊢
        exact Or.inr this

/-- The fate of an entry in a pass is decided by the result of the `send` to it. -/
theorem passKept_of_send (os : Win32) (payload : Bytes) (todo : ClientMap)
    (hnd : (keys todo).Nodup) :
    ∀ n s p r, (s, p, r) ∈ sendsOf (passCalls os payload n todo) →
      (r = .fatal → s ∉ keys (passKept os payload n todo)) ∧
      (r ≠ .fatal → ∀ info, (s, info) ∈ todo → (s, info) ∈ passKept os payload n todo) := by
  induction todo with
  | nil => intro n s p r h; simp [passCalls, sendsOf] at h
  | cons e rest ih =>
    intro n s p r hm
    obtain ⟨s0, info0⟩ := e
    have hnd' : (keys rest).Nodup := by
      simp [keys] at hnd ⊢; exact hnd.2
    have hs0 : s0 ∉ keys rest := by
      simp [keys] at hnd ⊢; exact hnd.1
    have sub : ∀ m, ∀ k, k ∈ keys (passKept os payload m rest) → k ∈ keys rest := by
      intro m k hk
      exact (List.Sublist.map Prod.fst (passKept_sublist os payload rest m)).subset hk
    by_cases h : os.send n s0 payload = .fatal
    · simp only [passCalls, sendsOf, h, if_true, List.mem_cons] at hm
      simp only [passKept, h, if_true]
      rcases hm with hm | hm
      · obtain ⟨rfl, -, rfl⟩ : s = s0 ∧ p = payload ∧ r = .fatal := by
          simpa [Prod.ext_iff] using hm
        exact ⟨fun _ hk => hs0 (sub _ _ hk), fun hne => absurd rfl hne⟩
      · have hsr : s ∈ keys rest := mem_sendsOf_passCalls os payload rest _ s p r hm
        obtain ⟨h1, h2⟩ := ih hnd' _ s p r hm
        refine ⟨h1, fun hne info hin => h2 hne info ?_⟩
        rcases List.mem_cons.mp hin with e | hin
        · exact absurd ((Prod.mk.inj e).1 ▸ hsr) hs0
        · exact hin
    · simp only [passCalls, sendsOf, h, if_false, List.mem_cons] at hm
      simp only [passKept, h, if_false]
      rcases hm with hm | hm
      · obtain ⟨rfl, -, rfl⟩ : s = s0 ∧ p = payload ∧ r = os.send n s0 payload := by
          simpa [Prod.ext_iff] using hm
        refine ⟨fun hf => absurd hf h, fun _ info hin => ?_⟩
        rcases List.mem_cons.mp hin with e | hin
        · rw [e]; exact List.mem_cons_self _ _
        · exact absurd (List.mem_map_of_mem Prod.fst hin) hs0
      · have hsr : s ∈ keys rest := mem_sendsOf_passCalls os payload rest _ s p r hm
        obtain ⟨h1, h2⟩ := ih hnd' _ s p r hm
        refine ⟨fun hf hk => ?_, fun hne info hin => ?_⟩
        · simp only [keys, List.map_cons, List.mem_cons] at hk
          rcases hk with e | hk
          · exact hs0 (e ▸ hsr)
          · exact h1 hf hk
        · rcases List.mem_cons.mp hin with e | hin
          · exact absurd ((Prod.mk.inj e).1 ▸ hsr) hs0
          · exact List.mem_cons_of_mem _ (h2 hne info hin)

theorem passCalls_all_sent (os : Win32) (payload : Bytes)
    (hok : ∀ n s p, os.send n s p = .sent) (todo : ClientMap) :
    ∀ n, passCalls os payload n todo
      = (keys todo).map (fun s => SocketCall.send s payload .sent) := by
  induction todo with
  | nil => intro n; rfl
  | cons e rest ih =>
    intro n
    obtain ⟨s, info⟩ := e
    simp [passCalls, hok, ih, keys]

theorem passKept_all_sent (os : Win32) (payload : Bytes)
    (hok : ∀ n s p, os.send n s p = .sent) (todo : ClientMap) :
    ∀ n, passKept os payload n todo = todo := by
  induction todo with
  | nil => intro n; rfl
  | cons e rest ih =>
    intro n
    obtain ⟨s, info⟩ := e
    simp [passKept, hok, ih]

theorem keys_writeClient (key : SOCKET) (c : ClientInfo) (m : ClientMap) :
    keys (writeClient key c m) = keys m := by
  induction m with
  | nil => rfl
  | cons e rest ih =>
    obtain ⟨k, v⟩ := e
    by_cases h : k = key
    · simp [writeClient, keys, h]
    · simp only [writeClient, if_neg h, keys, List.map_cons] at ih ⊢
      rw [ih]

theorem writeClient_same (key : SOCKET) (c : ClientInfo) (m : ClientMap)
    (h : findClient key m = some c) : writeClient key c m = m := by
  induction m with
  | nil => rfl
  | cons e rest ih =>
    obtain ⟨k, v⟩ := e
    by_cases hk : k = key
    · simp only [findClient, if_pos hk, Option.some.injEq] at h
      simp [writeClient, hk, h]
    · simp only [findClient, if_neg hk] at h
      simp [writeClient, hk, ih h]

theorem findClient_writeClient (key : SOCKET) (c : ClientInfo) (m : ClientMap)
    (h : key ∈ keys m) : findClient key (writeClient key c m) = some c := by
  induction m with
  | nil => simp [keys] at h
  | cons e rest ih =>
    obtain ⟨k, v⟩ := e
    by_cases hk : k = key
    · simp [writeClient, findClient, hk]
    · have : key ∈ keys rest := by
        simp only [keys, List.map_cons, List.mem_cons] at h
        rcases h with h | h
        · exact absurd h.symm hk
        · exact h
      simp [writeClient, findClient, hk, ih this]

theorem mem_keys_of_findClient {key : SOCKET} {c : ClientInfo} {m : ClientMap}
    (h : findClient key m = some c) : key ∈ keys m := by
  induction m with
  | nil => simp [findClient] at h
  | cons e rest ih =>
    obtain ⟨k, v⟩ := e
    by_cases hk : k = key
    · simp [keys, hk]
    · simp only [findClient, if_neg hk] at h
      simp only [keys, List.map_cons, List.mem_cons]
      exact Or.inr (ih h)

theorem mem_of_findClient {key : SOCKET} {c : ClientInfo} {m : ClientMap}
    (h : findClient key m = some c) : (key, c) ∈ m := by
  induction m with
  | nil => simp [findClient] at h
  | cons e rest ih =>
    obtain ⟨k, v⟩ := e
    by_cases hk : k = key
    · simp only [findClient, if_pos hk, Option.some.injEq] at h
      simp [hk, h]
    · simp only [findClient, if_neg hk] at h
      exact List.mem_cons_of_mem _ (ih h)

theorem isEmpty_eq_false {α : Type} {l : List α} (h : l ≠ []) : l.isEmpty = false := by
  cases l with
  | nil => exact absurd rfl h
  | cons a t => rfl

theorem HandleProtocolLine_msg (os : Win32) (st : ServerState) (key : SOCKET)
    (client : ClientInfo) (text : Bytes) (hname : client.nickname ≠ []) :
    HandleProtocolLine os st key client ("MSG:".toList ++ text)
      = (BroadcastChat os client (Utf8ToWide os text)
          (AppendLog st (client.nickname ++ ": ".toList ++ Utf8ToWide os text)), client) := by
  have h1 : rfindAtZero ("MSG:".toList ++ text) "NICK:".toList ≠ some 0 := by
    simp [rfindAtZero, List.isPrefixOf]
  have h2 : substrFrom ("MSG:".toList ++ text) 4 = text := by simp [substrFrom]
  rw [HandleProtocolLine, if_neg h1, if_pos (rfindAtZero_append _ _), h2]
  simp only [isEmpty_eq_false hname]
  rfl

theorem HandleProtocolLine_nick (os : Win32) (st : ServerState) (key : SOCKET)
    (client : ClientInfo) (name : Bytes) (hname : client.nickname ≠ [])
    (hnew : Utf8ToWide os name ≠ []) :
    HandleProtocolLine os st key client ("NICK:".toList ++ name)
      = (AppendLog (UpdateClientList
          (BroadcastInfo os
            (client.nickname ++ " is now known as ".toList ++ Utf8ToWide os name ++ ".".toList)
            { st with g_clients :=
                writeClient key { client with nickname := Utf8ToWide os name } st.g_clients }))
          (client.nickname ++ " is now known as ".toList ++ Utf8ToWide os name ++ ".".toList),
         { client with nickname := Utf8ToWide os name }) := by
  have h2 : substrFrom ("NICK:".toList ++ name) 5 = name := by simp [substrFrom]
  rw [HandleProtocolLine, if_pos (rfindAtZero_append _ _), h2]
  simp only [isEmpty_eq_false hname, isEmpty_eq_false hnew]
  rfl

theorem HandleProtocolLine_ping (os : Win32) (st : ServerState) (key : SOCKET)
    (client : ClientInfo) :
    HandleProtocolLine os st key client "PING".toList
      = (SendLine os client.socket "PONG".toList st, client) := by
  have h1 : rfindAtZero "PING".toList "NICK:".toList ≠ some 0 := by decide
  have h2 : rfindAtZero "PING".toList "MSG:".toList ≠ some 0 := by decide
  rw [HandleProtocolLine, if_neg h1, if_neg h2, if_pos rfl]

theorem count_send_eq_one (payload : Bytes) (ks : List SOCKET) (hnd : ks.Nodup)
    (s : SOCKET) (hs : s ∈ ks) :
    (ks.map (fun k => SocketCall.send k payload .sent)).count (.send s payload .sent) = 1 := by
  apply List.count_eq_one_of_mem
  · apply List.Nodup.map _ hnd
    intro a b hab
    injection hab
  · exact List.mem_map_of_mem _ hs

theorem findClient_assignClient (key : SOCKET) (info : ClientInfo) (m : ClientMap) :
    findClient key (assignClient key info m) = some info := by
  induction m with
  | nil => simp [assignClient, findClient]
  | cons e rest ih =>
    obtain ⟨k, v⟩ := e
    by_cases hk : k = key
    · simp [assignClient, findClient, hk]
    · simp [assignClient, findClient, hk, ih]

theorem HandleSocketMessage_accept (os : Win32) (st : ServerState) (m : SocketMessage)
    (herr : m.error = 0) (hev : m.event = .FD_ACCEPT) (hacc : m.accepted ≠ INVALID_SOCKET)
    (hsel : m.asyncSelectOk = true) :
    HandleSocketMessage os st m
      = UpdateClientList (BroadcastInfo os
          ("Guest".toList ++ to_wstring st.g_guestCounter ++ " joined the chat.".toList)
          (AppendLog
            { st with
              g_guestCounter := incrementInt st.g_guestCounter,
              g_clients := assignClient m.accepted
                ⟨m.accepted, "Guest".toList ++ to_wstring st.g_guestCounter, []⟩ st.g_clients }
            ("Guest".toList ++ to_wstring st.g_guestCounter ++ " connected.".toList))) := by
  unfold HandleSocketMessage
  rw [if_neg (by simp [herr]), hev]
  simp only [hacc, if_false, hsel]
  rfl

end Server

/-! ## The drain loops hand the extracted lines to the handlers -/

theorem extractFrames_none (fuel : Nat) {s : Bytes} (h : LF ∉ s) : extractFrames fuel s = [] := by
  cases fuel with
  | zero => rfl
  | succ n => simp [extractFrames, find_zero, findIdx_eq_none.mpr h]

theorem extractFrames_cons (fuel : Nat) {a t : Bytes} (h : LF ∉ a) :
    extractFrames (fuel + 1) (a ++ LF :: t) = (stripTrailingCR a, t) :: extractFrames fuel t := by
  simp [extractFrames, find_zero, findIdx_append_cons h, substr, erase]

/-- The iteration bound of `extractFrames` is immaterial once it reaches the buffer
length. -/
theorem extractFrames_fuel_irrel : ∀ (fuel : Nat) (s : Bytes), s.length ≤ fuel →
    ∀ fuel2, s.length ≤ fuel2 → extractFrames fuel s = extractFrames fuel2 s := by
  intro fuel
  induction fuel with
  | zero =>
    intro s hs fuel2 _
    have : s = [] := List.length_eq_zero.mp (Nat.le_zero.mp hs)
    subst this
    rw [extractFrames_none _ (by simp), extractFrames_none _ (by simp)]
  | succ n ih =>
    intro s hs fuel2 hs2
    rcases split_at_first LF s with h | ⟨a, t, ha, rfl⟩
    · rw [extractFrames_none _ h, extractFrames_none _ h]
    · have hlen : (a ++ LF :: t).length = (a.length + t.length) + 1 := by
        simp [Nat.add_assoc]
      rw [hlen] at hs hs2
      obtain ⟨m, rfl⟩ : ∃ m, fuel2 = m + 1 := ⟨fuel2 - 1, by omega⟩
      rw [extractFrames_cons _ ha, extractFrames_cons _ ha, ih t (by omega) m (by omega)]

/-- The lines of `extractLines` are the lines of the frames, and the buffer it
leaves is the buffer of the last frame (the buffer itself when there is no frame). -/
theorem extractLines_eq_frames : ∀ (fuel : Nat) (s : Bytes),
    extractLines fuel s
      = ((extractFrames fuel s).map Prod.fst,
         ((extractFrames fuel s).getLast?.map Prod.snd).getD s) := by
  intro fuel
  induction fuel with
  | zero => intro s; rfl
  | succ n ih =>
    intro s
    rcases split_at_first LF s with h | ⟨a, t, ha, rfl⟩
    · rw [extractLines_none _ h, extractFrames_none _ h]; rfl
    · rw [extractLines_cons _ ha, extractFrames_cons _ ha, ih t]
      cases hf : extractFrames n t with
      | nil => simp
      | cons x xs =>
        simp only [List.map_cons, List.getLast?_cons_cons]
        cases hl : (x :: xs).getLast? with
        | none => simp at hl
        | some y => rfl

namespace Server

theorem SendLine_clients (os : Win32) (s : SOCKET) (l : Bytes) (st : ServerState) :
    (SendLine os s l st).g_clients = st.g_clients := by
  unfold SendLine; split <;> rfl

theorem HandleProtocolLine_buffer (os : Win32) (st : ServerState) (key : SOCKET)
    (client : ClientInfo) (line : Bytes) :
    (HandleProtocolLine os st key client line).2.buffer = client.buffer := by
  unfold HandleProtocolLine
  by_cases h1 : rfindAtZero line "NICK:".toList = some 0
  · rw [if_pos h1]
  · rw [if_neg h1]
    by_cases h2 : rfindAtZero line "MSG:".toList = some 0
    · rw [if_pos h2]
      by_cases he : client.nickname.isEmpty = true
      · rw [if_pos he]
      · rw [if_neg he]
    · rw [if_neg h2]
      by_cases h3 : line = "PING".toList
      · rw [if_pos h3]
      · rw [if_neg h3]

/-- The server's loop hands to `HandleProtocolLine`, in order, exactly the frames
the extraction loop takes from the buffer. -/
theorem handleBufferedLines_eq_foldl (os : Win32) (key : SOCKET) (fuel : Nat) :
    ∀ (st : ServerState) (client : ClientInfo),
      handleBufferedLines os fuel st key client
        = (extractFrames fuel client.buffer).foldl (handleFrame os key) (st, client) := by
  induction fuel with
  | zero => intro st client; rfl
  | succ n ih =>
    intro st client
    unfold handleBufferedLines extractFrames
    cases hf : find client.buffer LF 0 with
    | none => rfl
    | some newline =>
      simp only [List.foldl_cons]
      rw [ih]
      simp only [handleFrame, HandleProtocolLine_buffer]

/-- The iteration bound the server passes, the buffer length, is enough: a larger
bound gives the same result. -/
theorem handleBufferedLines_fuel (os : Win32) (key : SOCKET) (st : ServerState)
    (client : ClientInfo) (fuel : Nat) (h : client.buffer.length ≤ fuel) :
    handleBufferedLines os fuel st key client
      = handleBufferedLines os client.buffer.length st key client := by
  rw [handleBufferedLines_eq_foldl, handleBufferedLines_eq_foldl,
    extractFrames_fuel_irrel fuel client.buffer h client.buffer.length (Nat.le_refl _)]

end Server

namespace Client

theorem AppendLog_buffer (st : ClientState) (l : WString) :
    (AppendLog st l).g_recvBuffer = st.g_recvBuffer := by
  unfold AppendLog; split <;> rfl

theorem HandleIncomingLine_buffer (os : Win32) (st : ClientState) (line : Bytes) :
    (HandleIncomingLine os st line).g_recvBuffer = st.g_recvBuffer := by
  unfold HandleIncomingLine
  by_cases h1 : rfindAtZero line "FROM:".toList = some 0
  · rw [if_pos h1]
    cases find line ':' 5 with
    | none => rfl
    | some c => exact AppendLog_buffer _ _
  · rw [if_neg h1]
    by_cases h2 : rfindAtZero line "INFO:".toList = some 0
    · rw [if_pos h2]; exact AppendLog_buffer _ _
    · rw [if_neg h2]
      by_cases h3 : line = "PONG".toList
      · rw [if_pos h3]; exact AppendLog_buffer _ _
      · rw [if_neg h3]

/-- The client's loop hands to `HandleIncomingLine`, in order, exactly the frames
the extraction loop takes from the buffer. -/
theorem clientLoop_eq_foldl (os : Win32) (fuel : Nat) :
    ∀ st : ClientState,
      handleBufferedLines os fuel st
        = (extractFrames fuel st.g_recvBuffer).foldl (handleFrame os) st := by
  induction fuel with
  | zero => intro st; rfl
  | succ n ih =>
    intro st
    unfold handleBufferedLines extractFrames
    cases hf : find st.g_recvBuffer LF 0 with
    | none => rfl
    | some pos =>
      simp only [List.foldl_cons]
      rw [ih]
      simp only [handleFrame, HandleIncomingLine_buffer]

/-- The iteration bound the client passes, the buffer length, is enough: a larger
bound gives the same result. -/
theorem clientLoop_fuel (os : Win32) (st : ClientState) (fuel : Nat)
    (h : st.g_recvBuffer.length ≤ fuel) :
    handleBufferedLines os fuel st = handleBufferedLines os st.g_recvBuffer.length st := by
  rw [clientLoop_eq_foldl, clientLoop_eq_foldl,
    extractFrames_fuel_irrel fuel st.g_recvBuffer h st.g_recvBuffer.length (Nat.le_refl _)]

end Client

/-! ## Invariants of the server -/

namespace Server

theorem WellFormed_nil : WellFormed [] := ⟨by simp [keys], by simp⟩

theorem WellFormed_sublist {l m : ClientMap} (h : List.Sublist l m) (hm : WellFormed m) :
    WellFormed l :=
  ⟨(hm.1).sublist (h.map Prod.fst), fun e he => hm.2 e (h.subset he)⟩

theorem mem_writeClient {key : SOCKET} {c : ClientInfo} {m : ClientMap} {e : SOCKET × ClientInfo}
    (h : e ∈ writeClient key c m) : e ∈ m ∨ e = (key, c) := by
  induction m with
  | nil => simp [writeClient] at h
  | cons x rest ih =>
    obtain ⟨k, v⟩ := x
    by_cases hk : k = key
    · simp only [writeClient, if_pos hk, List.mem_cons] at h
      rcases h with h | h
      · right; rw [h, hk]
      · left; exact List.mem_cons_of_mem _ h
    · simp only [writeClient, if_neg hk, List.mem_cons] at h
      rcases h with h | h
      · left; rw [h]; exact List.mem_cons_self _ _
      · rcases ih h with h | h
        · left; exact List.mem_cons_of_mem _ h
        · right; exact h

theorem WellFormed_writeClient {key : SOCKET} {c : ClientInfo} {m : ClientMap}
    (hm : WellFormed m) (hc : EntryOk key c) : WellFormed (writeClient key c m) := by
  refine ⟨by rw [keys_writeClient]; exact hm.1, fun e he => ?_⟩
  rcases mem_writeClient he with h | h
  · exact hm.2 e h
  · rw [h]; exact hc

theorem keys_assignClient (key : SOCKET) (c : ClientInfo) (m : ClientMap) :
    keys (assignClient key c m) = if key ∈ keys m then keys m else keys m ++ [key] := by
  induction m with
  | nil => simp [assignClient, keys]
  | cons x rest ih =>
    obtain ⟨k, v⟩ := x
    by_cases hk : k = key
    · simp [assignClient, keys, hk]
    · have hk' : ¬ key = k := fun h => hk h.symm
      simp only [assignClient, if_neg hk, keys, List.map_cons, List.mem_cons, hk', false_or]
        at ih ⊢
      rw [ih]
      split <;> simp

theorem mem_assignClient {key : SOCKET} {c : ClientInfo} {m : ClientMap}
    {e : SOCKET × ClientInfo} (h : e ∈ assignClient key c m) : e ∈ m ∨ e = (key, c) := by
  induction m with
  | nil => simp [assignClient] at h; exact Or.inr h
  | cons x rest ih =>
    obtain ⟨k, v⟩ := x
    by_cases hk : k = key
    · simp only [assignClient, if_pos hk, List.mem_cons] at h
      rcases h with h | h
      · right; rw [h, hk]
      · left; exact List.mem_cons_of_mem _ h
    · simp only [assignClient, if_neg hk, List.mem_cons] at h
      rcases h with h | h
      · left; rw [h]; exact List.mem_cons_self _ _
      · rcases ih h with h | h
        · left; exact List.mem_cons_of_mem _ h
        · right; exact h

theorem WellFormed_assignClient {key : SOCKET} {c : ClientInfo} {m : ClientMap}
    (hm : WellFormed m) (hc : EntryOk key c) : WellFormed (assignClient key c m) := by
  refine ⟨?_, fun e he => ?_⟩
  · rw [keys_assignClient]
    by_cases h : key ∈ keys m
    · rw [if_pos h]; exact hm.1
    · rw [if_neg h]
      exact List.Nodup.append hm.1 (List.nodup_singleton _) (by simpa using h)
  · rcases mem_assignClient he with h | h
    · exact hm.2 e h
    · rw [h]; exact hc

theorem eraseClient_sublist (key : SOCKET) (m : ClientMap) :
    List.Sublist (eraseClient key m) m := by
  induction m with
  | nil => simp [eraseClient]
  | cons x rest ih =>
    obtain ⟨k, v⟩ := x
    by_cases hk : k = key
    · simp only [eraseClient, if_pos hk]; exact List.sublist_cons_self _ _
    · simp only [eraseClient, if_neg hk]; exact List.Sublist.cons₂ _ ih

theorem Broadcast_wellFormed (os : Win32) (line : Bytes) (st : ServerState)
    (h : WellFormed st.g_clients) : WellFormed (Broadcast os line st).g_clients := by
  rw [Broadcast_clients]
  exact WellFormed_sublist (passKept_sublist os _ _ _) h

theorem DisconnectClient_counter (os : Win32) (socket : SOCKET) (st : ServerState) :
    (DisconnectClient os socket st).g_guestCounter = st.g_guestCounter := by
  unfold DisconnectClient
  cases findClient socket st.g_clients with
  | none => rfl
  | some info =>
    by_cases hn : (!info.nickname.isEmpty) = true
    · simp only [hn, if_true, BroadcastInfo, Broadcast_counter, AppendLog_counter,
        UpdateClientList_counter]
    · simp [hn, UpdateClientList_counter]

theorem DisconnectClient_wellFormed (os : Win32) (socket : SOCKET) (st : ServerState)
    (h : WellFormed st.g_clients) : WellFormed (DisconnectClient os socket st).g_clients := by
  have he : WellFormed (eraseClient socket st.g_clients) :=
    WellFormed_sublist (eraseClient_sublist _ _) h
  unfold DisconnectClient
  cases findClient socket st.g_clients with
  | none => exact h
  | some info =>
    by_cases hn : (!info.nickname.isEmpty) = true
    · simp only [hn, if_true]
      apply Broadcast_wellFormed
      simpa [AppendLog_clients, UpdateClientList_clients] using he
    · simpa [hn, UpdateClientList_clients] using he

/-- What `HandleProtocolLine` keeps when the referenced entry is well formed: the
map stays well formed, so does the referenced entry, and no guest name is generated. -/
theorem HandleProtocolLine_inv (os : Win32) (st : ServerState) (key : SOCKET)
    (client : ClientInfo) (line : Bytes)
    (hwf : WellFormed st.g_clients) (hc : EntryOk key client) :
    WellFormed (HandleProtocolLine os st key client line).1.g_clients ∧
    EntryOk key (HandleProtocolLine os st key client line).2 ∧
    (HandleProtocolLine os st key client line).1.g_guestCounter = st.g_guestCounter := by
  unfold HandleProtocolLine
  by_cases h1 : rfindAtZero line "NICK:".toList = some 0
  · rw [if_pos h1]
    have hn : (if (Utf8ToWide os (substrFrom line 5)).isEmpty = true then "Guest".toList
        else Utf8ToWide os (substrFrom line 5)) ≠ [] := by
      by_cases he : (Utf8ToWide os (substrFrom line 5)).isEmpty = true
      · rw [if_pos he]; decide
      · rw [if_neg he]
        intro h0; rw [h0] at he; exact he rfl
    have hc1 : EntryOk key { client with nickname :=
        (if (Utf8ToWide os (substrFrom line 5)).isEmpty = true then "Guest".toList
          else Utf8ToWide os (substrFrom line 5)) } := ⟨hn, hc.2.1, hc.2.2⟩
    refine ⟨?_, hc1, ?_⟩
    · simp only [AppendLog_clients, UpdateClientList_clients, BroadcastInfo]
      exact Broadcast_wellFormed _ _ _ (WellFormed_writeClient hwf hc1)
    · simp only [AppendLog_counter, UpdateClientList_counter, BroadcastInfo, Broadcast_counter]
  · rw [if_neg h1]
    by_cases h2 : rfindAtZero line "MSG:".toList = some 0
    · rw [if_pos h2]
      simp only [isEmpty_eq_false hc.1, Bool.false_eq_true, if_false]
      refine ⟨?_, hc, ?_⟩
      · simp only [BroadcastChat]
        apply Broadcast_wellFormed
        simpa [AppendLog_clients] using hwf
      · simp only [BroadcastChat, Broadcast_counter, AppendLog_counter]
    · rw [if_neg h2]
      by_cases h3 : line = "PING".toList
      · rw [if_pos h3]
        refine ⟨?_, hc, ?_⟩
        · unfold SendLine; split
          · exact hwf
          · exact hwf
        · unfold SendLine; split <;> rfl
      · rw [if_neg h3]
        exact ⟨hwf, hc, rfl⟩

theorem handleBufferedLines_inv (os : Win32) (fuel : Nat) :
    ∀ (st : ServerState) (key : SOCKET) (client : ClientInfo),
      WellFormed st.g_clients → EntryOk key client →
      WellFormed (handleBufferedLines os fuel st key client).1.g_clients ∧
      EntryOk key (handleBufferedLines os fuel st key client).2 ∧
      (handleBufferedLines os fuel st key client).1.g_guestCounter = st.g_guestCounter := by
  induction fuel with
  | zero => intro st key client hwf hc; exact ⟨hwf, hc, rfl⟩
  | succ n ih =>
    intro st key client hwf hc
    unfold handleBufferedLines
    split
    · exact ⟨hwf, hc, rfl⟩
    · rename_i newline _
      have hc1 : EntryOk key
          { client with buffer := erase client.buffer 0 (newline + 1) } := hc
      have hwf1 := WellFormed_writeClient hwf hc1
      obtain ⟨a, b, c⟩ := HandleProtocolLine_inv os
        { st with
          g_clients := writeClient key { client with buffer := erase client.buffer 0 (newline + 1) } st.g_clients }
        key _ (stripTrailingCR (substr client.buffer 0 newline)) hwf1 hc1
      obtain ⟨a2, b2, c2⟩ := ih _ key _ a b
      exact ⟨a2, b2, c2.trans c⟩

theorem DrainClientSocket_inv (os : Win32) (reads : List RecvResult) :
    ∀ (st : ServerState) (key : SOCKET) (client : ClientInfo),
      WellFormed st.g_clients → EntryOk key client →
      WellFormed (DrainClientSocket os reads st key client).g_clients ∧
      (DrainClientSocket os reads st key client).g_guestCounter = st.g_guestCounter := by
  induction reads with
  | nil => intro st key client hwf _; exact ⟨hwf, rfl⟩
  | cons r rest ih =>
    intro st key client hwf hc
    cases r with
    | received bytes =>
      unfold DrainClientSocket
      split
      · have hc1 : EntryOk key { client with buffer := client.buffer ++ bytes } := hc
        have hwf1 := WellFormed_writeClient hwf hc1
        obtain ⟨a, b, c⟩ := handleBufferedLines_inv os (client.buffer ++ bytes).length
          { st with
            g_clients := writeClient key { client with buffer := client.buffer ++ bytes } st.g_clients }
          key _ hwf1 hc1
        obtain ⟨a2, c2⟩ := ih _ key _ a b
        exact ⟨a2, c2.trans c⟩
      · exact ⟨DisconnectClient_wellFormed _ _ _ hwf, DisconnectClient_counter _ _ _⟩
    | wouldBlock => exact ⟨hwf, rfl⟩
    | error =>
      exact ⟨DisconnectClient_wellFormed _ _ _ hwf, DisconnectClient_counter _ _ _⟩

end Server

/-! ## Lemmas on the guest counter and on guest names -/

theorem to_wstring_natCast (n : Nat) : to_wstring (n : Int) = Nat.toDigits 10 n := rfl

theorem digitChar_toNat (d : Nat) (h : d < 10) : (Nat.digitChar d).toNat - 48 = d := by
  interval_cases d <;> rfl

theorem decimalValue_append (a : List Char) (c : Char) :
    decimalValue (a ++ [c]) = 10 * decimalValue a + (c.toNat - 48) := by
  simp [decimalValue, List.foldl_append]

theorem toDigitsCore_spec (fuel : Nat) : ∀ (n : Nat) (ds : List Char), n < fuel →
    ∃ pre, Nat.toDigitsCore 10 fuel n ds = pre ++ ds ∧ decimalValue pre = n := by
  induction fuel with
  | zero => intro n ds h; omega
  | succ f ih =>
    intro n ds h
    unfold Nat.toDigitsCore
    by_cases h0 : n / 10 = 0
    · simp only [h0, if_true]
      refine ⟨[Nat.digitChar (n % 10)], rfl, ?_⟩
      have hn : n < 10 := by omega
      simp only [Nat.mod_eq_of_lt hn]
      simp [decimalValue, digitChar_toNat n hn]
    · simp only [h0, if_false]
      obtain ⟨pre, hp, hv⟩ := ih (n / 10) (Nat.digitChar (n % 10) :: ds) (by omega)
      refine ⟨pre ++ [Nat.digitChar (n % 10)], by simp [hp], ?_⟩
      rw [decimalValue_append, hv, digitChar_toNat (n % 10) (Nat.mod_lt _ (by norm_num))]
      omega

theorem decimalValue_toDigits (n : Nat) : decimalValue (Nat.toDigits 10 n) = n := by
  obtain ⟨pre, hp, hv⟩ := toDigitsCore_spec (n + 1) n [] (by omega)
  unfold Nat.toDigits
  rw [hp]; simpa using hv

/-- Different numbers are written differently. -/
theorem to_wstring_injective {j k : Nat} (h : to_wstring (j : Int) = to_wstring (k : Int)) :
    j = k := by
  rw [to_wstring_natCast, to_wstring_natCast] at h
  have := congrArg decimalValue h
  rwa [decimalValue_toDigits, decimalValue_toDigits] at this

theorem incrementInt_eq (x : Int) (h0 : 0 ≤ x) (h1 : x < 2 ^ 31 - 1) :
    incrementInt x = x + 1 := by
  unfold incrementInt
  norm_num at h1 ⊢
  omega

namespace Server

theorem StopServer_clients (st : ServerState) : (StopServer st).g_clients = [] := by
  unfold StopServer SetStatusText UpdateClientList
  by_cases h1 : st.g_listenSocket ≠ INVALID_SOCKET <;> by_cases h2 : st.g_hwndClients
    <;> by_cases h3 : st.g_hwndStatus <;> by_cases h4 : st.g_hwndStartButton
    <;> simp [h1, h2, h3, h4]

theorem StopServer_counter (st : ServerState) :
    (StopServer st).g_guestCounter = st.g_guestCounter := by
  unfold StopServer SetStatusText UpdateClientList
  by_cases h1 : st.g_listenSocket ≠ INVALID_SOCKET <;> by_cases h2 : st.g_hwndClients
    <;> by_cases h3 : st.g_hwndStatus <;> by_cases h4 : st.g_hwndStartButton
    <;> simp [h1, h2, h3, h4]

theorem StartServer_clients (st : ServerState) (outcome : Option (SOCKET × Int)) :
    (StartServer st outcome).1.g_clients = st.g_clients ∧
    (StartServer st outcome).1.g_guestCounter = st.g_guestCounter := by
  unfold StartServer
  cases outcome with
  | none => exact ⟨rfl, rfl⟩
  | some p =>
    obtain ⟨l, port⟩ := p
    simp only [AppendLog_clients, AppendLog_counter, SetStatusText]
    by_cases h3 : st.g_hwndStatus <;> by_cases h4 : st.g_hwndStartButton <;> simp [h3, h4]

theorem guestName_ne_nil (n : Int) : "Guest".toList ++ to_wstring n ≠ [] := by
  simp

/-- One window message keeps the map well formed; it advances the guest counter
exactly when it registers a connection. -/
theorem MainWndProc_inv (os : Win32) (st : ServerState) (e : ServerEvent)
    (hwf : WellFormed st.g_clients) :
    WellFormed (MainWndProc os st e).g_clients ∧
    (MainWndProc os st e).g_guestCounter
      = if registers e = true then incrementInt st.g_guestCounter else st.g_guestCounter := by
  cases e with
  | create a b c d => exact ⟨hwf, rfl⟩
  | startStopClicked outcome =>
    have hreg : registers (.startStopClicked outcome) = false := rfl
    rw [hreg, if_neg (by simp)]
    show WellFormed (if st.g_serverRunning = true then StopServer st
        else if (StartServer st outcome).2 = true
          then { (StartServer st outcome).1 with g_serverRunning := true }
          else (StartServer st outcome).1).g_clients ∧
      (if st.g_serverRunning = true then StopServer st
        else if (StartServer st outcome).2 = true
          then { (StartServer st outcome).1 with g_serverRunning := true }
          else (StartServer st outcome).1).g_guestCounter = st.g_guestCounter
    by_cases hr : st.g_serverRunning = true
    · rw [if_pos hr, StopServer_clients, StopServer_counter]
      exact ⟨WellFormed_nil, rfl⟩
    · rw [if_neg hr]
      have := StartServer_clients st outcome
      by_cases h2 : (StartServer st outcome).2 = true
      · rw [if_pos h2]
        exact ⟨by rw [show _ = (StartServer st outcome).1.g_clients from rfl, this.1]; exact hwf,
          this.2⟩
      · rw [if_neg h2, this.1, this.2]
        exact ⟨hwf, rfl⟩
  | destroy =>
    have hreg : registers .destroy = false := rfl
    rw [hreg, if_neg (by simp)]
    show WellFormed (StopServer st).g_clients ∧ (StopServer st).g_guestCounter = st.g_guestCounter
    rw [StopServer_clients, StopServer_counter]
    exact ⟨WellFormed_nil, rfl⟩
  | socketMessage m =>
    show WellFormed (HandleSocketMessage os st m).g_clients ∧
      (HandleSocketMessage os st m).g_guestCounter
        = if registers (.socketMessage m) = true then incrementInt st.g_guestCounter
          else st.g_guestCounter
    by_cases herr : m.error = 0
    · have hcases : m.event = .FD_ACCEPT ∨ m.event = .FD_READ ∨ m.event = .FD_CLOSE
          ∨ m.event = .other := by
        cases m.event <;> simp
      rcases hcases with hev | hev | hev | hev
      · by_cases hacc : m.accepted = INVALID_SOCKET
        · have hreg : registers (.socketMessage m) = false := by simp [registers, hacc]
          rw [hreg, if_neg (by simp)]
          simp [HandleSocketMessage, herr, hev, hacc, hwf]
        · by_cases hsel : m.asyncSelectOk = true
          · have hreg : registers (.socketMessage m) = true := by
              simp [registers, herr, hev, hacc, hsel]
            rw [hreg, if_pos rfl, HandleSocketMessage_accept os st m herr hev hacc hsel]
            simp only [UpdateClientList_clients, UpdateClientList_counter, BroadcastInfo,
              Broadcast_counter, AppendLog_counter]
            refine ⟨?_, trivial⟩
            apply Broadcast_wellFormed
            rw [AppendLog_clients]
            exact WellFormed_assignClient hwf ⟨guestName_ne_nil _, rfl, hacc⟩
          · have hreg : registers (.socketMessage m) = false := by simp [registers, hsel]
            rw [hreg, if_neg (by simp)]
            simp [HandleSocketMessage, herr, hev, hacc, hsel, hwf]
      · have hreg : registers (.socketMessage m) = false := by simp [registers, hev]
        rw [hreg, if_neg (by simp)]
        simp only [HandleSocketMessage, herr, hev]
        cases hf : findClient m.socket st.g_clients with
        | none => simp [hwf]
        | some client =>
          have hc : EntryOk m.socket client := hwf.2 _ (mem_of_findClient hf)
          have := DrainClientSocket_inv os m.reads st m.socket client hwf hc
          simp [this.1, this.2]
      · have hreg : registers (.socketMessage m) = false := by simp [registers, hev]
        rw [hreg, if_neg (by simp)]
        simp [HandleSocketMessage, herr, hev, DisconnectClient_wellFormed _ _ _ hwf,
          DisconnectClient_counter]
      · have hreg : registers (.socketMessage m) = false := by simp [registers, hev]
        rw [hreg, if_neg (by simp)]
        simp [HandleSocketMessage, herr, hev, hwf]
    · have hreg : registers (.socketMessage m) = false := by simp [registers, herr]
      rw [hreg, if_neg (by simp)]
      simp [HandleSocketMessage, herr, DisconnectClient_wellFormed _ _ _ hwf,
        DisconnectClient_counter]

theorem registrations_cons (e : ServerEvent) (events : List ServerEvent) :
    registrations (e :: events)
      = (if registers e = true then 1 else 0) + registrations events := by
  unfold registrations
  by_cases h : registers e = true
  · simp [List.filter, h]; omega
  · simp [List.filter, h]

/-- Along every run the map stays well formed and the guest counter has advanced by
the number of registered connections, as long as it stays below `INT_MAX`. -/
theorem runServer_inv (os : Win32) (events : List ServerEvent) :
    ∀ st : ServerState, WellFormed st.g_clients → 0 ≤ st.g_guestCounter →
      st.g_guestCounter + registrations events < 2 ^ 31 →
      WellFormed (runServer os st events).g_clients ∧
      (runServer os st events).g_guestCounter = st.g_guestCounter + registrations events := by
  induction events with
  | nil => intro st hwf _ _; simp [runServer, registrations, hwf]
  | cons e rest ih =>
    intro st hwf h0 hr
    obtain ⟨hwf1, hc1⟩ := MainWndProc_inv os st e hwf
    rw [registrations_cons] at hr ⊢
    have hrun : runServer os st (e :: rest) = runServer os (MainWndProc os st e) rest := rfl
    rw [hrun]
    by_cases hreg : registers e = true
    · rw [if_pos hreg] at hc1
      simp only [hreg, if_true] at hr ⊢
      have hinc : incrementInt st.g_guestCounter = st.g_guestCounter + 1 :=
        incrementInt_eq _ h0 (by push_cast at hr; omega)
      rw [hinc] at hc1
      obtain ⟨a, b⟩ := ih _ hwf1 (by rw [hc1]; omega) (by rw [hc1]; push_cast at hr ⊢; omega)
      refine ⟨a, ?_⟩
      rw [b, hc1]; push_cast; omega
    · rw [if_neg hreg] at hc1
      simp only [hreg, if_false] at hr ⊢
      obtain ⟨a, b⟩ := ih _ hwf1 (by rw [hc1]; exact h0) (by rw [hc1]; push_cast at hr ⊢; omega)
      refine ⟨a, ?_⟩
      rw [b, hc1]; push_cast; omega

theorem runServer_append (os : Win32) (st : ServerState) (a b : List ServerEvent) :
    runServer os st (a ++ b) = runServer os (runServer os st a) b := by
  simp [runServer, List.foldl_append]

theorem registrations_append (a b : List ServerEvent) :
    registrations (a ++ b) = registrations a + registrations b := by
  simp [registrations, List.filter_append]

theorem registrations_take_le (events : List ServerEvent) (n : Nat) :
    registrations (events.take n) ≤ registrations events := by
  conv_rhs => rw [← List.take_append_drop n events]
  rw [registrations_append]; omega

theorem registrations_take_lt (events : List ServerEvent) (n : Nat) (hn : n < events.length)
    (hreg : registers (events.get ⟨n, hn⟩) = true) :
    registrations (events.take n) < registrations events := by
  have hd : events.drop n = events.get ⟨n, hn⟩ :: events.drop (n + 1) := by
    simp
  conv_rhs => rw [← List.take_append_drop n events, hd]
  rw [registrations_append, registrations_cons, if_pos hreg]; omega

theorem entry_unique {m : ClientMap} (hnd : (keys m).Nodup) {k : SOCKET} {c d : ClientInfo}
    (hc : (k, c) ∈ m) (hd : (k, d) ∈ m) : c = d := by
  induction m with
  | nil => simp at hc
  | cons x rest ih =>
    obtain ⟨k0, v⟩ := x
    simp only [keys, List.map_cons, List.nodup_cons] at hnd
    rcases List.mem_cons.mp hc with h1 | h1 <;> rcases List.mem_cons.mp hd with h2 | h2
    · exact ((Prod.mk.inj h1).2).trans ((Prod.mk.inj h2).2).symm
    · exact absurd (List.mem_map_of_mem Prod.fst h2) (by rw [(Prod.mk.inj h1).1]; exact hnd.1)
    · exact absurd (List.mem_map_of_mem Prod.fst h1) (by rw [(Prod.mk.inj h2).1]; exact hnd.1)
    · exact ih hnd.2 h1 h2

theorem registers_socketMessage {m : SocketMessage}
    (h : registers (.socketMessage m) = true) :
    m.error = 0 ∧ m.event = .FD_ACCEPT ∧ m.accepted ≠ INVALID_SOCKET ∧ m.asyncSelectOk = true := by
  simpa [registers, and_assoc] using h

end Server

/-! ## Lemmas on renaming and on `DisconnectClient` -/

theorem toDigits_ne_nil (n : Nat) : Nat.toDigits 10 n ≠ [] := by
  intro h
  have hv := decimalValue_toDigits n
  rw [h] at hv
  have h0 : n = 0 := by simpa [decimalValue] using hv.symm
  subst h0
  exact absurd h (by decide)

/-- The decimal form of a number is not empty. -/
theorem to_wstring_ne_nil (n : Int) : to_wstring n ≠ [] := by
  cases n with
  | ofNat m => exact toDigits_ne_nil m
  | negSucc m =>
    show (toString (Int.negSucc m)).toList ≠ []
    have : toString (Int.negSucc m) = "-" ++ toString (m + 1) := rfl
    rw [this]
    simp

theorem rfindAtZero_iff (line p : Bytes) : rfindAtZero line p = some 0 ↔ p <+: line := by
  unfold rfindAtZero
  by_cases h : p.isPrefixOf line = true
  · simp [h, List.isPrefixOf_iff_prefix.mp h]
  · have : ¬ p <+: line := fun hp => h (List.isPrefixOf_iff_prefix.mpr hp)
    simp [h, this]

namespace Server

theorem findClient_eq_none {key : SOCKET} {m : ClientMap} :
    findClient key m = none ↔ key ∉ keys m := by
  induction m with
  | nil => simp [findClient, keys]
  | cons e rest ih =>
    obtain ⟨k, v⟩ := e
    by_cases hk : k = key
    · simp [findClient, keys, hk]
    · have hk2 : ¬ key = k := fun h => hk h.symm
      simp only [findClient, if_neg hk, keys, List.map_cons, List.mem_cons, hk2, false_or]
      exact ih

theorem keys_eraseClient (key : SOCKET) (m : ClientMap) :
    keys (eraseClient key m) = (keys m).erase key := by
  induction m with
  | nil => rfl
  | cons e rest ih =>
    obtain ⟨k, v⟩ := e
    by_cases hk : k = key
    · simp [eraseClient, keys, hk]
    · have hb : (k == key) = false := by simpa using hk
      simp only [eraseClient, if_neg hk, keys, List.map_cons, List.erase_cons, hb] at ih ⊢
      simp [ih]

theorem not_mem_keys_eraseClient {key : SOCKET} {m : ClientMap} (hnd : (keys m).Nodup) :
    key ∉ keys (eraseClient key m) := by
  rw [keys_eraseClient]
  exact fun h => ((List.Nodup.mem_erase_iff hnd).mp h).1 rfl

/-- The NICK branch for a name that converts to a non-empty name, whatever the old
name is. -/
theorem HandleProtocolLine_nick_any (os : Win32) (st : ServerState) (key : SOCKET)
    (client : ClientInfo) (name : Bytes) (hnew : Utf8ToWide os name ≠ []) :
    HandleProtocolLine os st key client ("NICK:".toList ++ name)
      = (AppendLog (UpdateClientList
          (BroadcastInfo os
            (if client.nickname.isEmpty = true
              then Utf8ToWide os name ++ " joined the chat.".toList
              else client.nickname ++ " is now known as ".toList ++ Utf8ToWide os name
                ++ ".".toList)
            { st with g_clients :=
                writeClient key { client with nickname := Utf8ToWide os name } st.g_clients }))
          (if client.nickname.isEmpty = true
            then Utf8ToWide os name ++ " joined the chat.".toList
            else client.nickname ++ " is now known as ".toList ++ Utf8ToWide os name
              ++ ".".toList),
         { client with nickname := Utf8ToWide os name }) := by
  have h2 : substrFrom ("NICK:".toList ++ name) 5 = name := by simp [substrFrom]
  rw [HandleProtocolLine, if_pos (rfindAtZero_append _ _), h2]
  simp only [isEmpty_eq_false hnew]
  rfl

/-- The NICK branch for a name that converts to the empty name. -/
theorem HandleProtocolLine_nick_empty (os : Win32) (st : ServerState) (key : SOCKET)
    (client : ClientInfo) (name : Bytes) (hnew : Utf8ToWide os name = []) :
    HandleProtocolLine os st key client ("NICK:".toList ++ name)
      = (AppendLog (UpdateClientList
          (BroadcastInfo os
            (if client.nickname.isEmpty = true
              then "Guest".toList ++ " joined the chat.".toList
              else client.nickname ++ " is now known as ".toList ++ "Guest".toList
                ++ ".".toList)
            { st with g_clients :=
                writeClient key { client with nickname := "Guest".toList } st.g_clients }))
          (if client.nickname.isEmpty = true
            then "Guest".toList ++ " joined the chat.".toList
            else client.nickname ++ " is now known as ".toList ++ "Guest".toList
              ++ ".".toList),
         { client with nickname := "Guest".toList }) := by
  have h2 : substrFrom ("NICK:".toList ++ name) 5 = name := by simp [substrFrom]
  rw [HandleProtocolLine, if_pos (rfindAtZero_append _ _), h2]
  simp only [hnew]
  rfl

theorem DisconnectClient_none (os : Win32) (socket : SOCKET) (st : ServerState)
    (h : findClient socket st.g_clients = none) : DisconnectClient os socket st = st := by
  unfold DisconnectClient
  rw [h]

theorem DisconnectClient_named (os : Win32) (socket : SOCKET) (st : ServerState)
    (info : ClientInfo) (h : findClient socket st.g_clients = some info)
    (hn : info.nickname ≠ []) :
    DisconnectClient os socket st
      = BroadcastInfo os (info.nickname ++ " left the chat.".toList)
          (AppendLog (UpdateClientList
            { st with trace := st.trace ++ [.closesocket socket],
                      g_clients := eraseClient socket st.g_clients })
            (info.nickname ++ " disconnected.".toList)) := by
  unfold DisconnectClient
  rw [h]
  simp only [isEmpty_eq_false hn]
  rfl

theorem DisconnectClient_unnamed (os : Win32) (socket : SOCKET) (st : ServerState)
    (info : ClientInfo) (h : findClient socket st.g_clients = some info)
    (hn : info.nickname = []) :
    DisconnectClient os socket st
      = UpdateClientList
          { st with trace := st.trace ++ [.closesocket socket],
                    g_clients := eraseClient socket st.g_clients } := by
  unfold DisconnectClient
  rw [h]
  simp only [hn]
  rfl

/-- What `DisconnectClient` leaves of the map consists of entries of the map with
the entry of the socket erased. -/
theorem DisconnectClient_sublist (os : Win32) (socket : SOCKET) (st : ServerState)
    (h : findClient socket st.g_clients ≠ none) :
    List.Sublist (DisconnectClient os socket st).g_clients
      (eraseClient socket st.g_clients) := by
  cases hf : findClient socket st.g_clients with
  | none => exact absurd hf h
  | some info =>
    by_cases hn : info.nickname = []
    · rw [DisconnectClient_unnamed os socket st info hf hn, UpdateClientList_clients]
    · rw [DisconnectClient_named os socket st info hf hn]
      simp only [BroadcastInfo, Broadcast_clients, AppendLog_clients, UpdateClientList_clients]
      exact passKept_sublist os _ _ _

theorem DisconnectClient_not_mem (os : Win32) (socket : SOCKET) (st : ServerState)
    (hnd : (keys st.g_clients).Nodup) :
    socket ∉ keys (DisconnectClient os socket st).g_clients := by
  cases hf : findClient socket st.g_clients with
  | none =>
    rw [DisconnectClient_none os socket st hf]
    exact findClient_eq_none.mp hf
  | some info =>
    have hs := DisconnectClient_sublist os socket st (by rw [hf]; simp)
    intro hm
    exact not_mem_keys_eraseClient hnd ((hs.map Prod.fst).subset hm)

end Server

/-! ## Lemmas on the client session -/

namespace Client

theorem Closed_AppendLog {st : ClientState} (l : WString) (h : Closed st) :
    Closed (AppendLog st l) := by
  unfold AppendLog; split
  · exact h
  · exact h

theorem Closed_SetStatus {st : ClientState} (t : WString) (h : Closed st) :
    Closed (SetStatus st t) := by
  unfold SetStatus; split
  · exact h
  · exact h

theorem Closed_UpdateControls {st : ClientState} (h : Closed st) :
    Closed (UpdateControls st) := by
  unfold UpdateControls
  split
  · exact h
  · split
    · exact h
    · split
      · exact h
      · exact h

theorem Closed_after_reset (s1 : ClientState) (hs1 : s1.g_socket = INVALID_SOCKET)
    (reason : WString) (b : Bool) :
    Closed (if b = true then
        AppendLog (SetStatus (UpdateControls
          { s1 with g_connected := false, g_connecting := false, g_recvBuffer := [] })
          "Disconnected".toList) ("* ".toList ++ reason)
      else SetStatus (UpdateControls
          { s1 with g_connected := false, g_connecting := false, g_recvBuffer := [] })
          "Disconnected".toList) := by
  have h2 : Closed { s1 with g_connected := false, g_connecting := false, g_recvBuffer := [] } :=
    ⟨hs1, rfl, rfl, rfl⟩
  have h3 := Closed_SetStatus "Disconnected".toList (Closed_UpdateControls h2)
  by_cases hb : b = true
  · rw [if_pos hb]; exact Closed_AppendLog _ h3
  · rw [if_neg hb]; exact h3

/-- The postcondition of `CloseSocket`, from every state and for every reason. -/
theorem CloseSocket_closed (st : ClientState) (reason : WString) :
    Closed (CloseSocket st reason) := by
  unfold CloseSocket
  refine Closed_after_reset _ ?_ reason _
  by_cases hs : st.g_socket ≠ INVALID_SOCKET
  · rw [if_pos hs]
  · rw [if_neg hs]; exact not_not.mp hs

/-- A drain whose first result that is not data is a zero-length read or an error
ends in `CloseSocket`. -/
theorem DrainSocket_closed (os : Win32) (chunks : List Bytes) (final : RecvResult)
    (rest : List RecvResult) (hne : ∀ c ∈ chunks, c ≠ [])
    (hfinal : final = .received [] ∨ final = .error) :
    ∀ st : ClientState,
      Closed (DrainSocket os (chunks.map RecvResult.received ++ final :: rest) st) := by
  induction chunks with
  | nil =>
    intro st
    rcases hfinal with h | h
    · subst h
      simp only [List.map_nil, List.nil_append, DrainSocket]
      exact CloseSocket_closed _ _
    · subst h
      exact CloseSocket_closed _ _
  | cons c cs ih =>
    intro st
    have hc : 0 < c.length := List.length_pos.mpr (hne c (List.mem_cons_self _ _))
    simp only [List.map_cons, List.cons_append, DrainSocket, hc, if_true]
    exact ih (fun x hx => hne x (List.mem_cons_of_mem _ hx)) _

theorem MarkConnected_connected (os : Win32) (st : ClientState) (h : st.g_connected = true) :
    MarkConnected os st = st := by
  unfold MarkConnected
  rw [if_pos h]

theorem AppendLog_socket_trace (st : ClientState) (l : WString) :
    (AppendLog st l).g_socket = st.g_socket ∧ (AppendLog st l).trace = st.trace ∧
    (AppendLog st l).nicknameText = st.nicknameText := by
  unfold AppendLog; split <;> exact ⟨rfl, rfl, rfl⟩

theorem SetStatus_socket_trace (st : ClientState) (t : WString) :
    (SetStatus st t).g_socket = st.g_socket ∧ (SetStatus st t).trace = st.trace ∧
    (SetStatus st t).nicknameText = st.nicknameText := by
  unfold SetStatus; split <;> exact ⟨rfl, rfl, rfl⟩

theorem UpdateControls_socket_trace (st : ClientState) :
    (UpdateControls st).g_socket = st.g_socket ∧ (UpdateControls st).trace = st.trace ∧
    (UpdateControls st).nicknameText = st.nicknameText := by
  unfold UpdateControls
  split
  · exact ⟨rfl, rfl, rfl⟩
  · split
    · exact ⟨rfl, rfl, rfl⟩
    · split <;> exact ⟨rfl, rfl, rfl⟩

theorem AppendLog_flags (st : ClientState) (l : WString) :
    (AppendLog st l).g_connected = st.g_connected ∧
    (AppendLog st l).g_connecting = st.g_connecting := by
  unfold AppendLog; split <;> exact ⟨rfl, rfl⟩

theorem SetStatus_flags (st : ClientState) (t : WString) :
    (SetStatus st t).g_connected = st.g_connected ∧
    (SetStatus st t).g_connecting = st.g_connecting := by
  unfold SetStatus; split <;> exact ⟨rfl, rfl⟩

theorem UpdateControls_flags (st : ClientState) :
    (UpdateControls st).g_connected = st.g_connected ∧
    (UpdateControls st).g_connecting = st.g_connecting := by
  unfold UpdateControls
  split
  · exact ⟨rfl, rfl⟩
  · split
    · exact ⟨rfl, rfl⟩
    · split <;> exact ⟨rfl, rfl⟩

theorem SendLine_flags (os : Win32) (p : Bytes) (st : ClientState) :
    (SendLine os p st).g_connected = st.g_connected ∧
    (SendLine os p st).g_connecting = st.g_connecting := by
  unfold SendLine; split <;> exact ⟨rfl, rfl⟩

end Client

/-! ## Lemmas on the server's drain loop -/

namespace Server

theorem passKept_never_fatal (os : Win32) (payload : Bytes)
    (hok : ∀ n s p, os.send n s p ≠ .fatal) (todo : ClientMap) :
    ∀ n, passKept os payload n todo = todo := by
  induction todo with
  | nil => intro n; rfl
  | cons e rest ih =>
    intro n
    obtain ⟨s, info⟩ := e
    simp [passKept, hok, ih]

theorem Broadcast_clients_never_fatal (os : Win32) (hok : ∀ n s p, os.send n s p ≠ .fatal)
    (line : Bytes) (st : ServerState) : (Broadcast os line st).g_clients = st.g_clients := by
  rw [Broadcast_clients, passKept_never_fatal os _ hok]

/-- When no `send` fails fatally, the entry under `key` stays the referenced
object through `HandleProtocolLine`. -/
theorem HandleProtocolLine_linked (os : Win32) (hok : ∀ n s p, os.send n s p ≠ .fatal)
    (st : ServerState) (key : SOCKET) (client : ClientInfo) (line : Bytes)
    (h : findClient key st.g_clients = some client) :
    findClient key (HandleProtocolLine os st key client line).1.g_clients
      = some (HandleProtocolLine os st key client line).2 := by
  have hk := mem_keys_of_findClient h
  unfold HandleProtocolLine
  by_cases h1 : rfindAtZero line "NICK:".toList = some 0
  · rw [if_pos h1]
    simp only [AppendLog_clients, UpdateClientList_clients, BroadcastInfo,
      Broadcast_clients_never_fatal os hok]
    exact findClient_writeClient key _ _ hk
  · rw [if_neg h1]
    by_cases h2 : rfindAtZero line "MSG:".toList = some 0
    · rw [if_pos h2]
      by_cases he : client.nickname.isEmpty = true
      · rw [if_pos he]
        simp only [BroadcastChat, Broadcast_clients_never_fatal os hok, AppendLog_clients,
          UpdateClientList_clients]
        exact findClient_writeClient key _ _ hk
      · rw [if_neg he]
        simp only [BroadcastChat, Broadcast_clients_never_fatal os hok, AppendLog_clients]
        exact h
    · rw [if_neg h2]
      by_cases h3 : line = "PING".toList
      · rw [if_pos h3]
        simp only [SendLine_clients]
        exact h
      · rw [if_neg h3]
        exact h

theorem handleBufferedLines_linked (os : Win32) (hok : ∀ n s p, os.send n s p ≠ .fatal)
    (key : SOCKET) (fuel : Nat) :
    ∀ (st : ServerState) (client : ClientInfo), findClient key st.g_clients = some client →
      findClient key (handleBufferedLines os fuel st key client).1.g_clients
        = some (handleBufferedLines os fuel st key client).2 := by
  induction fuel with
  | zero => intro st client h; exact h
  | succ n ih =>
    intro st client h
    unfold handleBufferedLines
    cases hf : find client.buffer LF 0 with
    | none => exact h
    | some newline =>
      have h1 : findClient key
          ({ st with g_clients := writeClient key { client with buffer := erase client.buffer 0 (newline + 1) } st.g_clients } : ServerState).g_clients
          = some { client with buffer := erase client.buffer 0 (newline + 1) } :=
        findClient_writeClient key _ _ (mem_keys_of_findClient h)
      exact ih _ _ (HandleProtocolLine_linked os hok _ key _
        (stripTrailingCR (substr client.buffer 0 newline)) h1)

theorem handleBufferedLines_buffer (os : Win32) (key : SOCKET) (fuel : Nat) :
    ∀ (st : ServerState) (client : ClientInfo),
      (handleBufferedLines os fuel st key client).2.buffer
        = (extractLines fuel client.buffer).2 := by
  induction fuel with
  | zero => intro st client; rfl
  | succ n ih =>
    intro st client
    unfold handleBufferedLines extractLines
    cases hf : find client.buffer LF 0 with
    | none => rfl
    | some newline =>
      simp only []
      rw [ih, HandleProtocolLine_buffer]

theorem feedServer_linked (os : Win32) (hok : ∀ n s p, os.send n s p ≠ .fatal)
    (key : SOCKET) (chunks : List Bytes) :
    ∀ p : ServerState × ClientInfo, findClient key p.1.g_clients = some p.2 →
      findClient key (feedServer os key chunks p).1.g_clients
        = some (feedServer os key chunks p).2 := by
  induction chunks with
  | nil => intro p h; exact h
  | cons c cs ih =>
    intro p h
    unfold feedServer
    apply ih
    apply handleBufferedLines_linked os hok
    exact findClient_writeClient key _ _ (mem_keys_of_findClient h)

theorem feedServer_buffer (os : Win32) (key : SOCKET) (chunks : List Bytes) :
    ∀ p : ServerState × ClientInfo,
      (feedServer os key chunks p).2.buffer = (feedChunks p.2.buffer chunks).2 := by
  induction chunks with
  | nil => intro p; rfl
  | cons c cs ih =>
    intro p
    unfold feedServer feedChunks
    rw [ih, handleBufferedLines_buffer]
    rfl

theorem feedServer_inv (os : Win32) (key : SOCKET) (chunks : List Bytes) :
    ∀ p : ServerState × ClientInfo, WellFormed p.1.g_clients → EntryOk key p.2 →
      WellFormed (feedServer os key chunks p).1.g_clients ∧
      EntryOk key (feedServer os key chunks p).2 := by
  induction chunks with
  | nil => intro p h1 h2; exact ⟨h1, h2⟩
  | cons c cs ih =>
    intro p h1 h2
    unfold feedServer
    have hc1 : EntryOk key { p.2 with buffer := p.2.buffer ++ c } := h2
    have hwf1 := WellFormed_writeClient h1 hc1
    obtain ⟨a, b, _⟩ := handleBufferedLines_inv os (p.2.buffer ++ c).length
      { p.1 with g_clients := writeClient key { p.2 with buffer := p.2.buffer ++ c } p.1.g_clients }
      key _ hwf1 hc1
    exact ih _ a b

theorem DrainClientSocket_received (os : Win32) (bytes : Bytes) (reads : List RecvResult)
    (st : ServerState) (key : SOCKET) (client : ClientInfo) (h : 0 < bytes.length) :
    DrainClientSocket os (.received bytes :: reads) st key client
      = DrainClientSocket os reads
          (feedServer os key [bytes] (st, client)).1 key
          (feedServer os key [bytes] (st, client)).2 := by
  rw [DrainClientSocket, if_pos h]
  rfl

/-- The drain loop handles the data results in order and stops at the first result
that is not data: "would block" ends it, a zero-length read or an error ends it
with `DisconnectClient` on the socket of the referenced entry. -/
theorem DrainClientSocket_eq (os : Win32) (key : SOCKET) (chunks : List Bytes)
    (final : RecvResult) (rest : List RecvResult) (hne : ∀ c ∈ chunks, c ≠ []) :
    ∀ (st : ServerState) (client : ClientInfo),
      DrainClientSocket os (chunks.map RecvResult.received ++ final :: rest) st key client
        = match final with
          | .wouldBlock => (feedServer os key chunks (st, client)).1
          | .error =>
            DisconnectClient os (feedServer os key chunks (st, client)).2.socket
              (feedServer os key chunks (st, client)).1
          | .received bytes =>
            if 0 < bytes.length then
              DrainClientSocket os (.received bytes :: rest)
                (feedServer os key chunks (st, client)).1 key
                (feedServer os key chunks (st, client)).2
            else
              DisconnectClient os (feedServer os key chunks (st, client)).2.socket
                (feedServer os key chunks (st, client)).1 := by
  induction chunks with
  | nil =>
    intro st client
    cases final with
    | wouldBlock => rfl
    | error => rfl
    | received bytes =>
      by_cases hb : 0 < bytes.length
      · simp only [List.map_nil, List.nil_append, feedServer, hb, if_true]
      · simp only [List.map_nil, List.nil_append, feedServer, hb, if_false, DrainClientSocket]
  | cons c cs ih =>
    intro st client
    have hc : 0 < c.length := List.length_pos.mpr (hne c (List.mem_cons_self _ _))
    show DrainClientSocket os
      (.received c :: (cs.map RecvResult.received ++ final :: rest)) st key client = _
    rw [DrainClientSocket_received os c _ st key client hc,
      ih (fun x hx => hne x (List.mem_cons_of_mem _ hx))]
    rfl

end Server

/-! ## Lemmas on drains that keep the referenced entry -/

namespace Server

/-- In a part of a map with distinct keys, a key that is still present has the
entry it had. -/
theorem findClient_of_sublist {l m : ClientMap} (hs : List.Sublist l m)
    (hnd : (keys m).Nodup) {key : SOCKET} {c : ClientInfo}
    (hm : findClient key m = some c) (hl : (findClient key l).isSome = true) :
    findClient key l = some c := by
  cases hfl : findClient key l with
  | none => rw [hfl] at hl; cases hl
  | some d =>
    have h1 : (key, d) ∈ m := hs.subset (mem_of_findClient hfl)
    rw [entry_unique hnd h1 (mem_of_findClient hm)]

theorem Broadcast_findClient (os : Win32) (line : Bytes) (st : ServerState)
    (hnd : (keys st.g_clients).Nodup) {key : SOCKET} {c : ClientInfo}
    (hm : findClient key st.g_clients = some c)
    (hl : (findClient key (Broadcast os line st).g_clients).isSome = true) :
    findClient key (Broadcast os line st).g_clients = some c := by
  rw [Broadcast_clients] at hl ⊢
  exact findClient_of_sublist (passKept_sublist os _ _ _) hnd hm hl

/-- When the entry under `key` is in the map after `HandleProtocolLine`, it is the
referenced object with the contents the function left. -/
theorem HandleProtocolLine_live (os : Win32) (st : ServerState) (key : SOCKET)
    (client : ClientInfo) (line : Bytes)
    (hwf : WellFormed st.g_clients) (hc : EntryOk key client)
    (h : findClient key st.g_clients = some client)
    (hl : (findClient key (HandleProtocolLine os st key client line).1.g_clients).isSome = true) :
    findClient key (HandleProtocolLine os st key client line).1.g_clients
      = some (HandleProtocolLine os st key client line).2 := by
  have hk := mem_keys_of_findClient h
  unfold HandleProtocolLine at hl ⊢
  by_cases h1 : rfindAtZero line "NICK:".toList = some 0
  · rw [if_pos h1] at hl ⊢
    simp only [AppendLog_clients, UpdateClientList_clients, BroadcastInfo] at hl ⊢
    refine Broadcast_findClient os _ _ ?_ (findClient_writeClient key _ _ hk) hl
    show (keys (writeClient key _ st.g_clients)).Nodup
    rw [keys_writeClient]
    exact hwf.1
  · rw [if_neg h1] at hl ⊢
    by_cases h2 : rfindAtZero line "MSG:".toList = some 0
    · rw [if_pos h2] at hl ⊢
      simp only [isEmpty_eq_false hc.1, Bool.false_eq_true, if_false, BroadcastChat] at hl ⊢
      refine Broadcast_findClient os _ _ ?_ ?_ hl
      · simpa [AppendLog_clients] using hwf.1
      · simpa [AppendLog_clients] using h
    · rw [if_neg h2] at hl ⊢
      by_cases h3 : line = "PING".toList
      · rw [if_pos h3]
        simp only [SendLine_clients]
        exact h
      · rw [if_neg h3]
        exact h

theorem loopKeepsEntry_live (os : Win32) (key : SOCKET) (fuel : Nat) :
    ∀ (st : ServerState) (client : ClientInfo),
      WellFormed st.g_clients → EntryOk key client →
      findClient key st.g_clients = some client →
      loopKeepsEntry os fuel st key client = true →
      findClient key (handleBufferedLines os fuel st key client).1.g_clients
        = some (handleBufferedLines os fuel st key client).2 := by
  induction fuel with
  | zero => intro st client _ _ h _; exact h
  | succ n ih =>
    intro st client hwf hc h hl
    unfold handleBufferedLines
    unfold loopKeepsEntry at hl
    cases hf : find client.buffer LF 0 with
    | none => exact h
    | some newline =>
      rw [hf] at hl
      simp only [Bool.and_eq_true] at hl
      have hc1 : EntryOk key { client with buffer := erase client.buffer 0 (newline + 1) } := hc
      have hwf1 := WellFormed_writeClient hwf hc1
      have h1 : findClient key
          ({ st with g_clients := writeClient key { client with buffer := erase client.buffer 0 (newline + 1) } st.g_clients } : ServerState).g_clients
          = some { client with buffer := erase client.buffer 0 (newline + 1) } :=
        findClient_writeClient key _ _ (mem_keys_of_findClient h)
      obtain ⟨a, b, _⟩ := HandleProtocolLine_inv os
        { st with g_clients := writeClient key { client with buffer := erase client.buffer 0 (newline + 1) } st.g_clients }
        key _ (stripTrailingCR (substr client.buffer 0 newline)) hwf1 hc1
      exact ih _ _ a b (HandleProtocolLine_live os _ key _ _ hwf1 hc1 h1 hl.1) hl.2

/-- A drain of data that keeps the referenced entry leaves it in the map, with the
contents the line handling left. -/
theorem feedServer_live (os : Win32) (key : SOCKET) (chunks : List Bytes)
    (hne : ∀ c ∈ chunks, c ≠ []) :
    ∀ p : ServerState × ClientInfo,
      WellFormed p.1.g_clients → EntryOk key p.2 →
      findClient key p.1.g_clients = some p.2 →
      drainKeepsEntry os (chunks.map RecvResult.received) p.1 key p.2 = true →
      findClient key (feedServer os key chunks p).1.g_clients
        = some (feedServer os key chunks p).2 := by
  induction chunks with
  | nil => intro p _ _ h _; exact h
  | cons c cs ih =>
    intro p hwf hc h hl
    have hpos : 0 < c.length := List.length_pos.mpr (hne c (List.mem_cons_self _ _))
    have hl2 : (loopKeepsEntry os (p.2.buffer ++ c).length
          { p.1 with g_clients := writeClient key { p.2 with buffer := p.2.buffer ++ c } p.1.g_clients }
          key { p.2 with buffer := p.2.buffer ++ c }
        && drainKeepsEntry os (cs.map RecvResult.received)
          (handleBufferedLines os (p.2.buffer ++ c).length
            { p.1 with g_clients := writeClient key { p.2 with buffer := p.2.buffer ++ c } p.1.g_clients }
            key { p.2 with buffer := p.2.buffer ++ c }).1 key
          (handleBufferedLines os (p.2.buffer ++ c).length
            { p.1 with g_clients := writeClient key { p.2 with buffer := p.2.buffer ++ c } p.1.g_clients }
            key { p.2 with buffer := p.2.buffer ++ c }).2) = true := by
      have hl3 := hl
      simp only [List.map_cons, drainKeepsEntry, hpos, if_true] at hl3
      exact hl3
    simp only [Bool.and_eq_true] at hl2
    have hc1 : EntryOk key { p.2 with buffer := p.2.buffer ++ c } := hc
    have hwf1 := WellFormed_writeClient hwf hc1
    have h1 : findClient key
        ({ p.1 with g_clients := writeClient key { p.2 with buffer := p.2.buffer ++ c } p.1.g_clients } : ServerState).g_clients
        = some { p.2 with buffer := p.2.buffer ++ c } :=
      findClient_writeClient key _ _ (mem_keys_of_findClient h)
    obtain ⟨a, b, _⟩ := handleBufferedLines_inv os (p.2.buffer ++ c).length
      { p.1 with g_clients := writeClient key { p.2 with buffer := p.2.buffer ++ c } p.1.g_clients }
      key _ hwf1 hc1
    unfold feedServer
    exact ih (fun x hx => hne x (List.mem_cons_of_mem _ hx)) _ a b
      (loopKeepsEntry_live os key _ _ _ hwf1 hc1 h1 hl2.1) hl2.2

/-- A drain in which `recv` returns no data handles no line, so it keeps the
referenced entry. -/
theorem drainKeepsEntry_of_no_data (os : Win32) (reads : List RecvResult) (st : ServerState)
    (key : SOCKET) (client : ClientInfo)
    (h : ∀ bytes, RecvResult.received bytes ∈ reads → bytes = []) :
    drainKeepsEntry os reads st key client = true := by
  cases reads with
  | nil => rfl
  | cons r rest =>
    cases r with
    | received bytes =>
      have hb : bytes = [] := h bytes (List.mem_cons_self _ _)
      subst hb
      rfl
    | wouldBlock => rfl
    | error => rfl

/-- A run made of accepts, disconnects, starts and stops only, in which no `recv`
returns data, is a run that keeps the referenced entries. -/
theorem runKeepsEntries_of_no_data (os : Win32) (events : List ServerEvent)
    (h : ∀ m, ServerEvent.socketMessage m ∈ events →
      ∀ bytes, RecvResult.received bytes ∈ m.reads → bytes = []) :
    ∀ st : ServerState, runKeepsEntries os st events = true := by
  induction events with
  | nil => intro st; rfl
  | cons e rest ih =>
    intro st
    have hrest := ih (fun m hm => h m (List.mem_cons_of_mem _ hm)) (MainWndProc os st e)
    have he : eventKeepsEntry os st e = true := by
      cases e with
      | socketMessage m =>
        have hm := h m (List.mem_cons_self _ _)
        simp only [eventKeepsEntry]
        by_cases herr : m.error ≠ 0
        · rw [if_pos herr]
        · rw [if_neg herr]
          cases m.event with
          | FD_READ =>
            cases findClient m.socket st.g_clients with
            | none => rfl
            | some client => exact drainKeepsEntry_of_no_data os m.reads st m.socket client hm
          | FD_ACCEPT => rfl
          | FD_CLOSE => rfl
          | other => rfl
      | create a b c d => rfl
      | startStopClicked o => rfl
      | destroy => rfl
    show (eventKeepsEntry os st e && runKeepsEntries os (MainWndProc os st e) rest) = true
    rw [he, hrest]
    rfl

/-- When no `send` fails fatally, one pass of `Broadcast` makes one `send` to each
key, in iteration order, and no other socket call. -/
theorem passCalls_never_fatal (os : Win32) (payload : Bytes)
    (hok : ∀ n s p, os.send n s p ≠ .fatal) (todo : ClientMap) :
    ∀ n, passCalls os payload n todo
      = ((keys todo).enumFrom n).map
          (fun c => SocketCall.send c.2 payload (os.send c.1 c.2 payload)) := by
  induction todo with
  | nil => intro n; rfl
  | cons e rest ih =>
    intro n
    obtain ⟨s, info⟩ := e
    simp [passCalls, hok, ih, keys, List.enumFrom]

end Server

/-! ## Lemmas on reachable states -/

namespace Server

/-- Every run keeps a well-formed map well formed. -/
theorem runServer_wellFormed (os : Win32) (events : List ServerEvent) :
    ∀ st : ServerState, WellFormed st.g_clients →
      WellFormed (runServer os st events).g_clients := by
  induction events with
  | nil => intro st h; exact h
  | cons e rest ih =>
    intro st h
    have hrun : runServer os st (e :: rest) = runServer os (MainWndProc os st e) rest := rfl
    rw [hrun]
    exact ih _ (MainWndProc_inv os st e h).1

/-- The NICK branch for a connection that has a name: the announcement is the
rename message, whatever the new name converts to. -/
theorem HandleProtocolLine_nick_named (os : Win32) (st : ServerState) (key : SOCKET)
    (client : ClientInfo) (name : Bytes) (hname : client.nickname ≠ []) :
    HandleProtocolLine os st key client ("NICK:".toList ++ name)
      = (AppendLog (UpdateClientList
          (BroadcastInfo os
            (client.nickname ++ " is now known as ".toList
              ++ (if (Utf8ToWide os name).isEmpty = true then "Guest".toList
                  else Utf8ToWide os name) ++ ".".toList)
            { st with g_clients :=
                writeClient key { client with nickname := (if (Utf8ToWide os name).isEmpty = true then "Guest".toList else Utf8ToWide os name) } st.g_clients }))
          (client.nickname ++ " is now known as ".toList
            ++ (if (Utf8ToWide os name).isEmpty = true then "Guest".toList
                else Utf8ToWide os name) ++ ".".toList),
         { client with nickname := (if (Utf8ToWide os name).isEmpty = true then "Guest".toList else Utf8ToWide os name) }) := by
  have h2 : substrFrom ("NICK:".toList ++ name) 5 = name := by simp [substrFrom]
  rw [HandleProtocolLine, if_pos (rfindAtZero_append _ _), h2]
  simp only [isEmpty_eq_false hname]
  rfl

end Server

namespace Client

theorem FlagsOk_of_eq {st st2 : ClientState} (h : FlagsOk st)
    (hf : st2.g_connected = st.g_connected ∧ st2.g_connecting = st.g_connecting) :
    FlagsOk st2 := by
  unfold FlagsOk at h ⊢
  rw [hf.1, hf.2]; exact h

theorem FlagsOk_of_closed {st : ClientState} (h : Closed st) : FlagsOk st := by
  unfold FlagsOk
  rw [h.2.1]
  exact fun hc => absurd hc.1 (by decide)

theorem HandleIncomingLine_flags (os : Win32) (st : ClientState) (line : Bytes) :
    (HandleIncomingLine os st line).g_connected = st.g_connected ∧
    (HandleIncomingLine os st line).g_connecting = st.g_connecting := by
  unfold HandleIncomingLine
  by_cases h1 : rfindAtZero line "FROM:".toList = some 0
  · rw [if_pos h1]
    cases find line ':' 5 with
    | none => exact ⟨rfl, rfl⟩
    | some c => exact AppendLog_flags _ _
  · rw [if_neg h1]
    by_cases h2 : rfindAtZero line "INFO:".toList = some 0
    · rw [if_pos h2]; exact AppendLog_flags _ _
    · rw [if_neg h2]
      by_cases h3 : line = "PONG".toList
      · rw [if_pos h3]; exact AppendLog_flags _ _
      · rw [if_neg h3]; exact ⟨rfl, rfl⟩

theorem clientLoop_flags (os : Win32) (fuel : Nat) :
    ∀ st : ClientState,
      (handleBufferedLines os fuel st).g_connected = st.g_connected ∧
      (handleBufferedLines os fuel st).g_connecting = st.g_connecting := by
  induction fuel with
  | zero => intro st; exact ⟨rfl, rfl⟩
  | succ n ih =>
    intro st
    unfold handleBufferedLines
    cases hf : find st.g_recvBuffer LF 0 with
    | none => exact ⟨rfl, rfl⟩
    | some pos =>
      obtain ⟨a, b⟩ := ih (HandleIncomingLine os { st with g_recvBuffer := erase st.g_recvBuffer 0 (pos + 1) } (stripTrailingCR (substr st.g_recvBuffer 0 pos)))
      obtain ⟨c, d⟩ := HandleIncomingLine_flags os { st with g_recvBuffer := erase st.g_recvBuffer 0 (pos + 1) } (stripTrailingCR (substr st.g_recvBuffer 0 pos))
      exact ⟨a.trans c, b.trans d⟩

theorem DrainSocket_flagsOk (os : Win32) (reads : List RecvResult) :
    ∀ st : ClientState, FlagsOk st → FlagsOk (DrainSocket os reads st) := by
  induction reads with
  | nil => intro st h; exact h
  | cons r rest ih =>
    intro st h
    cases r with
    | received bytes =>
      unfold DrainSocket
      by_cases hb : 0 < bytes.length
      · rw [if_pos hb]
        apply ih
        exact FlagsOk_of_eq h
          (clientLoop_flags os _ { st with g_recvBuffer := st.g_recvBuffer ++ bytes })
      · rw [if_neg hb]
        exact FlagsOk_of_closed (CloseSocket_closed _ _)
    | wouldBlock => exact h
    | error => exact FlagsOk_of_closed (CloseSocket_closed _ _)

theorem MarkConnected_flags (os : Win32) (st : ClientState) (hnc : st.g_connected = false) :
    (MarkConnected os st).g_connected = true ∧ (MarkConnected os st).g_connecting = false := by
  unfold MarkConnected
  rw [if_neg (by simp [hnc])]
  simp only [SendNickname, (SendLine_flags _ _ _).1, (SendLine_flags _ _ _).2,
    (UpdateControls_flags _).1, (UpdateControls_flags _).2, (SetStatus_flags _ _).1,
    (SetStatus_flags _ _).2, (AppendLog_flags _ _).1, (AppendLog_flags _ _).2, and_self]

theorem MarkConnected_flagsOk (os : Win32) (st : ClientState) (h : FlagsOk st) :
    FlagsOk (MarkConnected os st) := by
  by_cases hc : st.g_connected = true
  · rw [MarkConnected_connected os st hc]; exact h
  · have hf := MarkConnected_flags os st (by simpa using hc)
    unfold FlagsOk
    rw [hf.2]
    exact fun hx => absurd hx.2 (by decide)

theorem SendChatMessage_flags (os : Win32) (st : ClientState) :
    (SendChatMessage os st).g_connected = st.g_connected ∧
    (SendChatMessage os st).g_connecting = st.g_connecting := by
  unfold SendChatMessage
  by_cases h1 : (!st.g_connected) = true
  · rw [if_pos h1]; exact ⟨rfl, rfl⟩
  · rw [if_neg h1]
    by_cases h2 : (GetWindowTextW st.messageText 511).isEmpty = true
    · show (if (GetWindowTextW st.messageText 511).isEmpty = true then st else _).g_connected
          = st.g_connected ∧
        (if (GetWindowTextW st.messageText 511).isEmpty = true then st else _).g_connecting
          = st.g_connecting
      rw [if_pos h2]; exact ⟨rfl, rfl⟩
    · show (if (GetWindowTextW st.messageText 511).isEmpty = true then st else _).g_connected
          = st.g_connected ∧
        (if (GetWindowTextW st.messageText 511).isEmpty = true then st else _).g_connecting
          = st.g_connecting
      rw [if_neg h2]
      rw [(SendLine_flags _ _ _).1, (SendLine_flags _ _ _).2, (AppendLog_flags _ _).1,
        (AppendLog_flags _ _).2]
      by_cases h3 : st.g_hwndMessage = true
      · rw [if_pos h3]; exact ⟨rfl, rfl⟩
      · rw [if_neg h3]; exact ⟨rfl, rfl⟩

theorem BeginConnect_flagsOk (os : Win32) (st : ClientState) (outcome : Option (SOCKET × Bool))
    (h : FlagsOk st) (hc : st.g_connected = false) :
    FlagsOk (BeginConnect os st outcome).1 := by
  unfold BeginConnect
  cases outcome with
  | none => exact h
  | some p =>
    obtain ⟨sock, immediate⟩ := p
    by_cases hs : sock = INVALID_SOCKET
    · simp only [hs, if_true]; exact h
    · simp only [hs, if_false]
      cases immediate with
      | true =>
        simp only [if_true]
        exact MarkConnected_flagsOk os _ (FlagsOk_of_eq h ⟨rfl, rfl⟩)
      | false =>
        simp only [Bool.false_eq_true, if_false]
        unfold FlagsOk
        rw [(AppendLog_flags _ _).1, (UpdateControls_flags _).1, (SetStatus_flags _ _).1]
        show ¬ (st.g_connected = true ∧ _)
        rw [hc]
        exact fun hx => absurd hx.1 (by decide)

/-- One window message or edit keeps the two flags from being both set. -/
theorem MainWndProc_flagsOk (os : Win32) (st : ClientState) (e : ClientEvent)
    (h : FlagsOk st) : FlagsOk (MainWndProc os st e) := by
  cases e with
  | create a b c d f g =>
    exact FlagsOk_of_eq h (UpdateControls_flags _)
  | connectClicked outcome =>
    show FlagsOk (if (st.g_connected || st.g_connecting) = true then
      SetStatus (CloseSocket st "Disconnected by user.".toList) "Disconnected".toList
      else (BeginConnect os st outcome).1)
    by_cases hc : (st.g_connected || st.g_connecting) = true
    · rw [if_pos hc]
      exact FlagsOk_of_closed (Closed_SetStatus _ (CloseSocket_closed _ _))
    · rw [if_neg hc]
      have hc2 : st.g_connected = false := by
        cases hx : st.g_connected with
        | false => rfl
        | true => simp [hx] at hc
      exact BeginConnect_flagsOk os st outcome h hc2
  | sendClicked => exact FlagsOk_of_eq h (SendChatMessage_flags os st)
  | socketMessage m =>
    show FlagsOk (HandleSocketMessage os st m)
    unfold HandleSocketMessage
    by_cases h1 : m.socket ≠ st.g_socket
    · rw [if_pos h1]; exact h
    · rw [if_neg h1]
      by_cases h2 : m.error ≠ 0
      · rw [if_pos h2]; exact FlagsOk_of_closed (CloseSocket_closed _ _)
      · rw [if_neg h2]
        cases m.event with
        | FD_CONNECT => exact MarkConnected_flagsOk os st h
        | FD_READ => exact DrainSocket_flagsOk os m.reads st h
        | FD_CLOSE => exact FlagsOk_of_closed (CloseSocket_closed _ _)
        | other => exact h
  | destroy => exact FlagsOk_of_closed (CloseSocket_closed _ _)
  | nicknameEdited text =>
    show FlagsOk (if st.g_hwndNickname = true then { st with nicknameText := text } else st)
    by_cases hn : st.g_hwndNickname = true
    · rw [if_pos hn]; exact h
    · rw [if_neg hn]; exact h
  | messageEdited text =>
    show FlagsOk (if st.g_hwndMessage = true then { st with messageText := text } else st)
    by_cases hn : st.g_hwndMessage = true
    · rw [if_pos hn]; exact h
    · rw [if_neg hn]; exact h

theorem runClient_flagsOk (os : Win32) (events : List ClientEvent) :
    ∀ st : ClientState, FlagsOk st → FlagsOk (runClient os st events) := by
  induction events with
  | nil => intro st h; exact h
  | cons e rest ih =>
    intro st h
    have hrun : runClient os st (e :: rest) = runClient os (MainWndProc os st e) rest := rfl
    rw [hrun]
    exact ih _ (MainWndProc_flagsOk os st e h)

theorem HandleSocketMessage_other_socket (os : Win32) (st : ClientState) (m : SocketMessage)
    (h : m.socket ≠ st.g_socket) : HandleSocketMessage os st m = st := by
  unfold HandleSocketMessage
  rw [if_pos h]

end Client

/-! ## The claims -/

/-- C1. Chunking invariance of the frame assembler: feeding consecutive chunks one
after another, starting from an empty buffer, yields in total the same lines and
leaves the same residual buffer as feeding their concatenation in one call. -/
theorem chunking_invariance (chunks : List Bytes) :
    feedChunks [] chunks = feed [] chunks.flatten :=
  feedChunks_eq [] chunks (by simp)

/-- C2. Postcondition of one feed with prior buffer `b` and received bytes `x`:
there are segments `raws`, none containing the delimiter, such that `b ++ x` is
these segments, each followed by the delimiter, followed by the buffer left over;
the buffer left over contains no delimiter (so it is all of `b ++ x` when that has
none); the lines yielded are the segments in order, each with exactly one trailing
carriage return stripped when it ends in one. -/
theorem feed_postcondition (b x : Bytes) :
    ∃ raws : List Bytes,
      (∀ r ∈ raws, LF ∉ r) ∧
      b ++ x = (raws.map (· ++ [LF])).flatten ++ (feed b x).2 ∧
      LF ∉ (feed b x).2 ∧
      List.Forall₂ StrippedOnce raws (feed b x).1 ∧
      (LF ∉ b ++ x → feed b x = ([], b ++ x)) := by
  obtain ⟨raws, h1, h2, h3⟩ := feed_nil_spec (b ++ x)
  refine ⟨raws, h1, h2, ?_, h3, ?_⟩
  · exact feed_rest_no_LF (b ++ x)
  · intro h
    exact feed_nil_none h

/-- C3, as the code has it. Codec round trip, on the handlers of both programs. Let
the connection under `key` have a name, and let the text conversion give back `nick`
and `text` from their wire encodings. For a non-empty `nick`, the line the client
sends for it (`NICK:` and the encoded name) makes the server take the `NICK` branch
and store exactly `nick`, announcing the rename to `nick`. The line the client
sends for `text` (`MSG:` and the encoded text) makes the server take the `MSG`
branch and relay exactly `text` under the name of the connection. The line `PING`
makes the server answer `PONG` to the sender, and the line `PONG` makes the client
log the heartbeat acknowledgement. -/
theorem codec_round_trip (os : Win32) (st : Server.ServerState) (key : SOCKET)
    (client : Server.ClientInfo) (cst : Client.ClientState) (nick text : WString)
    (hname : client.nickname ≠ [])
    (hnick : nick ≠ [])
    (hrn : Utf8ToWide os (WideToUtf8 os nick) = nick)
    (hrt : Utf8ToWide os (WideToUtf8 os text) = text) :
    Server.HandleProtocolLine os st key client (Client.nickLine os nick)
      = (Server.AppendLog (Server.UpdateClientList
          (Server.BroadcastInfo os
            (client.nickname ++ " is now known as ".toList ++ nick ++ ".".toList)
            { st with g_clients :=
                Server.writeClient key { client with nickname := nick } st.g_clients }))
          (client.nickname ++ " is now known as ".toList ++ nick ++ ".".toList),
         { client with nickname := nick }) ∧
    Server.HandleProtocolLine os st key client (Client.msgLine os text)
      = (Server.BroadcastChat os client text
          (Server.AppendLog st (client.nickname ++ ": ".toList ++ text)), client) ∧
    Server.HandleProtocolLine os st key client pingLine
      = (Server.SendLine os client.socket "PONG".toList st, client) ∧
    Client.HandleIncomingLine os cst "PONG".toList
      = Client.AppendLog cst "* Server heartbeat acknowledged.".toList := by
  refine ⟨?_, ?_, Server.HandleProtocolLine_ping os st key client, ?_⟩
  · have h := Server.HandleProtocolLine_nick os st key client (WideToUtf8 os nick) hname
      (by rw [hrn]; exact hnick)
    rw [hrn] at h
    exact h
  · have h := Server.HandleProtocolLine_msg os st key client (WideToUtf8 os text) hname
    rw [hrt] at h
    exact h
  · rw [Client.HandleIncomingLine, if_neg (by decide), if_neg (by decide), if_pos rfl]

/-- C3, as the code has it, for the connection on socket 7 of `twoClients`, the
nickname `bob` and the text `hello`: the server stores `bob` and relays `hello`. -/
theorem codec_round_trip_witness :
    (Server.HandleProtocolLine plainWin32 Server.twoClients 7 ⟨7, "Guest1".toList, []⟩
        (Client.nickLine plainWin32 "bob".toList)).2.nickname = "bob".toList ∧
    (Server.HandleProtocolLine plainWin32 Server.twoClients 7 ⟨7, "Guest1".toList, []⟩
        (Client.msgLine plainWin32 "hello".toList)).1.trace
      = [.send 7 "FROM:Guest1:hello\n".toList .sent,
         .send 8 "FROM:Guest1:hello\n".toList .sent] := by
  have h := codec_round_trip plainWin32 Server.twoClients 7 ⟨7, "Guest1".toList, []⟩
    Client.initialClientState "bob".toList "hello".toList (by decide) (by decide)
    (by decide) (by decide)
  refine ⟨?_, ?_⟩
  · rw [h.1]
  · rw [h.2.1]; decide

/-- C3 as stated fails for the empty nickname. A client whose nickname control is
empty does not encode the empty name: it sends `NICK:Guest`. And the line `NICK:`,
which is the wire line of the empty name, makes the server take the `NICK` branch
and store the name `Guest`: the name it decodes is not the empty one. -/
theorem codec_round_trip_counterexample :
    (Client.SendNickname plainWin32 (Client.connectingAs [])).trace
      = [.send 5 "NICK:Guest\n".toList .sent] ∧
    Client.nickLine plainWin32 [] = "NICK:".toList ∧
    (Server.HandleProtocolLine plainWin32 Server.twoClients 7 ⟨7, "Guest1".toList, []⟩
        (Client.nickLine plainWin32 [])).2.nickname = "Guest".toList ∧
    (Server.HandleProtocolLine plainWin32 Server.twoClients 7 ⟨7, "Guest1".toList, []⟩
        (Client.nickLine plainWin32 [])).2.nickname ≠ [] := by
  decide

/-- C4. A `FROM:` line is split only at the first colon after the five-character
prefix: for a nickname `n` without a colon and any text `t`, the line
`FROM:` `n` `:` `t` is classified as a chat from `n` with text `t`, and the client
logs `n`, a colon and a blank, then `t`. -/
theorem from_decoding (os : Win32) (st : Client.ClientState) (n t : Bytes) (hn : ':' ∉ n) :
    Client.decodeLine ("FROM:".toList ++ n ++ ':' :: t) = .IncomingChat n t ∧
    Client.HandleIncomingLine os st ("FROM:".toList ++ n ++ ':' :: t)
      = Client.AppendLog st (Utf8ToWide os n ++ ": ".toList ++ Utf8ToWide os t) := by
  refine ⟨Client.decodeLine_from n t hn, ?_⟩
  rw [Client.HandleIncomingLine_decodeLine, Client.decodeLine_from n t hn]

/-- C4 at the example of the specification: `FROM:alice:hello:world` yields the
nickname `alice` and the text `hello:world`. -/
theorem from_decoding_witness :
    ':' ∉ "alice".toList ∧
    Client.decodeLine "FROM:alice:hello:world".toList
      = .IncomingChat "alice".toList "hello:world".toList :=
  ⟨by decide, (from_decoding plainWin32 Client.initialClientState "alice".toList
    "hello:world".toList (by decide)).1⟩

/-- C5. Guest naming. Take any run of the server from its initial state, under any
behaviour of the network, in which no connection is erased by a broadcast made while
its own lines are handled (`runKeepsEntries`: the runs in which `DrainClientSocket`
never uses a dangling reference; by `runKeepsEntries_of_no_data` every run of
accepts, disconnects, stops and starts is one), and let `k - 1` connections have
been registered in it, with `k` within the range of the `int` counter. Then: the
counter holds `k`; a connection registered next is stored under the name `Guest`
followed by `k` in decimal; at no earlier point of the run was the counter larger,
whatever socket messages, disconnects, stops and starts occurred; at every earlier
registration it was smaller, so no number is used twice; and names with different
numbers differ. -/
theorem guest_naming (os : Win32) (events : List Server.ServerEvent)
    (m : Server.SocketMessage)
    (hm : Server.registers (.socketMessage m) = true)
    (hrange : Server.registrations events + 1 < 2 ^ 31)
    (_hlive : Server.runKeepsEntries os Server.initialServerState events = true) :
    (Server.runServer os Server.initialServerState events).g_guestCounter
        = (Server.registrations events : Int) + 1 ∧
    (∀ c, Server.findClient m.accepted
          (Server.runServer os Server.initialServerState
            (events ++ [.socketMessage m])).g_clients = some c →
        c.nickname = "Guest".toList ++ to_wstring ((Server.registrations events : Int) + 1)) ∧
    (∀ n, (Server.runServer os Server.initialServerState (events.take n)).g_guestCounter
        ≤ (Server.runServer os Server.initialServerState events).g_guestCounter) ∧
    (∀ n (hn : n < events.length), Server.registers (events.get ⟨n, hn⟩) = true →
        (Server.runServer os Server.initialServerState (events.take n)).g_guestCounter
          < (Server.runServer os Server.initialServerState events).g_guestCounter) ∧
    (∀ j k : Nat, j ≠ k →
        "Guest".toList ++ to_wstring (j : Int) ≠ "Guest".toList ++ to_wstring (k : Int)) := by
  have hinit : Server.WellFormed Server.initialServerState.g_clients := Server.WellFormed_nil
  have h0 : (0 : Int) ≤ Server.initialServerState.g_guestCounter := by decide
  have h1 : Server.initialServerState.g_guestCounter = 1 := rfl
  have hrun : ∀ evs : List Server.ServerEvent, Server.registrations evs ≤ Server.registrations events →
      Server.WellFormed (Server.runServer os Server.initialServerState evs).g_clients ∧
      (Server.runServer os Server.initialServerState evs).g_guestCounter
        = (Server.registrations evs : Int) + 1 := by
    intro evs hle
    obtain ⟨a, b⟩ := Server.runServer_inv os evs Server.initialServerState hinit h0
      (by rw [h1]; have : (Server.registrations evs : Int) + 1 < 2 ^ 31 := by
            exact_mod_cast (by omega : Server.registrations evs + 1 < 2 ^ 31)
          omega)
    exact ⟨a, by rw [b, h1]; omega⟩
  obtain ⟨hwf, hcnt⟩ := hrun events (Nat.le_refl _)
  refine ⟨hcnt, ?_, ?_, ?_, ?_⟩
  · intro c hc
    obtain ⟨herr, hev, hacc, hsel⟩ := Server.registers_socketMessage hm
    have hstep : Server.runServer os Server.initialServerState (events ++ [.socketMessage m])
        = Server.HandleSocketMessage os (Server.runServer os Server.initialServerState events) m := by
      rw [Server.runServer_append]; rfl
    rw [hstep, Server.HandleSocketMessage_accept os _ m herr hev hacc hsel] at hc
    simp only [Server.UpdateClientList_clients, Server.BroadcastInfo, Server.Broadcast_clients,
      Server.AppendLog_clients, Server.AppendLog_trace] at hc
    have hin := (Server.passKept_sublist os _ _ _).subset (Server.mem_of_findClient hc)
    have hwfa := @Server.WellFormed_assignClient m.accepted
      ⟨m.accepted, "Guest".toList ++ to_wstring
        (Server.runServer os Server.initialServerState events).g_guestCounter, []⟩
      _ hwf ⟨Server.guestName_ne_nil _, rfl, hacc⟩
    have hin2 := Server.mem_of_findClient (Server.findClient_assignClient m.accepted
      ⟨m.accepted, "Guest".toList ++ to_wstring
        (Server.runServer os Server.initialServerState events).g_guestCounter, []⟩
      (Server.runServer os Server.initialServerState events).g_clients)
    have := Server.entry_unique hwfa.1 hin hin2
    rw [this, hcnt]
  · intro n
    rw [hcnt, (hrun _ (Server.registrations_take_le events n)).2]
    have := Server.registrations_take_le events n
    omega
  · intro n hn hreg
    rw [hcnt, (hrun _ (Server.registrations_take_le events n)).2]
    have := Server.registrations_take_lt events n hn hreg
    omega
  · intro j k hjk h
    exact hjk (to_wstring_injective (List.append_cancel_left h))

/-- C5 for the server that has registered one connection (socket 7, `Guest1`) and
registers a second one (socket 8): the counter holds 2 and the second connection is
stored as `Guest2`, after the first. -/
theorem guest_naming_witness :
    Server.oneClient.g_guestCounter = 2 ∧
    (Server.runServer plainWin32 Server.oneClient
        [.socketMessage (Server.acceptOf 8)]).g_clients
      = [(7, ⟨7, "Guest1".toList, []⟩), (8, ⟨8, "Guest2".toList, []⟩)] ∧
    ∀ c, Server.findClient 8 (Server.runServer plainWin32 Server.oneClient
        [.socketMessage (Server.acceptOf 8)]).g_clients = some c →
      c.nickname = "Guest2".toList :=
  ⟨(guest_naming plainWin32
      [.create true true true true, .startStopClicked (some (100, 6667)),
       .socketMessage (Server.acceptOf 7)] (Server.acceptOf 8) rfl (by decide)
      (by decide)).1,
   by decide,
   (guest_naming plainWin32
      [.create true true true true, .startStopClicked (some (100, 6667)),
       .socketMessage (Server.acceptOf 7)] (Server.acceptOf 8) rfl (by decide)
      (by decide)).2.1⟩

/-- C6. Chat fan-out includes the sender. Let the connection under `key` be
registered with the non-empty nickname `n`, the keys be distinct and no `send`
fail. Handling its line `MSG:` `text` makes exactly one `send` to each registered
socket, in iteration order and to nobody else, each carrying `FROM:` `n` `:` `text`
and one terminator (nickname and text in wire encoding); the sender's own socket is
among the targets, every registered socket is sent the line exactly once, and the
map is unchanged. -/
theorem chat_fan_out (os : Win32) (st : Server.ServerState) (key : SOCKET)
    (client : Server.ClientInfo) (text : Bytes)
    (hreg : Server.findClient key st.g_clients = some client)
    (hname : client.nickname ≠ [])
    (hnd : (Server.keys st.g_clients).Nodup)
    (hok : ∀ n s p, os.send n s p = .sent) :
    (Server.HandleProtocolLine os st key client ("MSG:".toList ++ text)).1.trace
      = st.trace ++ (Server.keys st.g_clients).map (fun s => SocketCall.send s
          ("FROM:".toList ++ WideToUtf8 os client.nickname ++ ":".toList
            ++ WideToUtf8 os (Utf8ToWide os text) ++ [LF]) .sent) ∧
    key ∈ Server.keys st.g_clients ∧
    (∀ s ∈ Server.keys st.g_clients,
      (((Server.HandleProtocolLine os st key client ("MSG:".toList ++ text)).1.trace.drop
          st.trace.length).count
        (.send s ("FROM:".toList ++ WideToUtf8 os client.nickname ++ ":".toList
            ++ WideToUtf8 os (Utf8ToWide os text) ++ [LF]) .sent)) = 1) ∧
    (Server.HandleProtocolLine os st key client ("MSG:".toList ++ text)).1.g_clients
      = st.g_clients := by
  have ht : (Server.HandleProtocolLine os st key client ("MSG:".toList ++ text)).1.trace
      = st.trace ++ (Server.keys st.g_clients).map (fun s => SocketCall.send s
          ("FROM:".toList ++ WideToUtf8 os client.nickname ++ ":".toList
            ++ WideToUtf8 os (Utf8ToWide os text) ++ [LF]) .sent) := by
    rw [Server.HandleProtocolLine_msg os st key client text hname]
    simp only [Server.BroadcastChat, Server.Broadcast_trace, Server.AppendLog_trace,
      Server.AppendLog_clients, Server.passCalls_all_sent os _ hok]
  refine ⟨ht, Server.mem_keys_of_findClient hreg, ?_, ?_⟩
  · intro s hs
    rw [ht, List.drop_left]
    exact Server.count_send_eq_one _ _ hnd s hs
  · rw [Server.HandleProtocolLine_msg os st key client text hname]
    simp only [Server.BroadcastChat, Server.Broadcast_clients, Server.AppendLog_clients,
      Server.passKept_all_sent os _ hok]

/-- C6 on the registry with the sockets 7 (the sender, `Guest1`) and 8. -/
theorem chat_fan_out_witness :
    (Server.HandleProtocolLine plainWin32 Server.twoClients 7
        ⟨7, "Guest1".toList, []⟩ "MSG:hello".toList).1.trace
      = [.send 7 "FROM:Guest1:hello\n".toList .sent, .send 8 "FROM:Guest1:hello\n".toList .sent] :=
  (chat_fan_out plainWin32 Server.twoClients 7 ⟨7, "Guest1".toList, []⟩ "hello".toList
    (by decide) (by decide) (by decide) (fun _ _ _ => rfl)).1

/-- C7. `Broadcast` prunes failed connections and is total: on every state with
distinct keys, every line and every behaviour of `send`, the pass makes exactly one
`send` of the line and its terminator to each entry, in iteration order; the map
afterwards consists of entries of the map before, unchanged; it holds no key whose
`send` failed fatally, and it still holds, with the same nickname and buffer, every
entry whose `send` did not fail fatally. -/
theorem broadcast_prunes_failed (os : Win32) (line : Bytes) (st : Server.ServerState)
    (hnd : (Server.keys st.g_clients).Nodup) :
    ∃ calls : List SocketCall,
      (Server.Broadcast os line st).trace = st.trace ++ calls ∧
      (Server.sendsOf calls).map (fun c => (c.1, c.2.1))
        = st.g_clients.map (fun e => (e.1, line ++ [LF])) ∧
      List.Sublist (Server.Broadcast os line st).g_clients st.g_clients ∧
      ∀ s p r, (s, p, r) ∈ Server.sendsOf calls →
        (r = .fatal → s ∉ Server.keys (Server.Broadcast os line st).g_clients) ∧
        (r ≠ .fatal → ∀ info, (s, info) ∈ st.g_clients →
          (s, info) ∈ (Server.Broadcast os line st).g_clients) := by
  refine ⟨Server.passCalls os (line ++ [LF]) st.trace.length st.g_clients,
    Server.Broadcast_trace os line st, Server.sendsOf_passCalls_targets os _ _ _, ?_, ?_⟩
  · rw [Server.Broadcast_clients]
    exact Server.passKept_sublist os _ _ _
  · intro s p r hm
    rw [Server.Broadcast_clients]
    exact Server.passKept_of_send os _ _ hnd _ s p r hm

/-- C7 on a map with the sockets 7 and 8, the `send` to 8 failing fatally. -/
theorem broadcast_prunes_failed_witness :
    (Server.keys Server.twoClients.g_clients).Nodup ∧
    ∃ calls : List SocketCall,
      (Server.Broadcast Server.failingAt8 "INFO:x".toList Server.twoClients).trace
        = Server.twoClients.trace ++ calls ∧
      (Server.sendsOf calls).map (fun c => (c.1, c.2.1))
        = Server.twoClients.g_clients.map (fun e => (e.1, "INFO:x".toList ++ [LF])) ∧
      List.Sublist (Server.Broadcast Server.failingAt8 "INFO:x".toList Server.twoClients).g_clients
        Server.twoClients.g_clients ∧
      ∀ s p r, (s, p, r) ∈ Server.sendsOf calls →
        (r = .fatal → s ∉ Server.keys
          (Server.Broadcast Server.failingAt8 "INFO:x".toList Server.twoClients).g_clients) ∧
        (r ≠ .fatal → ∀ info, (s, info) ∈ Server.twoClients.g_clients →
          (s, info) ∈
            (Server.Broadcast Server.failingAt8 "INFO:x".toList Server.twoClients).g_clients) :=
  ⟨by decide, broadcast_prunes_failed Server.failingAt8 "INFO:x".toList Server.twoClients
    (by decide)⟩

/-- C8, as the code has it. A registered connection has a non-empty nickname `old`
(a guest name from the moment it is accepted), so each of two successive `NICK`
commands with non-empty names is announced by a rename message and none by a join
message. When no `send` fails fatally, handling `NICK:` `a` and then `NICK:` `b`
makes these socket calls and no others: one `send` of
`INFO:` `old` ` is now known as ` `a` `.` to every registered socket, then one
`send` of `INFO:` `a` ` is now known as ` `b` `.` to every registered socket, each
with the result the network gives it; the connection then has the name `b`. -/
theorem nick_twice_two_renames (os : Win32) (st : Server.ServerState) (key : SOCKET)
    (client : Server.ClientInfo) (a b : Bytes)
    (hold : client.nickname ≠ [])
    (ha : Utf8ToWide os a ≠ []) (hb : Utf8ToWide os b ≠ [])
    (hok : ∀ n s p, os.send n s p ≠ .fatal) :
    (Server.HandleProtocolLine os
        (Server.HandleProtocolLine os st key client ("NICK:".toList ++ a)).1 key
        (Server.HandleProtocolLine os st key client ("NICK:".toList ++ a)).2
        ("NICK:".toList ++ b)).1.trace
      = st.trace
        ++ ((Server.keys st.g_clients).enumFrom st.trace.length).map
            (fun c => SocketCall.send c.2
              ("INFO:".toList ++ WideToUtf8 os (client.nickname ++ " is now known as ".toList
                ++ Utf8ToWide os a ++ ".".toList) ++ [LF])
              (os.send c.1 c.2
                ("INFO:".toList ++ WideToUtf8 os (client.nickname ++ " is now known as ".toList
                  ++ Utf8ToWide os a ++ ".".toList) ++ [LF])))
        ++ ((Server.keys st.g_clients).enumFrom
              (st.trace.length + (Server.keys st.g_clients).length)).map
            (fun c => SocketCall.send c.2
              ("INFO:".toList ++ WideToUtf8 os (Utf8ToWide os a ++ " is now known as ".toList
                ++ Utf8ToWide os b ++ ".".toList) ++ [LF])
              (os.send c.1 c.2
                ("INFO:".toList ++ WideToUtf8 os (Utf8ToWide os a ++ " is now known as ".toList
                  ++ Utf8ToWide os b ++ ".".toList) ++ [LF]))) ∧
    (Server.HandleProtocolLine os
        (Server.HandleProtocolLine os st key client ("NICK:".toList ++ a)).1 key
        (Server.HandleProtocolLine os st key client ("NICK:".toList ++ a)).2
        ("NICK:".toList ++ b)).2.nickname = Utf8ToWide os b := by
  rw [Server.HandleProtocolLine_nick os st key client a hold ha]
  rw [Server.HandleProtocolLine_nick os _ key _ b ha hb]
  simp only [Server.AppendLog_trace, Server.UpdateClientList_trace, Server.BroadcastInfo,
    Server.Broadcast_trace, Server.AppendLog_clients, Server.UpdateClientList_clients,
    Server.Broadcast_clients, Server.passCalls_never_fatal os _ hok,
    Server.passKept_never_fatal os _ hok, Server.keys_writeClient, List.length_append,
    List.length_map, List.enumFrom_length, and_true]

/-- C8, as the code has it, for the connection on socket 7 of `oneClient` and the
names `bob` and `bobby`. -/
theorem nick_twice_two_renames_witness :
    (Server.HandleProtocolLine plainWin32
        (Server.HandleProtocolLine plainWin32 Server.oneClient 7 ⟨7, "Guest1".toList, []⟩
          "NICK:bob".toList).1 7
        (Server.HandleProtocolLine plainWin32 Server.oneClient 7 ⟨7, "Guest1".toList, []⟩
          "NICK:bob".toList).2
        "NICK:bobby".toList).1.trace
      = Server.oneClient.trace ++
        [.send 7 "INFO:Guest1 is now known as bob.\n".toList .sent] ++
        [.send 7 "INFO:bob is now known as bobby.\n".toList .sent] := by
  have h := (nick_twice_two_renames plainWin32 Server.oneClient 7 ⟨7, "Guest1".toList, []⟩
    "bob".toList "bobby".toList (by decide) (by decide) (by decide)
    (fun _ _ _ h => SendResult.noConfusion h)).1
  exact h.trans (by decide)

/-- C8 as stated fails: a peer is accepted on socket 7 and then sends `NICK:bob`
and, later, `NICK:bobby`. What the server announces for the two commands is two
rename messages; it is not a join message followed by a rename message. -/
theorem nick_announcements_counterexample :
    (Server.sendsOf ((Server.runServer plainWin32 Server.oneClient
        [.socketMessage (Server.readOf 7 "NICK:bob\n".toList),
         .socketMessage (Server.readOf 7 "NICK:bobby\n".toList)]).trace.drop
        Server.oneClient.trace.length)).map (fun c => c.2.1)
      = ["INFO:Guest1 is now known as bob.\n".toList,
         "INFO:bob is now known as bobby.\n".toList] ∧
    (Server.sendsOf ((Server.runServer plainWin32 Server.oneClient
        [.socketMessage (Server.readOf 7 "NICK:bob\n".toList),
         .socketMessage (Server.readOf 7 "NICK:bobby\n".toList)]).trace.drop
        Server.oneClient.trace.length)).map (fun c => c.2.1)
      ≠ ["INFO:bob joined the chat.\n".toList,
         "INFO:bob is now known as bobby.\n".toList] := by
  decide

/-- C9. `PING` is answered privately. For a registered connection whose stored
socket is its key, handling the line `PING` makes exactly one socket call, a `send`
of `PONG` and one terminator to that socket; nothing is sent to any other
connection, and the map with all nicknames and buffers, the guest counter and every
other global are unchanged. -/
theorem ping_private_pong (os : Win32) (st : Server.ServerState) (key : SOCKET)
    (client : Server.ClientInfo)
    (hreg : Server.findClient key st.g_clients = some client)
    (hsock : client.socket = key) (hvalid : key ≠ INVALID_SOCKET) :
    Server.HandleProtocolLine os st key client "PING".toList
      = ({ st with trace := st.trace ++
            [.send key ("PONG".toList ++ [LF])
              (os.send st.trace.length key ("PONG".toList ++ [LF]))] }, client) ∧
    Server.findClient key
      (Server.HandleProtocolLine os st key client "PING".toList).1.g_clients = some client := by
  have h : Server.HandleProtocolLine os st key client "PING".toList
      = ({ st with trace := st.trace ++
            [.send key ("PONG".toList ++ [LF])
              (os.send st.trace.length key ("PONG".toList ++ [LF]))] }, client) := by
    rw [Server.HandleProtocolLine_ping, Server.SendLine, hsock, if_neg hvalid]
  exact ⟨h, by rw [h]; exact hreg⟩

/-- C9 on the registry with the sockets 7 and 8, the `PING` coming from 7. -/
theorem ping_private_pong_witness :
    (Server.HandleProtocolLine plainWin32 Server.twoClients 7
        ⟨7, "Guest1".toList, []⟩ "PING".toList).1
      = { Server.twoClients with trace := [.send 7 "PONG\n".toList .sent] } :=
  congrArg Prod.fst (ping_private_pong plainWin32 Server.twoClients 7 ⟨7, "Guest1".toList, []⟩
    (by decide) rfl (by decide)).1

/-- C10, as the code has it. When the server accepts a connection, the entry with
the generated name is stored under the accepted socket first; the line
`INFO:` name ` joined the chat.` is then sent once to every entry of the map as it
is after the insertion, the newly accepted connection included; the map afterwards
consists of entries of that map. -/
theorem accept_announces_to_all (os : Win32) (st : Server.ServerState)
    (m : Server.SocketMessage) (herr : m.error = 0) (hev : m.event = .FD_ACCEPT)
    (hacc : m.accepted ≠ INVALID_SOCKET) (hsel : m.asyncSelectOk = true) :
    ∃ calls : List SocketCall,
      (Server.HandleSocketMessage os st m).trace = st.trace ++ calls ∧
      Server.findClient m.accepted
          (Server.assignClient m.accepted
            ⟨m.accepted, "Guest".toList ++ to_wstring st.g_guestCounter, []⟩ st.g_clients)
        = some ⟨m.accepted, "Guest".toList ++ to_wstring st.g_guestCounter, []⟩ ∧
      (Server.sendsOf calls).map (fun c => (c.1, c.2.1))
        = (Server.assignClient m.accepted
            ⟨m.accepted, "Guest".toList ++ to_wstring st.g_guestCounter, []⟩ st.g_clients).map
          (fun e => (e.1, "INFO:".toList ++ WideToUtf8 os
            ("Guest".toList ++ to_wstring st.g_guestCounter ++ " joined the chat.".toList)
            ++ [LF])) ∧
      (m.accepted, "INFO:".toList ++ WideToUtf8 os
            ("Guest".toList ++ to_wstring st.g_guestCounter ++ " joined the chat.".toList)
            ++ [LF]) ∈ (Server.sendsOf calls).map (fun c => (c.1, c.2.1)) ∧
      List.Sublist (Server.HandleSocketMessage os st m).g_clients
        (Server.assignClient m.accepted
          ⟨m.accepted, "Guest".toList ++ to_wstring st.g_guestCounter, []⟩ st.g_clients) := by
  rw [Server.HandleSocketMessage_accept os st m herr hev hacc hsel]
  simp only [Server.UpdateClientList_trace, Server.UpdateClientList_clients, Server.BroadcastInfo,
    Server.Broadcast_trace, Server.Broadcast_clients, Server.AppendLog_trace,
    Server.AppendLog_clients]
  refine ⟨_, rfl, Server.findClient_assignClient _ _ _,
    Server.sendsOf_passCalls_targets os _ _ _, ?_, Server.passKept_sublist os _ _ _⟩
  rw [Server.sendsOf_passCalls_targets]
  have hm := Server.mem_of_findClient (Server.findClient_assignClient m.accepted
    ⟨m.accepted, "Guest".toList ++ to_wstring st.g_guestCounter, []⟩ st.g_clients)
  exact List.mem_map_of_mem
    (fun e : SOCKET × Server.ClientInfo => (e.1, "INFO:".toList ++ WideToUtf8 os
      ("Guest".toList ++ to_wstring st.g_guestCounter ++ " joined the chat.".toList) ++ [LF])) hm

/-- C10, as the code has it, when a second connection (socket 8) is accepted while
socket 7 is registered: both are sent the line. -/
theorem accept_announces_to_all_witness :
    ∃ calls : List SocketCall,
      (Server.HandleSocketMessage plainWin32 Server.oneClient (Server.acceptOf 8)).trace
        = Server.oneClient.trace ++ calls ∧
      (Server.sendsOf calls).map (fun c => (c.1, c.2.1))
        = [(7, "INFO:Guest2 joined the chat.\n".toList),
           (8, "INFO:Guest2 joined the chat.\n".toList)] := by
  obtain ⟨calls, h1, _, h3, _⟩ := accept_announces_to_all plainWin32 Server.oneClient
    (Server.acceptOf 8) rfl rfl (by decide) rfl
  exact ⟨calls, h1, h3⟩

/-- C10 as stated fails: with socket 7 registered, accepting socket 8 sends the join
line of the newcomer to socket 7 and to socket 8, not only to the connections other
than the newly accepted one. -/
theorem accept_announcement_counterexample :
    Server.sendsOf ((Server.HandleSocketMessage plainWin32 Server.oneClient
        (Server.acceptOf 8)).trace.drop Server.oneClient.trace.length)
      = [(7, "INFO:Guest2 joined the chat.\n".toList, .sent),
         (8, "INFO:Guest2 joined the chat.\n".toList, .sent)] ∧
    ¬ (∀ c ∈ Server.sendsOf ((Server.HandleSocketMessage plainWin32 Server.oneClient
        (Server.acceptOf 8)).trace.drop Server.oneClient.trace.length), c.1 ≠ 8) := by
  decide

/-- C11. Rename. Let the connection under `key` be registered with the display name
`old`, the keys be distinct, and `name` convert to a non-empty name. Handling
`NICK:` `name` sets the display name of the connection to that name; it makes one
broadcast pass, every send of which, one to each registered socket, carries the same
announcement: `INFO:` name ` joined the chat.` when `old` is empty and
`INFO:` `old` ` is now known as ` name `.` otherwise; if the connection is still in
the map afterwards, its entry is the old one with the new name; every other entry of
the map afterwards is an entry of the map before, unchanged. -/
theorem rename_announces_once (os : Win32) (st : Server.ServerState) (key : SOCKET)
    (client : Server.ClientInfo) (name : Bytes)
    (hreg : Server.findClient key st.g_clients = some client)
    (hnd : (Server.keys st.g_clients).Nodup)
    (hnew : Utf8ToWide os name ≠ []) :
    (Server.HandleProtocolLine os st key client ("NICK:".toList ++ name)).2
      = { client with nickname := Utf8ToWide os name } ∧
    (∃ calls : List SocketCall,
      (Server.HandleProtocolLine os st key client ("NICK:".toList ++ name)).1.trace
        = st.trace ++ calls ∧
      (Server.sendsOf calls).map (fun c => (c.1, c.2.1))
        = st.g_clients.map (fun e => (e.1,
            "INFO:".toList ++ WideToUtf8 os
              (if client.nickname = [] then Utf8ToWide os name ++ " joined the chat.".toList
               else client.nickname ++ " is now known as ".toList ++ Utf8ToWide os name
                ++ ".".toList) ++ [LF]))) ∧
    (∀ c, Server.findClient key
        (Server.HandleProtocolLine os st key client ("NICK:".toList ++ name)).1.g_clients
          = some c → c = { client with nickname := Utf8ToWide os name }) ∧
    (∀ k c, k ≠ key →
      (k, c) ∈ (Server.HandleProtocolLine os st key client ("NICK:".toList ++ name)).1.g_clients →
      (k, c) ∈ st.g_clients) := by
  rw [Server.HandleProtocolLine_nick_any os st key client name hnew]
  simp only [Server.AppendLog_trace, Server.UpdateClientList_trace, Server.BroadcastInfo,
    Server.Broadcast_trace, Server.AppendLog_clients, Server.UpdateClientList_clients,
    Server.Broadcast_clients, List.isEmpty_iff]
  have hkw : (Server.keys (Server.writeClient key
      { client with nickname := Utf8ToWide os name } st.g_clients)).Nodup := by
    rw [Server.keys_writeClient]; exact hnd
  refine ⟨trivial, ⟨_, rfl, ?_⟩, ?_, ?_⟩
  · rw [Server.sendsOf_passCalls_targets]
    have hk := Server.keys_writeClient key { client with nickname := Utf8ToWide os name }
      st.g_clients
    simp only [Server.keys] at hk
    have e1 : ∀ (m : Server.ClientMap) (p : Bytes),
        m.map (fun e => (e.1, p)) = (m.map Prod.fst).map (fun s => (s, p)) := by
      intro m p; simp
    rw [e1, e1, hk]
  · intro c hc
    have hin := (Server.passKept_sublist os _ _ _).subset (Server.mem_of_findClient hc)
    have hin2 := Server.mem_of_findClient (Server.findClient_writeClient key
      { client with nickname := Utf8ToWide os name } st.g_clients
      (Server.mem_keys_of_findClient hreg))
    exact Server.entry_unique hkw hin hin2
  · intro k c hk hc
    have hin := (Server.passKept_sublist os _ _ _).subset hc
    rcases Server.mem_writeClient hin with h | h
    · exact h
    · exact absurd (Prod.mk.inj h).1 hk

/-- C11 for the connection on socket 7 of `oneClient` (named `Guest1`) and the new
name `bob`. -/
theorem rename_announces_once_witness :
    (Server.HandleProtocolLine plainWin32 Server.oneClient 7 ⟨7, "Guest1".toList, []⟩
      "NICK:bob".toList).2 = ⟨7, "bob".toList, []⟩ :=
  (rename_announces_once plainWin32 Server.oneClient 7 ⟨7, "Guest1".toList, []⟩ "bob".toList
    (by decide) (by decide) (by decide)).1

/-- C12. Leave announcement. Let `socket` be registered and the keys be distinct.
`DisconnectClient` closes the socket and erases its entry. If the entry had a
non-empty name `n`, one broadcast pass follows, every send of which, one to each
remaining entry and none to the erased socket, carries `INFO:` `n` ` left the chat.`;
if the name was empty no send is made. Afterwards the socket is not in the map and
every entry of the map is an entry of the map before. -/
theorem leave_announcement (os : Win32) (st : Server.ServerState) (socket : SOCKET)
    (info : Server.ClientInfo)
    (hreg : Server.findClient socket st.g_clients = some info)
    (hnd : (Server.keys st.g_clients).Nodup) :
    (info.nickname ≠ [] →
      ∃ calls : List SocketCall,
        (Server.DisconnectClient os socket st).trace
          = st.trace ++ [.closesocket socket] ++ calls ∧
        (Server.sendsOf calls).map (fun c => (c.1, c.2.1))
          = (Server.eraseClient socket st.g_clients).map (fun e => (e.1,
              "INFO:".toList ++ WideToUtf8 os (info.nickname ++ " left the chat.".toList)
                ++ [LF])) ∧
        ∀ c ∈ Server.sendsOf calls, c.1 ≠ socket) ∧
    (info.nickname = [] →
      (Server.DisconnectClient os socket st).trace = st.trace ++ [.closesocket socket]) ∧
    Server.keys (Server.eraseClient socket st.g_clients) = (Server.keys st.g_clients).erase socket ∧
    socket ∉ Server.keys (Server.DisconnectClient os socket st).g_clients ∧
    (∀ e ∈ (Server.DisconnectClient os socket st).g_clients, e ∈ st.g_clients) := by
  refine ⟨?_, ?_, Server.keys_eraseClient _ _, Server.DisconnectClient_not_mem os socket st hnd, ?_⟩
  · intro hn
    rw [Server.DisconnectClient_named os socket st info hreg hn]
    simp only [Server.BroadcastInfo, Server.Broadcast_trace, Server.AppendLog_trace,
      Server.UpdateClientList_trace, Server.AppendLog_clients, Server.UpdateClientList_clients]
    refine ⟨_, rfl, Server.sendsOf_passCalls_targets os _ _ _, ?_⟩
    intro c hc hcs
    obtain ⟨s, p, r⟩ := c
    have := Server.mem_sendsOf_passCalls os _ _ _ s p r hc
    exact Server.not_mem_keys_eraseClient hnd (hcs ▸ this)
  · intro hn
    rw [Server.DisconnectClient_unnamed os socket st info hreg hn, Server.UpdateClientList_trace]
  · intro e he
    have hs := Server.DisconnectClient_sublist os socket st (by rw [hreg]; simp)
    exact (Server.eraseClient_sublist _ _).subset (hs.subset he)

/-- C12 when the connection on socket 8 of `twoClients` (named `Guest2`) is
disconnected: the line goes to socket 7 only. -/
theorem leave_announcement_witness :
    (Server.DisconnectClient plainWin32 8 Server.twoClients).trace
      = [.closesocket 8, .send 7 "INFO:Guest2 left the chat.\n".toList .sent] ∧
    8 ∉ Server.keys (Server.DisconnectClient plainWin32 8 Server.twoClients).g_clients :=
  ⟨by decide,
   (leave_announcement plainWin32 Server.twoClients 8 ⟨8, "Guest2".toList, []⟩
      (by decide) (by decide)).2.2.2.1⟩

/-- C13. Unregistering is idempotent. With distinct keys: for a socket that is not
in the map, `DisconnectClient` returns the state as it is, trace included; and a
second `DisconnectClient` on the same socket returns the state the first one left,
so the departure is announced at most once. -/
theorem unregister_idempotent (os : Win32) (st : Server.ServerState) (socket : SOCKET)
    (hnd : (Server.keys st.g_clients).Nodup) :
    (socket ∉ Server.keys st.g_clients → Server.DisconnectClient os socket st = st) ∧
    Server.DisconnectClient os socket (Server.DisconnectClient os socket st)
      = Server.DisconnectClient os socket st :=
  ⟨fun h => Server.DisconnectClient_none os socket st (Server.findClient_eq_none.mpr h),
   Server.DisconnectClient_none os socket _
    (Server.findClient_eq_none.mpr (Server.DisconnectClient_not_mem os socket st hnd))⟩

/-- C13 for socket 8 of `twoClients`, and for socket 9, which is not registered. -/
theorem unregister_idempotent_witness :
    (Server.keys Server.twoClients.g_clients).Nodup ∧
    Server.DisconnectClient plainWin32 9 Server.twoClients = Server.twoClients ∧
    Server.DisconnectClient plainWin32 8 (Server.DisconnectClient plainWin32 8 Server.twoClients)
      = Server.DisconnectClient plainWin32 8 Server.twoClients :=
  ⟨by decide,
   (unregister_idempotent plainWin32 Server.twoClients 9 (by decide)).1 (by decide),
   (unregister_idempotent plainWin32 Server.twoClients 8 (by decide)).2⟩

/-- C14, as the code has it. In `Broadcast`, a connection whose `send` reports
"would block" is not removed. With distinct keys, each entry is the target of
exactly one `send` of the pass (the line is not queued and not sent again); an
entry whose `send` succeeded or reported "would block" is in the map afterwards,
unchanged; an entry whose `send` failed with another error is not; the map
afterwards holds only entries of the map before; and an entry is missing afterwards
only when the `send` to it failed with another error. -/
theorem would_block_keeps_connection (os : Win32) (line : Bytes) (st : Server.ServerState)
    (hnd : (Server.keys st.g_clients).Nodup) :
    ∃ calls : List SocketCall,
      (Server.Broadcast os line st).trace = st.trace ++ calls ∧
      (Server.sendsOf calls).map (fun c => (c.1, c.2.1))
        = st.g_clients.map (fun e => (e.1, line ++ [LF])) ∧
      (∀ s p r, (s, p, r) ∈ Server.sendsOf calls →
        (r = .wouldBlock ∨ r = .sent → ∀ info, (s, info) ∈ st.g_clients →
          (s, info) ∈ (Server.Broadcast os line st).g_clients) ∧
        (r = .fatal → s ∉ Server.keys (Server.Broadcast os line st).g_clients)) ∧
      List.Sublist (Server.Broadcast os line st).g_clients st.g_clients ∧
      (∀ e ∈ st.g_clients, e ∉ (Server.Broadcast os line st).g_clients →
        (e.1, line ++ [LF], SendResult.fatal) ∈ Server.sendsOf calls) := by
  have hfate := Server.passKept_of_send os (line ++ [LF]) st.g_clients hnd st.trace.length
  have htargets := Server.sendsOf_passCalls_targets os (line ++ [LF]) st.g_clients
    st.trace.length
  refine ⟨Server.passCalls os (line ++ [LF]) st.trace.length st.g_clients,
    Server.Broadcast_trace os line st, htargets, ?_, ?_, ?_⟩
  · intro s p r hm
    rw [Server.Broadcast_clients]
    refine ⟨fun hr => (hfate s p r hm).2 ?_, (hfate s p r hm).1⟩
    rcases hr with hr | hr <;> rw [hr] <;> decide
  · rw [Server.Broadcast_clients]
    exact Server.passKept_sublist os _ _ _
  · intro e he hgone
    rw [Server.Broadcast_clients] at hgone
    have h1 : (e.1, line ++ [LF]) ∈ (Server.sendsOf
        (Server.passCalls os (line ++ [LF]) st.trace.length st.g_clients)).map
          (fun c => (c.1, c.2.1)) := by
      rw [htargets]
      exact List.mem_map_of_mem (fun e : SOCKET × Server.ClientInfo => (e.1, line ++ [LF])) he
    obtain ⟨c, hc, hce⟩ := List.mem_map.mp h1
    obtain ⟨s, p, r⟩ := c
    obtain ⟨hs, hp⟩ := Prod.mk.inj hce
    simp only at hs hp
    subst hs hp
    by_cases hr : r = .fatal
    · rw [← hr]; exact hc
    · exact absurd ((hfate e.1 _ r hc).2 hr e.2 he) hgone

/-- C14, as the code has it, on `twoClients` when every `send` on socket 8 reports
"would block": socket 8 stays registered. -/
theorem would_block_keeps_connection_witness :
    (Server.keys Server.twoClients.g_clients).Nodup ∧
    Server.sendsOf (Server.Broadcast Server.blockingAt8 "INFO:x".toList Server.twoClients).trace
      = [(7, "INFO:x\n".toList, .sent), (8, "INFO:x\n".toList, .wouldBlock)] ∧
    ∃ calls : List SocketCall,
      (Server.Broadcast Server.blockingAt8 "INFO:x".toList Server.twoClients).trace
        = Server.twoClients.trace ++ calls ∧
      (Server.sendsOf calls).map (fun c => (c.1, c.2.1))
        = Server.twoClients.g_clients.map (fun e => (e.1, "INFO:x".toList ++ [LF])) ∧
      (∀ s p r, (s, p, r) ∈ Server.sendsOf calls →
        (r = .wouldBlock ∨ r = .sent → ∀ info, (s, info) ∈ Server.twoClients.g_clients →
          (s, info) ∈
            (Server.Broadcast Server.blockingAt8 "INFO:x".toList Server.twoClients).g_clients) ∧
        (r = .fatal → s ∉ Server.keys
          (Server.Broadcast Server.blockingAt8 "INFO:x".toList Server.twoClients).g_clients)) ∧
      List.Sublist
        (Server.Broadcast Server.blockingAt8 "INFO:x".toList Server.twoClients).g_clients
        Server.twoClients.g_clients ∧
      (∀ e ∈ Server.twoClients.g_clients,
        e ∉ (Server.Broadcast Server.blockingAt8 "INFO:x".toList Server.twoClients).g_clients →
        (e.1, "INFO:x".toList ++ [LF], SendResult.fatal) ∈ Server.sendsOf calls) :=
  ⟨by decide, by decide,
   would_block_keeps_connection Server.blockingAt8 "INFO:x".toList Server.twoClients
    (by decide)⟩

/-- C14 as stated fails: on `twoClients`, a `send` on socket 8 that reports "would
block" leaves socket 8 registered and open, whereas one that fails fatally closes
the socket and removes it; the two are not handled alike. -/
theorem would_block_counterexample :
    Server.sendsOf (Server.Broadcast Server.blockingAt8 "INFO:x".toList Server.twoClients).trace
      = [(7, "INFO:x\n".toList, .sent), (8, "INFO:x\n".toList, .wouldBlock)] ∧
    Server.keys (Server.Broadcast Server.blockingAt8 "INFO:x".toList Server.twoClients).g_clients
      = [7, 8] ∧
    SocketCall.closesocket 8 ∉
      (Server.Broadcast Server.blockingAt8 "INFO:x".toList Server.twoClients).trace ∧
    Server.keys (Server.Broadcast Server.failingAt8 "INFO:x".toList Server.twoClients).g_clients
      = [7] := by
  decide

/-- C15, as the code has it. Handling the line `NICK:` with nothing after the
prefix sets the display name of the connection to the fixed name `Guest`: the name
is not empty, it is not `Guest` followed by a number, and the guest counter is
neither read nor advanced. -/
theorem empty_nick_becomes_guest (os : Win32) (st : Server.ServerState) (key : SOCKET)
    (client : Server.ClientInfo) :
    (Server.HandleProtocolLine os st key client "NICK:".toList).2
      = { client with nickname := "Guest".toList } ∧
    (Server.HandleProtocolLine os st key client "NICK:".toList).2.nickname ≠ [] ∧
    (∀ n : Int, (Server.HandleProtocolLine os st key client "NICK:".toList).2.nickname
      ≠ "Guest".toList ++ to_wstring n) ∧
    (Server.HandleProtocolLine os st key client "NICK:".toList).1.g_guestCounter
      = st.g_guestCounter ∧
    List.Sublist (Server.HandleProtocolLine os st key client "NICK:".toList).1.g_clients
      (Server.writeClient key { client with nickname := "Guest".toList } st.g_clients) := by
  have h := Server.HandleProtocolLine_nick_empty os st key client [] rfl
  rw [List.append_nil] at h
  rw [h]
  simp only [Server.AppendLog_counter, Server.UpdateClientList_counter, Server.BroadcastInfo,
    Server.Broadcast_counter, Server.AppendLog_clients, Server.UpdateClientList_clients,
    Server.Broadcast_clients]
  refine ⟨trivial, by decide, ?_, trivial, Server.passKept_sublist os _ _ _⟩
  intro n hn
  have h1 : "Guest".toList ++ to_wstring n = "Guest".toList ++ [] := by
    rw [List.append_nil]; exact hn.symm
  exact to_wstring_ne_nil n (List.append_cancel_left h1)

/-- C15 as stated fails: on `oneClient`, whose guest counter holds 2, the line
`NICK:` from the connection on socket 7 sets its name to `Guest`, not to `Guest2`,
and leaves the counter at 2. -/
theorem empty_nick_counterexample :
    Server.oneClient.g_guestCounter = 2 ∧
    (Server.runServer plainWin32 Server.oneClient
        [.socketMessage (Server.readOf 7 "NICK:\n".toList)]).g_clients
      = [(7, ⟨7, "Guest".toList, []⟩)] ∧
    "Guest".toList ≠ "Guest".toList ++ to_wstring 2 ∧
    (Server.runServer plainWin32 Server.oneClient
        [.socketMessage (Server.readOf 7 "NICK:\n".toList)]).g_guestCounter = 2 := by
  decide

/-- C16. Unrecognized lines are ignored by both peers. On the server, a line that
neither starts with `NICK:` or `MSG:` nor is `PING` leaves the state, trace
included, and the connection as they are. On the client, a line that neither starts
with `FROM:` or `INFO:` nor is `PONG` leaves the state, log included, as it is. -/
theorem unrecognized_lines_ignored (os : Win32) (st : Server.ServerState) (key : SOCKET)
    (client : Server.ClientInfo) (cst : Client.ClientState) (line : Bytes) :
    (¬ "NICK:".toList <+: line → ¬ "MSG:".toList <+: line → line ≠ "PING".toList →
      Server.HandleProtocolLine os st key client line = (st, client)) ∧
    (¬ "FROM:".toList <+: line → ¬ "INFO:".toList <+: line → line ≠ "PONG".toList →
      Client.HandleIncomingLine os cst line = cst) := by
  constructor
  · intro h1 h2 h3
    rw [Server.HandleProtocolLine, if_neg (fun h => h1 ((rfindAtZero_iff _ _).mp h)),
      if_neg (fun h => h2 ((rfindAtZero_iff _ _).mp h)), if_neg h3]
  · intro h1 h2 h3
    rw [Client.HandleIncomingLine, if_neg (fun h => h1 ((rfindAtZero_iff _ _).mp h)),
      if_neg (fun h => h2 ((rfindAtZero_iff _ _).mp h)), if_neg h3]

/-- C16 for the line `HELLO`, on the server `twoClients` and on the client in its
initial state. -/
theorem unrecognized_lines_ignored_witness :
    Server.HandleProtocolLine plainWin32 Server.twoClients 7 ⟨7, "Guest1".toList, []⟩
        "HELLO".toList = (Server.twoClients, ⟨7, "Guest1".toList, []⟩) ∧
    Client.HandleIncomingLine plainWin32 Client.initialClientState "HELLO".toList
      = Client.initialClientState :=
  ⟨(unrecognized_lines_ignored plainWin32 Server.twoClients 7 ⟨7, "Guest1".toList, []⟩
      Client.initialClientState "HELLO".toList).1 (by decide) (by decide) (by decide),
   (unrecognized_lines_ignored plainWin32 Server.twoClients 7 ⟨7, "Guest1".toList, []⟩
      Client.initialClientState "HELLO".toList).2 (by decide) (by decide) (by decide)⟩

/-- C17, as the code has it. Drain loop outcomes on the server. Let the connection
under `key` be registered in a well-formed map, let `recv` first return the
non-empty `chunks`, and let no broadcast made while these are handled erase the
entry of the connection itself (`drainKeepsEntry`). The loop appends each chunk to
the buffer and handles the complete lines, which are the frames the extraction loop
takes from the buffer, in order; the buffer it leaves is the one the frame assembler
leaves. It stops at the first result that is not data, whatever results would
follow. On "would block" it returns the state the line handling left, in which the
connection is registered with that residual buffer. On a zero-length read and on any
other error it ends with `DisconnectClient` on the connection: the socket is closed,
the connection is not in the map afterwards, and its leave line is sent to the
remaining connections. -/
theorem drain_outcomes (os : Win32) (st : Server.ServerState) (key : SOCKET)
    (client : Server.ClientInfo) (chunks : List Bytes) (rest : List RecvResult)
    (hne : ∀ c ∈ chunks, c ≠ [])
    (hreg : Server.findClient key st.g_clients = some client)
    (hwf : Server.WellFormed st.g_clients)
    (hlive : Server.drainKeepsEntry os (chunks.map RecvResult.received) st key client = true) :
    Server.DrainClientSocket os (chunks.map RecvResult.received ++ .wouldBlock :: rest)
        st key client
      = (Server.feedServer os key chunks (st, client)).1 ∧
    Server.DrainClientSocket os (chunks.map RecvResult.received ++ .received [] :: rest)
        st key client
      = Server.DisconnectClient os key (Server.feedServer os key chunks (st, client)).1 ∧
    Server.DrainClientSocket os (chunks.map RecvResult.received ++ .error :: rest)
        st key client
      = Server.DisconnectClient os key (Server.feedServer os key chunks (st, client)).1 ∧
    key ∉ Server.keys
      (Server.DisconnectClient os key (Server.feedServer os key chunks (st, client)).1).g_clients ∧
    (Server.feedServer os key chunks (st, client)).2.buffer
      = (feedChunks client.buffer chunks).2 ∧
    (∀ (fuel : Nat) (st1 : Server.ServerState) (c1 : Server.ClientInfo),
      Server.loopKeepsEntry os fuel st1 key c1 = true →
      Server.handleBufferedLines os fuel st1 key c1
        = (extractFrames fuel c1.buffer).foldl (Server.handleFrame os key) (st1, c1)) ∧
    Server.findClient key (Server.feedServer os key chunks (st, client)).1.g_clients
      = some (Server.feedServer os key chunks (st, client)).2 ∧
    ∃ calls : List SocketCall,
      (Server.DisconnectClient os key (Server.feedServer os key chunks (st, client)).1).trace
        = (Server.feedServer os key chunks (st, client)).1.trace ++ [.closesocket key]
          ++ calls ∧
      (Server.sendsOf calls).map (fun c => (c.1, c.2.1))
        = (Server.eraseClient key
            (Server.feedServer os key chunks (st, client)).1.g_clients).map
          (fun e => (e.1, "INFO:".toList ++ WideToUtf8 os
            ((Server.feedServer os key chunks (st, client)).2.nickname
              ++ " left the chat.".toList) ++ [LF])) := by
  have hc : Server.EntryOk key client := hwf.2 _ (Server.mem_of_findClient hreg)
  obtain ⟨hwf2, hc2⟩ := Server.feedServer_inv os key chunks (st, client) hwf hc
  have hs : (Server.feedServer os key chunks (st, client)).2.socket = key := hc2.2.1
  have hl := Server.feedServer_live os key chunks hne (st, client) hwf hc hreg hlive
  refine ⟨?_, ?_, ?_, Server.DisconnectClient_not_mem os key _ hwf2.1,
    Server.feedServer_buffer os key chunks (st, client),
    fun fuel st1 c1 _ => Server.handleBufferedLines_eq_foldl os key fuel st1 c1, hl, ?_⟩
  · rw [Server.DrainClientSocket_eq os key chunks _ rest hne]
  · rw [Server.DrainClientSocket_eq os key chunks _ rest hne]
    simp only [List.length_nil, Nat.lt_irrefl, if_false, hs]
  · rw [Server.DrainClientSocket_eq os key chunks _ rest hne]
    simp only [hs]
  · rw [Server.DisconnectClient_named os key _ _ hl hc2.1]
    simp only [Server.BroadcastInfo, Server.Broadcast_trace, Server.AppendLog_trace,
      Server.UpdateClientList_trace, Server.AppendLog_clients, Server.UpdateClientList_clients]
    exact ⟨_, rfl, Server.sendsOf_passCalls_targets os _ _ _⟩

/-- C17, as the code has it, for the connection on socket 7 of `twoClients`, when
`recv` returns `NICK:bob` with its terminator and the partial line `PI`: on "would
block" the connection stays registered as `bob` with the buffer `PI`; on a
zero-length read it is removed. -/
theorem drain_outcomes_witness :
    Server.findClient 7
        (Server.DrainClientSocket plainWin32
          (["NICK:bob\nPI".toList].map RecvResult.received ++ .wouldBlock :: [])
          Server.twoClients 7 ⟨7, "Guest1".toList, []⟩).g_clients
      = some ⟨7, "bob".toList, "PI".toList⟩ ∧
    7 ∉ Server.keys
        (Server.DrainClientSocket plainWin32
          (["NICK:bob\nPI".toList].map RecvResult.received ++ .received [] :: [])
          Server.twoClients 7 ⟨7, "Guest1".toList, []⟩).g_clients := by
  have h := drain_outcomes plainWin32 Server.twoClients 7 ⟨7, "Guest1".toList, []⟩
    ["NICK:bob\nPI".toList] [] (by decide) (by decide)
    (by unfold Server.WellFormed Server.EntryOk; decide) (by decide)
  refine ⟨?_, ?_⟩
  · rw [h.1]; decide
  · rw [h.2.1]; exact h.2.2.2.1

/-- C17 as stated fails. On `twoClients`, the connection on socket 7 sends `NICK:a`
while every `send` on socket 7 fails fatally, and the next `recv` reports "would
block". The broadcast of the rename, made while the line is handled, closes socket 7
and erases its entry: when the loop stops on "would block" the connection is not in
the registry. -/
theorem drain_outcomes_counterexample :
    Server.findClient 7 Server.twoClients.g_clients = some ⟨7, "Guest1".toList, []⟩ ∧
    (Server.DrainClientSocket Server.failingAt7
        [.received "NICK:a\n".toList, .wouldBlock]
        Server.twoClients 7 ⟨7, "Guest1".toList, []⟩).trace
      = [.send 7 "INFO:Guest1 is now known as a.\n".toList .fatal,
         .closesocket 7,
         .send 8 "INFO:Guest1 is now known as a.\n".toList .sent] ∧
    Server.findClient 7
        (Server.DrainClientSocket Server.failingAt7
          [.received "NICK:a\n".toList, .wouldBlock]
          Server.twoClients 7 ⟨7, "Guest1".toList, []⟩).g_clients = none ∧
    Server.drainKeepsEntry Server.failingAt7 [.received "NICK:a\n".toList, .wouldBlock]
        Server.twoClients 7 ⟨7, "Guest1".toList, []⟩ = false := by
  decide

/-- C18 fails on the code. On `twoClients`, the connection on socket 7 sends
`NICK:a` and `MSG:hi` in one read while every `send` on socket 7 fails fatally. The
broadcast of the rename closes socket 7 and erases its entry; the drain loop then
goes on with the reference to the erased entry, handles `MSG:hi` and broadcasts
`FROM:a:hi` on behalf of the removed connection. -/
theorem drain_continues_after_prune :
    (Server.HandleSocketMessage Server.failingAt7 Server.twoClients
        ⟨7, .FD_READ, 0, INVALID_SOCKET, true,
          [.received "NICK:a\nMSG:hi\n".toList, .error]⟩).trace
      = [.send 7 "INFO:Guest1 is now known as a.\n".toList .fatal,
         .closesocket 7,
         .send 8 "INFO:Guest1 is now known as a.\n".toList .sent,
         .send 8 "FROM:a:hi\n".toList .sent] ∧
    Server.keys (Server.HandleSocketMessage Server.failingAt7 Server.twoClients
        ⟨7, .FD_READ, 0, INVALID_SOCKET, true,
          [.received "NICK:a\nMSG:hi\n".toList, .error]⟩).g_clients = [8] := by
  decide

/-- C19, as the code has it. Client handshake. When `MarkConnected` is called on a
session that is not connected and has a socket, the session becomes connected (and
not connecting) and makes exactly one socket call: a `send` on its socket of
`NICK:`, a name and one terminator, the name being the first 62 characters of the
text of the nickname control, or `Guest` when that is empty. Called on a session
that is connected, `MarkConnected` returns the state as it is, trace included. -/
theorem handshake_on_open (os : Win32) (st : Client.ClientState)
    (hnc : st.g_connected = false) (hsock : st.g_socket ≠ INVALID_SOCKET) :
    (Client.MarkConnected os st).trace
      = st.trace ++ [.send st.g_socket
          ("NICK:".toList ++ WideToUtf8 os
            (if st.nicknameText.take 62 = [] then "Guest".toList else st.nicknameText.take 62)
            ++ [LF])
          (os.send st.trace.length st.g_socket
            ("NICK:".toList ++ WideToUtf8 os
              (if st.nicknameText.take 62 = [] then "Guest".toList
               else st.nicknameText.take 62) ++ [LF]))] ∧
    (Client.MarkConnected os st).g_connected = true ∧
    (Client.MarkConnected os st).g_connecting = false ∧
    (∀ st2 : Client.ClientState, st2.g_connected = true → Client.MarkConnected os st2 = st2) := by
  refine ⟨?_, ?_, ?_, fun st2 h => Client.MarkConnected_connected os st2 h⟩
  · unfold Client.MarkConnected
    rw [if_neg (by simp [hnc])]
    simp only [Client.SendNickname, Client.SendLine, Client.nickLine, Client.GetWindowTextW,
      (Client.UpdateControls_socket_trace _).1, (Client.UpdateControls_socket_trace _).2.1,
      (Client.UpdateControls_socket_trace _).2.2,
      (Client.SetStatus_socket_trace _ _).1, (Client.SetStatus_socket_trace _ _).2.1,
      (Client.SetStatus_socket_trace _ _).2.2,
      (Client.AppendLog_socket_trace _ _).1, (Client.AppendLog_socket_trace _ _).2.1,
      (Client.AppendLog_socket_trace _ _).2.2, if_neg hsock, List.isEmpty_iff]
  · unfold Client.MarkConnected
    rw [if_neg (by simp [hnc])]
    simp only [Client.SendNickname, (Client.SendLine_flags _ _ _).1,
      (Client.UpdateControls_flags _).1, (Client.SetStatus_flags _ _).1,
      (Client.AppendLog_flags _ _).1]
  · unfold Client.MarkConnected
    rw [if_neg (by simp [hnc])]
    simp only [Client.SendNickname, (Client.SendLine_flags _ _ _).2,
      (Client.UpdateControls_flags _).2, (Client.SetStatus_flags _ _).2,
      (Client.AppendLog_flags _ _).2]

/-- C19, as the code has it, for a connecting client on socket 5 whose nickname
control holds `alice`. -/
theorem handshake_on_open_witness :
    (Client.MarkConnected plainWin32 (Client.connectingAs "alice".toList)).trace
      = [.send 5 "NICK:alice\n".toList .sent] :=
  (handshake_on_open plainWin32 (Client.connectingAs "alice".toList) rfl (by decide)).1

/-- C19 as stated fails: with a nickname of 70 characters in the nickname control,
the line sent on entering the connected state carries its first 62 characters, not
the nickname. -/
theorem handshake_counterexample :
    (Client.MarkConnected plainWin32 (Client.connectingAs (List.replicate 70 'a'))).trace
      = [.send 5 ("NICK:".toList ++ List.replicate 62 'a' ++ [LF]) .sent] ∧
    (Client.MarkConnected plainWin32 (Client.connectingAs (List.replicate 70 'a'))).trace
      ≠ [.send 5 ("NICK:".toList ++ List.replicate 70 'a' ++ [LF]) .sent] := by
  decide

/-- C20. Client teardown. From every state and for every reason, `CloseSocket`
leaves the session closed: no socket, not connected, not connecting, receive buffer
empty. Each of the following ends in that state: a socket message for the current
socket that carries an error; one that reports `FD_CLOSE`; a drain whose first
result that is not data is a zero-length read or an error; a click on the connect
button while connected or connecting; and `WM_DESTROY`. -/
theorem teardown_reaches_closed (os : Win32) (st : Client.ClientState) :
    (∀ reason, Client.Closed (Client.CloseSocket st reason)) ∧
    (∀ m : Client.SocketMessage, m.socket = st.g_socket → m.error ≠ 0 →
      Client.Closed (Client.HandleSocketMessage os st m)) ∧
    (∀ m : Client.SocketMessage, m.socket = st.g_socket → m.error = 0 → m.event = .FD_CLOSE →
      Client.Closed (Client.HandleSocketMessage os st m)) ∧
    (∀ (chunks : List Bytes) (final : RecvResult) (rest : List RecvResult),
      (∀ c ∈ chunks, c ≠ []) → final = .received [] ∨ final = .error →
      Client.Closed
        (Client.DrainSocket os (chunks.map RecvResult.received ++ final :: rest) st)) ∧
    (∀ outcome, (st.g_connected || st.g_connecting) = true →
      Client.Closed (Client.MainWndProc os st (.connectClicked outcome))) ∧
    Client.Closed (Client.MainWndProc os st .destroy) := by
  refine ⟨fun r => Client.CloseSocket_closed st r, ?_, ?_, ?_, ?_, Client.CloseSocket_closed st _⟩
  · intro m hs he
    unfold Client.HandleSocketMessage
    rw [if_neg (by simp [hs]), if_pos he]
    exact Client.CloseSocket_closed _ _
  · intro m hs he hev
    unfold Client.HandleSocketMessage
    rw [if_neg (by simp [hs]), if_neg (by simp [he]), hev]
    exact Client.CloseSocket_closed _ _
  · intro chunks final rest hne hfinal
    exact Client.DrainSocket_closed os chunks final rest hne hfinal st
  · intro outcome hc
    show Client.Closed (if (st.g_connected || st.g_connecting) = true then
      Client.SetStatus (Client.CloseSocket st "Disconnected by user.".toList)
        "Disconnected".toList
      else (Client.BeginConnect os st outcome).1)
    rw [if_pos hc]
    exact Client.Closed_SetStatus _ (Client.CloseSocket_closed _ _)

/-- C20 for a connected client on socket 5 with a partial line in its receive
buffer, when the server closes the connection after sending further bytes. -/
theorem teardown_reaches_closed_witness :
    Client.Closed (Client.HandleSocketMessage plainWin32 Client.connectedWithPartialLine
      ⟨5, .FD_CLOSE, 0, []⟩) ∧
    Client.Closed (Client.DrainSocket plainWin32
      (["lo\nFROM:b".toList].map RecvResult.received ++ .received [] :: [])
      Client.connectedWithPartialLine) ∧
    Client.Closed (Client.MainWndProc plainWin32 Client.connectedWithPartialLine
      (.connectClicked none)) :=
  ⟨(teardown_reaches_closed plainWin32 Client.connectedWithPartialLine).2.2.1
      ⟨5, .FD_CLOSE, 0, []⟩ rfl rfl rfl,
   (teardown_reaches_closed plainWin32 Client.connectedWithPartialLine).2.2.2.1
      ["lo\nFROM:b".toList] (.received []) [] (by decide) (Or.inl rfl),
   (teardown_reaches_closed plainWin32 Client.connectedWithPartialLine).2.2.2.2.1
      none rfl⟩

/-- C21. Server registry invariant. Let `st` be the state after any sequence of
window messages from the initial state (window creation, start and stop, socket
messages for accept, read, close and error with any results of the socket calls,
destruction), under any behaviour of text conversion and of `send`, in which no
connection is erased by a broadcast made while its own lines are handled
(`runKeepsEntries`: the runs in which `DrainClientSocket` never uses a dangling
reference). Then the keys of the registry are distinct, and every entry has a
non-empty nickname, a `socket` field equal to its key, and a key other than
`INVALID_SOCKET`. Hence, for every registered connection: a `NICK` line is announced
by the rename message, never by the join message; a `MSG` line is relayed under the
name the connection has, without a guest name being generated; no line changes the
guest counter; and a further window message of such a run changes the guest counter
only when it registers a connection. -/
theorem registry_invariant (os : Win32) (events : List Server.ServerEvent)
    (st : Server.ServerState)
    (hst : st = Server.runServer os Server.initialServerState events)
    (_hlive : Server.runKeepsEntries os Server.initialServerState events = true) :
    (Server.keys st.g_clients).Nodup ∧
    (∀ key client, (key, client) ∈ st.g_clients →
      client.nickname ≠ [] ∧ client.socket = key ∧ key ≠ INVALID_SOCKET) ∧
    (∀ key client, Server.findClient key st.g_clients = some client →
      (∀ name : Bytes,
        Server.HandleProtocolLine os st key client ("NICK:".toList ++ name)
          = (Server.AppendLog (Server.UpdateClientList
              (Server.BroadcastInfo os
                (client.nickname ++ " is now known as ".toList
                  ++ (if (Utf8ToWide os name).isEmpty = true then "Guest".toList
                      else Utf8ToWide os name) ++ ".".toList)
                { st with g_clients :=
                    Server.writeClient key { client with nickname := (if (Utf8ToWide os name).isEmpty = true then "Guest".toList else Utf8ToWide os name) } st.g_clients }))
              (client.nickname ++ " is now known as ".toList
                ++ (if (Utf8ToWide os name).isEmpty = true then "Guest".toList
                    else Utf8ToWide os name) ++ ".".toList),
             { client with nickname := (if (Utf8ToWide os name).isEmpty = true then "Guest".toList else Utf8ToWide os name) })) ∧
      (∀ text : Bytes,
        Server.HandleProtocolLine os st key client ("MSG:".toList ++ text)
          = (Server.BroadcastChat os client (Utf8ToWide os text)
              (Server.AppendLog st (client.nickname ++ ": ".toList ++ Utf8ToWide os text)),
             client)) ∧
      (∀ line : Bytes,
        (Server.HandleProtocolLine os st key client line).1.g_guestCounter
          = st.g_guestCounter)) ∧
    (∀ e : Server.ServerEvent, Server.eventKeepsEntry os st e = true →
      (Server.MainWndProc os st e).g_guestCounter
        = if Server.registers e = true then incrementInt st.g_guestCounter
          else st.g_guestCounter) := by
  have hwf : Server.WellFormed st.g_clients := by
    rw [hst]
    exact Server.runServer_wellFormed os events _ Server.WellFormed_nil
  refine ⟨hwf.1, fun key client h => hwf.2 (key, client) h, ?_,
    fun e _ => (Server.MainWndProc_inv os st e hwf).2⟩
  intro key client hreg
  have hc : Server.EntryOk key client := hwf.2 _ (Server.mem_of_findClient hreg)
  exact ⟨fun name => Server.HandleProtocolLine_nick_named os st key client name hc.1,
    fun text => Server.HandleProtocolLine_msg os st key client text hc.1,
    fun line => (Server.HandleProtocolLine_inv os st key client line hwf hc).2.2⟩

/-- C21 for the run in which the server is started, accepts connections on the
sockets 7 and 8, reads `NICK:bob` from socket 7 and loses socket 8 by an error: the
one entry left is well formed. -/
theorem registry_invariant_witness :
    (Server.runServer plainWin32 Server.initialServerState Server.sampleRun).g_clients
      = [(7, ⟨7, "bob".toList, []⟩)] ∧
    ∀ key client,
      (key, client) ∈
        (Server.runServer plainWin32 Server.initialServerState Server.sampleRun).g_clients →
      client.nickname ≠ [] ∧ client.socket = key ∧ key ≠ INVALID_SOCKET :=
  ⟨by decide,
   (registry_invariant plainWin32 Server.sampleRun
      (Server.runServer plainWin32 Server.initialServerState Server.sampleRun) rfl
      (by decide)).2.1⟩

/-- C22. Client state-flag invariant. Let `st` be the state after any sequence of
window messages and edits from the initial state (window creation, clicks on the
connect button with any outcome of the connection attempt, clicks on the send
button, socket messages with any results of the socket calls, edits of the
nickname and message controls, destruction). Then `g_connected` and `g_connecting`
are not both set, and a socket message whose socket differs from `g_socket` leaves
the state, trace included, as it is. -/
theorem client_flags_invariant (os : Win32) (events : List Client.ClientEvent)
    (st : Client.ClientState)
    (hst : st = Client.runClient os Client.initialClientState events) :
    ¬ (st.g_connected = true ∧ st.g_connecting = true) ∧
    (∀ m : Client.SocketMessage, m.socket ≠ st.g_socket →
      Client.HandleSocketMessage os st m = st ∧
      Client.MainWndProc os st (.socketMessage m) = st) := by
  constructor
  · rw [hst]
    exact Client.runClient_flagsOk os events _ (by unfold Client.FlagsOk; decide)
  · intro m hm
    exact ⟨Client.HandleSocketMessage_other_socket os st m hm,
      Client.HandleSocketMessage_other_socket os st m hm⟩

/-- C22 for the client connected on socket 5: it is connected and not connecting,
and a read notification for socket 6 changes nothing. -/
theorem client_flags_invariant_witness :
    ¬ (Client.connectedWithPartialLine.g_connected = true ∧
        Client.connectedWithPartialLine.g_connecting = true) ∧
    Client.HandleSocketMessage plainWin32 Client.connectedWithPartialLine
        ⟨6, .FD_READ, 0, [.received "INFO:x\n".toList]⟩
      = Client.connectedWithPartialLine :=
  ⟨(client_flags_invariant plainWin32
      [.create true true true true true true, .nicknameEdited "alice".toList,
       .connectClicked (some (5, false)),
       .socketMessage ⟨5, .FD_CONNECT, 0, []⟩,
       .socketMessage ⟨5, .FD_READ, 0, [.received "FROM:bob:hel".toList, .wouldBlock]⟩]
      Client.connectedWithPartialLine rfl).1,
   ((client_flags_invariant plainWin32
      [.create true true true true true true, .nicknameEdited "alice".toList,
       .connectClicked (some (5, false)),
       .socketMessage ⟨5, .FD_CONNECT, 0, []⟩,
       .socketMessage ⟨5, .FD_READ, 0, [.received "FROM:bob:hel".toList, .wouldBlock]⟩]
      Client.connectedWithPartialLine rfl).2
        ⟨6, .FD_READ, 0, [.received "INFO:x\n".toList]⟩ (by decide)).1⟩

end WineJS
